import Mathlib

/-!
# Still-frame extractor: the capture-and-filter pipeline

A shallow embedding of `src/still/still.cpp` and `src/still/still.h`, with the parts of
`src/util/util.h` (`Stopper`, `parseExc`) and `retrieve.hpp` (`RetrieveProps`) they use, and
of the option table and the option parsing of `src/still_config.cpp`.

* C++ `int` values are Lean `Int`; `/` on `int` is `Int.tdiv` (truncation toward zero).
  Signed overflow in `int` arithmetic is undefined in C++ and is not modelled: the
  development reads the code for frames and counters that fit in an `int`. The one
  narrowing conversion, `(int)` in `Stopper::elapsedMs`, is taken modulo 2^32.
* A frame (`cv::Mat`) is its header together with the byte memory behind `ptr()`, a function
  from byte offset to byte value.
* Plain `char` is signed on some platforms and unsigned on others; `hasChanged`, which reads
  the pixels through `const char*`, takes the signedness as a parameter.
* A loop is a recursion on the number of passes left. Where a property speaks of the
  positions a loop visits, the loop is given a second time with the position written down
  at each pass (`sampleIndices`, `scanRowVisits`, `scanRowsVisits`, `tileVisits`, `visited`).
* A character string is the list of the character codes before its terminating NUL. A
  function that may fail to end has an `Option` value, `none` standing for a loop that has
  not ended within the passes allowed; a call that may throw ends in an `Outcome`. In
  `parseExc<int>` the arithmetic of `int` wraps modulo 2^32.
* The enumerators `OPT_...` are declared in `still_config.h`, which is not among the
  sources; the values they have are a parameter of the option parsing.
* `std::set<SharpTile>` is a list kept sorted by `SharpTile::operator<`; insertion follows
  `std::set::insert`, which drops an element equivalent to one already stored.
* `StillFilter::run` is a step function over explicit state. Everything an iteration reads
  from its environment (clock, `started`, options, capture results, detector results, the
  worker thread finishing) is a field of the iteration input; everything it does is logged
  as a list of events in source order.
* The worker thread of the frame processor meets the loop only in the status word. Its end
  is an input of the pass, placed before the call of `status()` or between that call and
  the dispatch; an end later in the pass is the same as one before the next `status()`.
-/

namespace projector

/-! ## Configuration -/

/-- The option variables `Arguments::opt...` (still_config.cpp 13-32) read by the analysers. -/
structure Arguments where
  optStillNoiseThreshold : Int
  optStillSamplingInc : Int
  optStillDeflectionPercent : Int
  optSharpTilesPerSide : Int
  optSharpDiffLow : Int
  optSharpDiffHigh : Int
  optSharpHighPercent : Int

/-! ## Frames -/

/-- The value of `CV_8U`. -/
def CV_8U : Int := 0

/-- A `cv::Mat` as the analysers see it: header fields and the bytes behind `ptr()`. -/
structure Mat where
  rows : Int
  cols : Int
  channelCount : Int
  depthCode : Int
  continuous : Bool
  data : Nat → Nat

/-- Source `Mat::isContinuous()`. -/
def Mat.isContinuous (m : Mat) : Bool := m.continuous

/-- Source `Mat::channels()`. -/
def Mat.channels (m : Mat) : Int := m.channelCount

/-- Source `Mat::depth()`. -/
def Mat.depth (m : Mat) : Int := m.depthCode

/-- The `unsigned char` at byte offset `off` from `image`, converted to `int`. -/
def readU8 (image : Nat → Nat) (off : Int) : Int := (image off.toNat : Int)

/-- A frame whose bytes are all 8-bit values. -/
def Mat.bytesValid (m : Mat) : Prop := ∀ i, m.data i < 256

/-! ## Sharp tiles and the ordered set holding them -/

/-- Source `SharpTile` (still.h 54-78). -/
structure SharpTile where
  highPercent : Int
  width : Int
  height : Int
  startX : Int
  startY : Int
  deriving DecidableEq, Repr

/-- Source `SharpTile::operator<` (still.h 75-77): ordering by `highPercent` alone. -/
def SharpTile.lt (a b : SharpTile) : Bool := decide (a.highPercent < b.highPercent)

/-- Source `std::set<SharpTile>::insert`: the set is a list sorted by `SharpTile.lt`; an element
equivalent to a stored one (neither is less than the other) is not inserted. -/
def setInsert : List SharpTile → SharpTile → List SharpTile
  | [], t => [t]
  | h :: r, t =>
    if t.lt h then t :: h :: r
    else if h.lt t then h :: setInsert r t
    else h :: r

/-! ## `StillFilter::dividor` -/

/-- Source `StillFilter::dividor` (still.cpp 370-382). -/
def dividor (len div : Int) : Int :=
  let min : Int := 16
  let c : Int := len + (min >>> 1)
  let ret : Int := div
  if Int.tdiv c div < min then
    let ret := Int.tdiv c min
    if ret = 0 then 1 else ret
  else ret

/-! ## `StillFilter::checkSharpness` -/

/-- The four per-tile counters of still.cpp 415-417. -/
structure Counters where
  dVertL : Int
  dHorL : Int
  dVertH : Int
  dHorH : Int
  deriving DecidableEq, Repr

/-- The scan position: the pointer `thisLine` (as a byte offset from `image`) and the
counters. -/
structure Scan where
  thisLine : Int
  cnt : Counters
  deriving DecidableEq, Repr

/-- One pass of the innermost loop body (still.cpp 426-447). -/
def scanPixel (cfg : Arguments) (image : Nat → Nat) (lineLen : Int) (s : Scan) : Scan :=
  let d : Int := readU8 image (s.thisLine + lineLen) - readU8 image s.thisLine
  let d : Int := if d < 0 then -d else d
  let dVertL := if d > cfg.optSharpDiffLow then s.cnt.dVertL + 1 else s.cnt.dVertL
  let dVertH :=
    if d > cfg.optSharpDiffLow then
      (if d > cfg.optSharpDiffHigh then s.cnt.dVertH + 1 else s.cnt.dVertH)
    else s.cnt.dVertH
  let d : Int := readU8 image s.thisLine
  let thisLine := s.thisLine + 3
  let d : Int := d - readU8 image thisLine
  let d : Int := if d < 0 then -d else d
  let dHorL := if d > cfg.optSharpDiffLow then s.cnt.dHorL + 1 else s.cnt.dHorL
  let dHorH :=
    if d > cfg.optSharpDiffLow then
      (if d > cfg.optSharpDiffHigh then s.cnt.dHorH + 1 else s.cnt.dHorH)
    else s.cnt.dHorH
  { thisLine := thisLine,
    cnt := { dVertL := dVertL, dHorL := dHorL, dVertH := dVertH, dHorH := dHorH } }

/-- The loop over `x` (still.cpp 425-448), by the number of passes left. -/
def scanRow (cfg : Arguments) (image : Nat → Nat) (lineLen : Int) : Nat → Scan → Scan
  | 0, s => s
  | n + 1, s => scanRow cfg image lineLen n (scanPixel cfg image lineLen s)

/-- The loop over `y` (still.cpp 423-450), by the number of passes left: one row of
`thisWidth` pixels, then the pointer moves to the start of the tile's next line. -/
def scanRows (cfg : Arguments) (image : Nat → Nat) (lineLen thisWidth : Int) :
    Nat → Scan → Scan
  | 0, s => s
  | n + 1, s =>
    let s1 := scanRow cfg image lineLen thisWidth.toNat s
    scanRows cfg image lineLen thisWidth n
      { s1 with thisLine := s1.thisLine + (lineLen - thisWidth * 3) }

/-- The tile grid computed at still.cpp 391-409. -/
structure Grid where
  imageHeight : Int
  imageWidth : Int
  divHor : Int
  divVert : Int
  dividedWidth : Int
  dividedHeight : Int
  lastWidth : Int
  lastHeight : Int
  lineLen : Int
  deriving DecidableEq, Repr

/-- The grid of a frame (still.cpp 391-398, 409). -/
def grid (cfg : Arguments) (frame : Mat) : Grid :=
  let imageHeight := frame.rows
  let imageWidth := frame.cols
  let divHor := dividor imageWidth cfg.optSharpTilesPerSide
  let divVert := dividor imageHeight cfg.optSharpTilesPerSide
  let dividedWidth := Int.tdiv imageWidth divHor
  let dividedHeight := Int.tdiv imageHeight divVert
  let lastWidth := imageWidth - dividedWidth * (divHor - 1) - 1
  let lastHeight := imageHeight - dividedHeight * (divVert - 1) - 1
  { imageHeight := imageHeight, imageWidth := imageWidth, divHor := divHor,
    divVert := divVert, dividedWidth := dividedWidth, dividedHeight := dividedHeight,
    lastWidth := lastWidth, lastHeight := lastHeight, lineLen := imageWidth * 3 }

/-- The array `lenHor` after still.cpp 399-403: entry `i` for `0 ≤ i < divHor`. -/
def Grid.lenHor (g : Grid) (i : Int) : Int :=
  if i = g.divHor - 1 then g.lastWidth else g.dividedWidth

/-- The array `lenVert` after still.cpp 404-408: entry `i` for `0 ≤ i < divVert`. -/
def Grid.lenVert (g : Grid) (i : Int) : Int :=
  if i = g.divVert - 1 then g.lastHeight else g.dividedHeight

/-- The counters of tile `(fx, fy)` after its scan (still.cpp 411-450). -/
def tileCounters (cfg : Arguments) (image : Nat → Nat) (g : Grid) (fx fy : Int) : Counters :=
  let thisWidth := g.lenHor fx
  let thisHeight := g.lenVert fy
  let startX := fx * g.dividedWidth
  let startY := fy * g.dividedHeight
  let y := startY
  let thisLine := g.lineLen * y + startX * 3
  (scanRows cfg image g.lineLen thisWidth thisHeight.toNat
    { thisLine := thisLine, cnt := { dVertL := 0, dHorL := 0, dVertH := 0, dHorH := 0 } }).cnt

/-- The value `highPercentH` of still.cpp 453-457. -/
def highPercentH (g : Grid) (c : Counters) : Int :=
  if c.dHorL ≥ g.dividedWidth then Int.tdiv (c.dHorH * 100) c.dHorL else -1

/-- The value `highPercentV` of still.cpp 453, 458-460. -/
def highPercentV (g : Grid) (c : Counters) : Int :=
  if c.dVertL ≥ g.dividedHeight then Int.tdiv (c.dVertH * 100) c.dVertL else -1

/-- The value `highPercent` of still.cpp 461. -/
def highPercent (g : Grid) (c : Counters) : Int :=
  if highPercentH g c > highPercentV g c then highPercentH g c else highPercentV g c

/-- The `SharpTile` that tile `(fx, fy)` would be inserted as (still.cpp 463). -/
def tileOf (cfg : Arguments) (image : Nat → Nat) (g : Grid) (fx fy : Int) : SharpTile :=
  { highPercent := highPercent g (tileCounters cfg image g fx fy),
    width := g.lenHor fx, height := g.lenVert fy,
    startX := fx * g.dividedWidth, startY := fy * g.dividedHeight }

/-- The body of the loop over `fy` (still.cpp 413-464) for tile `(fx, fy)`. -/
def tileStep (cfg : Arguments) (image : Nat → Nat) (g : Grid) (fx : Int)
    (sharp : List SharpTile) (fy : Nat) : List SharpTile :=
  let t := tileOf cfg image g fx fy
  if t.highPercent > cfg.optSharpHighPercent then setInsert sharp t else sharp

/-- The body of the loop over `fx` (still.cpp 411-465): the whole loop over `fy`. -/
def columnStep (cfg : Arguments) (image : Nat → Nat) (g : Grid)
    (sharp : List SharpTile) (fx : Nat) : List SharpTile :=
  (List.range g.divVert.toNat).foldl (tileStep cfg image g fx) sharp

/-- The two nested loops of still.cpp 410-466, from the empty set. -/
def sharpTiles (cfg : Arguments) (frame : Mat) : List SharpTile :=
  let g := grid cfg frame
  (List.range g.divHor.toNat).foldl (columnStep cfg frame.data g) []

/-- Source `StillFilter::checkSharpness` (still.cpp 384-471): `none` is the `invalid_argument`
thrown for a frame that is not continuous 8-bit three-channel. -/
def checkSharpness (cfg : Arguments) (frame : Mat) : Option (List SharpTile) :=
  if !frame.isContinuous || frame.channels != 3 || frame.depth != CV_8U then none
  else some (sharpTiles cfg frame)

/-- Every grid tile in scan order, each as the `SharpTile` it would be inserted as. -/
def gridTiles (cfg : Arguments) (frame : Mat) : List SharpTile :=
  let g := grid cfg frame
  (List.range g.divHor.toNat).flatMap fun fx =>
    (List.range g.divVert.toNat).map fun fy => tileOf cfg frame.data g fx fy

/-! ## The frame processor -/

/-- Source `FrameProcStatus` (still.h 28-49). -/
inductive FrameProcStatus
  | RESULT_NOIMAGE
  | RESULT_PROCESSING
  | RESULT_FAIL
  | RESULT_INCOMPLETE
  | RESULT_APPROXIMATE
  | RESULT_EXACT
  deriving DecidableEq, Repr

open FrameProcStatus

/-- A `ProcessArgs` object (still.h 85-123), identified by the serial number of its
allocation; `timestamp` is the clock value its constructor took. The frame and the tile set
it owns are freed by its destructor and have no life of their own. -/
structure ProcessArgs where
  serial : Nat
  timestamp : Int
  deriving DecidableEq, Repr

/-- The fields of `FrameProcessor` (still.h 128-150). `working` lists the jobs handed to a
worker thread whose lambda (still.cpp 38-49) has not finished yet. -/
structure FrameProcessor where
  current : FrameProcStatus
  finish : Bool
  theThread : Bool
  working : List ProcessArgs
  deriving DecidableEq, Repr

/-- Source `FrameProcessor::FrameProcessor` (still.cpp 19-22) with the member initialisers. -/
def FrameProcessor.init : FrameProcessor :=
  { current := RESULT_NOIMAGE, finish := false, theThread := false, working := [] }

/-- Source `FrameProcessor::process` (still.cpp 31-61), up to the start of the worker. -/
def FrameProcessor.process (p : FrameProcessor) (arg : ProcessArgs) : FrameProcessor :=
  { p with current := RESULT_PROCESSING, finish := false, theThread := true,
           working := p.working ++ [arg] }

/-- The end of a worker lambda (still.cpp 43-44): `doProcess` has returned `r`, which is
stored in `current`, and the job is deleted. Without a running worker nothing happens. -/
def FrameProcessor.workerFinish (p : FrameProcessor) (r : FrameProcStatus) : FrameProcessor :=
  match p.working with
  | [] => p
  | _ :: rest => { p with current := r, working := rest }

/-- A worker lambda ending with result `r` if the input says `some r`, nothing otherwise. -/
def FrameProcessor.workerMay (p : FrameProcessor) : Option FrameProcStatus → FrameProcessor
  | some r => p.workerFinish r
  | none => p

/-- Source `FrameProcessor::status` (still.cpp 107-123): the returned value and the processor
afterwards. -/
def FrameProcessor.status (p : FrameProcessor) : FrameProcStatus × FrameProcessor :=
  let result := p.current
  if p.current ≠ RESULT_NOIMAGE ∧ p.current ≠ RESULT_PROCESSING then
    (result, { p with current := RESULT_NOIMAGE, theThread := false })
  else (result, p)

/-- Source `FrameProcessor::die` (still.cpp 125-127). -/
def FrameProcessor.die (p : FrameProcessor) : FrameProcessor := { p with finish := true }

/-! ## Capture properties -/

/-- Source `RetrColorspace` (retrieve.hpp 20). -/
inductive RetrColorspace
  | CS_GRAY
  | CS_YCRCB
  | CS_BGR
  deriving DecidableEq, Repr

/-- The value of `DS_ORIGINAL` in `RetrDownsample` (retrieve.hpp 15). -/
def DS_ORIGINAL : Int := 0

/-- Source `RetrieveProps` (retrieve.hpp 25-51); `sampling` holds the enumerator's value and
`regionX` the one field of `region` that is assigned. -/
structure RetrieveProps where
  sampling : Int
  regionX : Int
  colorspace : RetrColorspace
  deriving DecidableEq, Repr

/-- The properties `StillFilter::updateCaptureProps` (still.cpp 322-336) passes to
`capture.set`. The `unsigned` field `region.x` receives `-1`. -/
def updateCaptureProps (optStillSamplingPercent optStillDownsampleExponent : Int) :
    RetrieveProps :=
  if optStillSamplingPercent = 0 then
    { regionX := (-1) % 2 ^ 32, sampling := DS_ORIGINAL, colorspace := RetrColorspace.CS_YCRCB }
  else
    { regionX := (-1) % 2 ^ 32, sampling := optStillDownsampleExponent,
      colorspace := RetrColorspace.CS_GRAY }

/-! ## `Stopper` -/

/-- The conversion `(int)` of a 64-bit count: its value modulo 2^32, in the range of `int`. -/
def toInt32 (x : Int) : Int := (x + 2147483648) % 4294967296 - 2147483648

/-- Source `Stopper::elapsedMs` (util.h 136-138) for a stopper started at `startTp`, read when the
clock shows `now`; clock values are in microseconds, `duration_cast` truncates and the count
is converted to `int`. -/
def elapsedMs (startTp now : Int) : Int := toInt32 (Int.tdiv (now - startTp) 1000)

/-! ## `StillFilter::run` -/

/-- A small frame allocated at still.cpp 195: the serial number of its allocation and the
capture properties in force when it was retrieved. -/
structure SmallFrame where
  serial : Nat
  props : Option RetrieveProps
  deriving DecidableEq, Repr

/-- What one pass of the loop does, in source order. -/
inductive Event
  /-- Call `capture.set(props)` inside `updateCaptureProps`. -/
  | setProps (p : RetrieveProps)
  /-- Deletion of a small frame (still.cpp 170, 206, 243). -/
  | deleteSmall (f : SmallFrame)
  /-- Allocation `new ProcessArgs()` (still.cpp 175). -/
  | newArgs (j : ProcessArgs)
  /-- Deletion of a job by the pipeline (still.cpp 182, 268, 307). -/
  | deleteArgs (j : ProcessArgs)
  /-- Call `capture.grab()` (still.cpp 188). -/
  | grab
  /-- Call `capture.retrieve` into the small frame (still.cpp 195-198). -/
  | retrieveSmall
  /-- Call `capture.retrieve` straight into the job's frame (still.cpp 192, 198). -/
  | retrieveDirect
  /-- The second, full-size `capture.retrieve` (still.cpp 229). -/
  | retrieveFull
  /-- The call of `hasChanged` with its `last` argument and its result (still.cpp 218). -/
  | hasChanged (last : Option SmallFrame) (changed : Bool)
  /-- Call `timeInChange.actualize()` at clock value `t` (still.cpp 224, 290). -/
  | actualize (t : Int)
  /-- The call of `checkSharpness` and the size of the set it returned (still.cpp 256). -/
  | checkSharpness (size : Nat)
  /-- The job moved into the stale slot (still.cpp 273). -/
  | toStale (j : ProcessArgs)
  /-- Call `processor.status()` and the value it returned (still.cpp 281). -/
  | status (r : FrameProcStatus)
  /-- Call `processor.process(j)` with the value of `current` on entry (still.cpp 292, 299). -/
  | process (j : ProcessArgs) (entry : FrameProcStatus)
  deriving DecidableEq, Repr

/-- Everything one pass of the loop reads from outside, in source order. -/
structure IterIn where
  /-- Snapshot of `Arguments::optUseStaleFrame` (still.cpp 156). -/
  optUseStaleFrame : Int
  /-- Snapshot of `Arguments::optStillSamplingPercent` (still.cpp 157). -/
  optStillSamplingPercent : Int
  /-- Snapshot of `Arguments::optStillDownsampleExponent` (still.cpp 158). -/
  optStillDownsampleExponent : Int
  /-- Snapshot of `Arguments::optSharpTilesRequired` (still.cpp 159). -/
  optSharpTilesRequired : Int
  /-- Clock read by the `ProcessArgs` constructor (still.cpp 175). -/
  nowAlloc : Int
  /-- The volatile `started` as read at still.cpp 176. -/
  started176 : Bool
  /-- Result of `capture.grab()` (still.cpp 188). -/
  grab : Bool
  /-- Result of the first `capture.retrieve` (still.cpp 198). -/
  retrieve1 : Bool
  /-- Result of `framep->empty()` (still.cpp 202). -/
  empty1 : Bool
  /-- Result of `hasChanged` (still.cpp 218). -/
  changed : Bool
  /-- Clock read by `elapsedMs` (still.cpp 219). -/
  nowElapsed : Int
  /-- Option `Arguments::optStillChangeTime` as read at still.cpp 220. -/
  optStillChangeTime : Int
  /-- Clock read by `actualize` (still.cpp 224). -/
  nowActualize : Int
  /-- Result of the second `capture.retrieve` (still.cpp 229). -/
  retrieve2 : Bool
  /-- Result of `readArg->frame->empty()` (still.cpp 231). -/
  empty2 : Bool
  /-- Size of the set returned by `checkSharpness` (still.cpp 256-260). -/
  tilesSize : Nat
  /-- The volatile `started` as read at still.cpp 272. -/
  started272 : Bool
  /-- A worker thread finishing with this result before `status()` is called. -/
  workerBefore : Option FrameProcStatus
  /-- A worker thread finishing with this result between `status()` and the dispatch. -/
  workerAfter : Option FrameProcStatus
  /-- The volatile `started` as read at still.cpp 283. -/
  started283 : Bool
  /-- The volatile `started` as read at still.cpp 284. -/
  started284 : Bool
  /-- Clock read by `actualize` (still.cpp 290). -/
  nowStale : Int
  deriving DecidableEq, Repr

/-- The variables of `StillFilter::run`, the objects it drives, and the log of the pass. -/
structure Loop where
  /-- Variable `smallFrameLast` (still.cpp 144). -/
  smallFrameLast : Option SmallFrame
  /-- Variable `lastStillSamplingPercent` (still.cpp 145). -/
  lastStillSamplingPercent : Int
  /-- Variable `lastStillDownsampleExponent` (still.cpp 146). -/
  lastStillDownsampleExponent : Int
  /-- Variable `staleArg` (still.cpp 147). -/
  staleArg : Option ProcessArgs
  /-- Variable `keepAlive` (still.cpp 148). -/
  keepAlive : Bool
  /-- The time point held by `timeInChange` (still.cpp 149). -/
  timeInChange : Int
  /-- The frame processor behind `processor`. -/
  processor : FrameProcessor
  /-- The properties last given to `capture.set`, if any. -/
  captureProps : Option RetrieveProps
  /-- Number of objects allocated so far; the next serial number. -/
  allocated : Nat
  /-- Variable `readArg` (still.cpp 152). -/
  readArg : Option ProcessArgs
  /-- Variable `smallFrameCurr` (still.cpp 153). -/
  smallFrameCurr : Option SmallFrame
  /-- Variable `cond` (still.cpp 176). -/
  cond : Bool
  /-- Variable `goOn` (still.cpp 188). -/
  goOn : Bool
  /-- Events of the current pass. -/
  log : List Event
  deriving DecidableEq, Repr

/-- The state on entry to the loop (still.cpp 142-150): `started` as read at line 148, the
clock as read by the `Stopper` constructor and `Arguments::optStillChangeTime` at line 149. -/
def Loop.init (started : Bool) (now optStillChangeTime : Int) : Loop :=
  { smallFrameLast := none, lastStillSamplingPercent := -1,
    lastStillDownsampleExponent := -1, staleArg := none, keepAlive := started,
    timeInChange := now + -(optStillChangeTime + 1) * 1000,
    processor := FrameProcessor.init, captureProps := none, allocated := 0,
    readArg := none, smallFrameCurr := none, cond := false, goOn := false, log := [] }

/-- The call `updateCaptureProps(percent, exponent)` as it acts on the loop. -/
def Loop.setProps (l : Loop) (percent exponent : Int) : Loop :=
  { l with captureProps := some (updateCaptureProps percent exponent),
           log := l.log ++ [Event.setProps (updateCaptureProps percent exponent)] }

/-- The option snapshot takes effect (still.cpp 161-173). -/
def configPhase (inp : IterIn) (l : Loop) : Loop :=
  let l :=
    if l.lastStillSamplingPercent ≠ inp.optStillSamplingPercent then
      { l.setProps inp.optStillSamplingPercent inp.optStillDownsampleExponent with
        lastStillSamplingPercent := inp.optStillSamplingPercent }
    else l
  if l.lastStillDownsampleExponent ≠ inp.optStillDownsampleExponent then
    let l :=
      { l.setProps inp.optStillSamplingPercent inp.optStillDownsampleExponent with
        lastStillDownsampleExponent := inp.optStillDownsampleExponent }
    match l.smallFrameLast with
    | some f => { l with smallFrameLast := none, log := l.log ++ [Event.deleteSmall f] }
    | none => l
  else l

/-- The job of this pass: the object `new ProcessArgs()` creates at still.cpp 175. -/
def freshArgs (inp : IterIn) (l : Loop) : ProcessArgs :=
  { serial := l.allocated, timestamp := inp.nowAlloc }

/-- Allocation of the job, `cond`, and the drop of an unwanted stale job
(still.cpp 175-184). -/
def allocPhase (inp : IterIn) (l : Loop) : Loop :=
  let readArg := freshArgs inp l
  let l := { l with readArg := some readArg, allocated := l.allocated + 1,
                    log := l.log ++ [Event.newArgs readArg] }
  let l := { l with cond := inp.started176 &&
                      (!(inp.optUseStaleFrame != 0) || l.staleArg == none) }
  match l.staleArg with
  | some s =>
    if !(inp.optUseStaleFrame != 0) then
      { l with staleArg := none, log := l.log ++ [Event.deleteArgs s] }
    else l
  | none => l

/-- Grab and first retrieve (still.cpp 188-211). -/
def grabPhase (inp : IterIn) (l : Loop) : Loop :=
  let l := { l with goOn := inp.grab && l.cond, log := l.log ++ [Event.grab] }
  let l :=
    if l.goOn then
      if inp.optStillSamplingPercent = 0 then
        { l with goOn := inp.retrieve1, log := l.log ++ [Event.retrieveDirect] }
      else
        { l with smallFrameCurr := some { serial := l.allocated, props := l.captureProps },
                 allocated := l.allocated + 1,
                 goOn := inp.retrieve1, log := l.log ++ [Event.retrieveSmall] }
    else l
  let l := if l.goOn then { l with goOn := !inp.empty1 } else l
  if !l.goOn then
    match l.smallFrameCurr with
    | some f => { l with log := l.log ++ [Event.deleteSmall f] }
    | none => l
  else l

/-- The check for a still image (still.cpp 217-251). -/
def stillPhase (inp : IterIn) (l : Loop) : Loop :=
  if l.goOn ∧ inp.optStillSamplingPercent > 0 then
    let changed := inp.changed
    let l := { l with log := l.log ++ [Event.hasChanged l.smallFrameLast changed] }
    let elapsed := elapsedMs l.timeInChange inp.nowElapsed
    let l := if inp.optStillChangeTime > elapsed then { l with goOn := false } else l
    let l :=
      if !changed then
        let l := { l with timeInChange := inp.nowActualize,
                          log := l.log ++ [Event.actualize inp.nowActualize] }
        if l.goOn then
          let l := l.setProps 0 inp.optStillDownsampleExponent
          let l := { l with goOn := inp.retrieve2, log := l.log ++ [Event.retrieveFull] }
          let l := if l.goOn then { l with goOn := !inp.empty2 } else l
          l.setProps inp.optStillSamplingPercent inp.optStillDownsampleExponent
        else l
      else l
    let l :=
      match l.smallFrameLast with
      | some f => { l with log := l.log ++ [Event.deleteSmall f] }
      | none => l
    let l := { l with smallFrameLast := l.smallFrameCurr }
    if changed then { l with goOn := false } else l
  else l

/-- The check for sharpness (still.cpp 255-263). -/
def sharpPhase (inp : IterIn) (l : Loop) : Loop :=
  if l.goOn ∧ inp.optSharpTilesRequired > 0 then
    let l := { l with log := l.log ++ [Event.checkSharpness inp.tilesSize] }
    if (inp.tilesSize : Int) < inp.optSharpTilesRequired then { l with goOn := false } else l
  else l

/-- The job is released, parked as the stale job, or kept (still.cpp 267-277). -/
def keepPhase (inp : IterIn) (l : Loop) : Loop :=
  if !l.goOn then
    match l.readArg with
    | some j => { l with readArg := none, log := l.log ++ [Event.deleteArgs j] }
    | none => l
  else
    if inp.started272 ∧ inp.optUseStaleFrame ≠ 0 ∧ l.staleArg = none then
      match l.readArg with
      | some j => { l with staleArg := some j, readArg := none,
                           log := l.log ++ [Event.toStale j] }
      | none => l
    else l

/-- The status query and the dispatch (still.cpp 281-309). -/
def dispatchPhase (inp : IterIn) (l : Loop) : Loop :=
  let l := { l with processor := l.processor.workerMay inp.workerBefore }
  let processingResult := l.processor.status.1
  let l := { l with processor := l.processor.status.2,
                    log := l.log ++ [Event.status processingResult] }
  let l := { l with processor := l.processor.workerMay inp.workerAfter }
  let l := { l with keepAlive := inp.started283 || processingResult == RESULT_PROCESSING }
  if inp.started284 ∧ processingResult ≠ RESULT_PROCESSING then
    if inp.optUseStaleFrame ≠ 0 then
      match l.staleArg with
      | some s =>
        { l with timeInChange := inp.nowStale,
                 processor := l.processor.process s,
                 staleArg := none,
                 log := l.log ++ [Event.actualize inp.nowStale,
                                  Event.process s l.processor.current] }
      | none => l
    else
      match l.readArg with
      | some j => { l with processor := l.processor.process j,
                           log := l.log ++ [Event.process j l.processor.current] }
      | none => l
  else
    match l.readArg with
    | some j => { l with log := l.log ++ [Event.deleteArgs j] }
    | none => l

/-- One pass of the `while` loop of `StillFilter::run` (still.cpp 152-309). The result's
`log` holds the events of this pass. A pass in which `hasChanged` or `checkSharpness`
throws does not complete and is not a pass of this model. -/
def iteration (inp : IterIn) (l : Loop) : Loop :=
  dispatchPhase inp <| keepPhase inp <| sharpPhase inp <| stillPhase inp <|
    grabPhase inp <| allocPhase inp <| configPhase inp
      { l with readArg := none, smallFrameCurr := none, cond := false, goOn := false,
               log := [] }

/-- The `while(keepAlive)` loop over the given inputs: the state when the inputs are used up
or the loop has ended, and all events so far. -/
def runLoop : List IterIn → Loop → Loop × List Event
  | [], l => (l, [])
  | inp :: rest, l =>
    if l.keepAlive then
      ((runLoop rest (iteration inp l)).1,
       (iteration inp l).log ++ (runLoop rest (iteration inp l)).2)
    else (l, [])

/-- After the loop (still.cpp 311-316): the stale job and the last small frame are
deleted. -/
def loopExit (l : Loop) : List Event :=
  (match l.staleArg with
   | some s => [Event.deleteArgs s]
   | none => []) ++
  (match l.smallFrameLast with
   | some f => [Event.deleteSmall f]
   | none => [])

/-! ## `StillFilter::hasChanged` -/

/-- Source `Mat::empty()`: no element in the matrix. -/
def Mat.empty (m : Mat) : Bool := decide (m.rows * m.cols = 0)

/-- The plain `char` at byte offset `off` from `image`, converted to `int` (still.cpp 354).
Whether plain `char` is signed is fixed by the platform the program is built for: with
`charSigned` a byte from 128 up reads as the byte minus 256. -/
def readChar (charSigned : Bool) (image : Nat → Nat) (off : Int) : Int :=
  if charSigned && decide (128 ≤ image off.toNat) then (image off.toNat : Int) - 256
  else (image off.toNat : Int)

/-- The loop `while(rel > len) rel -= len` (still.cpp 363-365), by the number of passes
allowed; `wrapLoop_exit` shows that the passes `hasChanged` allows are enough. -/
def wrapLoop (len : Int) : Nat → Int → Int
  | 0, rel => rel
  | fuel + 1, rel => if rel > len then wrapLoop len fuel (rel - len) else rel

/-- The variables of the sampling loop (still.cpp 351-352). -/
structure Sampling where
  rel : Int
  nDiff : Int
  deriving DecidableEq, Repr

/-- The value `diff` of still.cpp 354-357 for the sample at index `rel`. -/
def sampleDiff (charSigned : Bool) (cp lp : Nat → Nat) (rel : Int) : Int :=
  let diff : Int := readChar charSigned cp rel - readChar charSigned lp rel
  if diff < 0 then -diff else diff

/-- One pass of the sampling loop body (still.cpp 354-365). -/
def sampleStep (cfg : Arguments) (charSigned : Bool) (cp lp : Nat → Nat) (len : Int)
    (s : Sampling) : Sampling :=
  let diff := sampleDiff charSigned cp lp s.rel
  let nDiff := if diff > cfg.optStillNoiseThreshold then s.nDiff + 1 else s.nDiff
  let rel := s.rel + cfg.optStillSamplingInc
  let rel := wrapLoop len rel.toNat rel
  { rel := rel, nDiff := nDiff }

/-- The loop `for(int i = n; i > 0; i--)` (still.cpp 353-366), by the number of passes
left. -/
def sampleLoop (cfg : Arguments) (charSigned : Bool) (cp lp : Nat → Nat) (len : Int) :
    Nat → Sampling → Sampling
  | 0, s => s
  | n + 1, s =>
    sampleLoop cfg charSigned cp lp len n (sampleStep cfg charSigned cp lp len s)

/-- The indices `rel` at which the passes of the sampling loop read the two frames, in
order: the loop of `sampleLoop` with the index written down at each pass. -/
def sampleIndices (cfg : Arguments) (charSigned : Bool) (cp lp : Nat → Nat) (len : Int) :
    Nat → Sampling → List Int
  | 0, _ => []
  | n + 1, s =>
    s.rel :: sampleIndices cfg charSigned cp lp len n (sampleStep cfg charSigned cp lp len s)

/-- The number `n` of pixels to examine (still.cpp 346-348). -/
def sampleCount (current : Mat) (optStillSamplingPercent : Int) : Int :=
  let len := current.cols * current.rows
  Int.tdiv (len * optStillSamplingPercent) 100

/-- Source `StillFilter::hasChanged` (still.cpp 338-368): `none` is the `invalid_argument`
thrown at line 344; `last` is `none` for a null pointer. -/
def hasChanged (cfg : Arguments) (charSigned : Bool) (current : Mat) (last : Option Mat)
    (optStillSamplingPercent : Int) : Option Bool :=
  match last with
  | none => some true
  | some last =>
    if last.empty then some true
    else if !current.isContinuous || !last.isContinuous || current.channels != 1 ||
        current.depth != CV_8U || last.channels != 1 || last.depth != CV_8U then none
    else
      let len := current.cols * current.rows
      let n := Int.tdiv (len * optStillSamplingPercent) 100
      let s := sampleLoop cfg charSigned current.data last.data len n.toNat
        { rel := 0, nDiff := 0 }
      some (decide (s.nDiff * 100 > n * cfg.optStillDeflectionPercent))

/-! ## The pixels `checkSharpness` visits -/

/-- The offsets `thisLine` at which the passes of the loop over `x` (still.cpp 425-448)
start: the loop of `scanRow` with the pointer written down at each pass. -/
def scanRowVisits (cfg : Arguments) (image : Nat → Nat) (lineLen : Int) :
    Nat → Scan → List Int
  | 0, _ => []
  | n + 1, s => s.thisLine :: scanRowVisits cfg image lineLen n (scanPixel cfg image lineLen s)

/-- The offsets visited by the loop over `y` (still.cpp 423-450): the loop of `scanRows` with
the pointer written down at each pass of the inner loop. -/
def scanRowsVisits (cfg : Arguments) (image : Nat → Nat) (lineLen thisWidth : Int) :
    Nat → Scan → List Int
  | 0, _ => []
  | n + 1, s =>
    let s1 := scanRow cfg image lineLen thisWidth.toNat s
    scanRowVisits cfg image lineLen thisWidth.toNat s ++
      scanRowsVisits cfg image lineLen thisWidth n
        { s1 with thisLine := s1.thisLine + (lineLen - thisWidth * 3) }

/-- The offsets visited by the scan of tile `(fx, fy)` (still.cpp 411-450), started as in
`tileCounters`. Lemma `tileCounters_fold` shows that the counters `tileCounters` of the
tile are the loop body folded over this list. -/
def tileVisits (cfg : Arguments) (image : Nat → Nat) (g : Grid) (fx fy : Int) : List Int :=
  let thisWidth := g.lenHor fx
  let thisHeight := g.lenVert fy
  let startX := fx * g.dividedWidth
  let startY := fy * g.dividedHeight
  let y := startY
  let thisLine := g.lineLen * y + startX * 3
  scanRowsVisits cfg image g.lineLen thisWidth thisHeight.toNat
    { thisLine := thisLine, cnt := { dVertL := 0, dHorL := 0, dVertH := 0, dHorH := 0 } }

/-- The offsets visited by the two nested loops over the tiles (still.cpp 410-466), in the
order of the visits. -/
def visited (cfg : Arguments) (frame : Mat) : List Int :=
  let g := grid cfg frame
  (List.range g.divHor.toNat).flatMap fun fx =>
    (List.range g.divVert.toNat).flatMap fun fy => tileVisits cfg frame.data g fx fy

/-- The byte offset from `image` of the first channel (the luma) of pixel `(x, y)` in a
continuous three-channel frame. -/
def pixelOffset (frame : Mat) (x y : Int) : Int := frame.cols * 3 * y + x * 3

/-! ## The bytes `checkSharpness` reads and the divisions it makes -/

/-- The byte offsets from `image` that one pass of the innermost loop body reads, in source
order (still.cpp 426, 435, 437): `thisLine[lineLen]`, `*thisLine`, `*thisLine` again, and
`*thisLine` after `thisLine += 3`. -/
def scanPixelReads (lineLen : Int) (s : Scan) : List Int :=
  [s.thisLine + lineLen, s.thisLine, s.thisLine, s.thisLine + 3]

/-- Every byte offset the two nested tile loops read (still.cpp 410-466), in order: the
reads of the loop body at each visited position. Lemma `checkSharpness_agree` shows that
`checkSharpness` depends on no other byte of the frame. -/
def scanReads (cfg : Arguments) (frame : Mat) : List Int :=
  (visited cfg frame).flatMap fun o =>
    scanPixelReads (grid cfg frame).lineLen
      { thisLine := o, cnt := { dVertL := 0, dHorL := 0, dVertH := 0, dHorH := 0 } }

/-- The operator `/` of C++ on `int`: no value for a zero divisor (the behaviour is
undefined), truncation toward zero otherwise. -/
def intDiv (a b : Int) : Option Int := if b = 0 then none else some (Int.tdiv a b)

/-- The value `highPercentH` of still.cpp 453-457 with the division as C++ has it: `none`
when the division is by zero. -/
def highPercentHChecked (g : Grid) (c : Counters) : Option Int :=
  if c.dHorL ≥ g.dividedWidth then intDiv (c.dHorH * 100) c.dHorL else some (-1)

/-- The value `highPercentV` of still.cpp 453, 458-460 with the division as C++ has it:
`none` when the division is by zero. -/
def highPercentVChecked (g : Grid) (c : Counters) : Option Int :=
  if c.dVertL ≥ g.dividedHeight then intDiv (c.dVertH * 100) c.dVertL else some (-1)

/-! ## `parseExc` -/

/-- The exceptions `parseExc` and `Arguments::parse` throw. -/
inductive ParseError
  | invalidArgument
  | outOfRange
  deriving DecidableEq, Repr

/-- How a call ends: with a value returned or with an exception thrown. -/
inductive Outcome (α : Type) where
  | returned (a : α)
  | thrown (e : ParseError)
  deriving DecidableEq, Repr

/-- The character `*ptr` of a character string, given as the list of the character codes
before the terminating NUL: the code at offset `ptr`, and the code 0 of the terminator at
the end. -/
def charAt (s : List Nat) (ptr : Nat) : Nat := s.getD ptr 0

/-- The function `std::isspace` in the "C" locale: space, `\t`, `\n`, `\v`, `\f`, `\r`. -/
def isspace (c : Nat) : Bool := c == 32 || (9 ≤ c && c ≤ 13)

/-- The loop `while(std::isspace(*ptr)) str++` (util.h 56-58), by the number of passes
allowed: the condition reads `*ptr`, the body increments `str`. The value is `str` after the
loop, or `none` when the loop has not ended within the passes allowed. -/
def skipSpace (s : List Nat) (ptr : Nat) : Nat → Nat → Option Nat
  | 0, str => if isspace (charAt s ptr) then none else some str
  | fuel + 1, str =>
    if isspace (charAt s ptr) then skipSpace s ptr fuel (str + 1) else some str

/-- The variables of `parseExc` after the digit loop. -/
structure Parsed where
  result : Int
  digits : Int
  ptr : Nat
  deriving DecidableEq, Repr

/-- The loop `while(*ptr >= '0' && *ptr <= '9')` (util.h 71-78) over the characters from
`ptr` on; the empty list is the terminator. `T` is `int` and its arithmetic wraps modulo
2^32. -/
def digitLoop (sign : Int) : List Nat → Parsed → Outcome Parsed
  | [], st => Outcome.returned st
  | c :: rest, st =>
    if c ≥ 48 ∧ c ≤ 57 then
      let prev := st.result
      let result := toInt32 (toInt32 (st.result * 10) + toInt32 (sign * ((c : Int) - 48)))
      let digits := st.digits + 1
      if Int.tdiv result 10 ≠ prev then Outcome.thrown ParseError.outOfRange
      else digitLoop sign rest { result := result, digits := digits, ptr := st.ptr + 1 }
    else Outcome.returned st

/-- Source `parseExc<int>` (util.h 51-87) for `str` (`none` is `NULL`), with the whitespace
loop allowed `fuel` passes: `none` when that loop has not ended within them, otherwise the
exception thrown or the value returned together with the offset `ptr`, which is what
`*next` receives when `next` is given. -/
def parseExc (fuel : Nat) (str : Option (List Nat)) : Option (Outcome (Int × Nat)) :=
  match str with
  | none => some (Outcome.thrown ParseError.invalidArgument)
  | some s =>
    let ptr := 0
    match skipSpace s ptr fuel 0 with
    | none => none
    | some _ =>
      let sign : Int := if charAt s ptr = 45 then -1 else 1
      let ptr := if charAt s ptr = 45 ∨ charAt s ptr = 43 then ptr + 1 else ptr
      match digitLoop sign (s.drop ptr) { result := 0, digits := 0, ptr := ptr } with
      | Outcome.thrown e => some (Outcome.thrown e)
      | Outcome.returned st =>
        if st.digits = 0 then some (Outcome.thrown ParseError.invalidArgument)
        else some (Outcome.returned (st.result, st.ptr))

/-! ## `Arguments::optLimits` and `Arguments::parse` -/

/-- The option variables `Arguments::opt...` that `optLimits` points to
(still_config.cpp 17-32). -/
inductive OptVar
  | optVideoNum
  | optGetchDelay
  | optHandlerTimeout
  | optForceHandlerExit
  | optUseStaleFrame
  | optStillDownsampleExponent
  | optStillChangeTime
  | optStillNoiseThreshold
  | optStillSamplingInc
  | optStillSamplingPercent
  | optStillDeflectionPercent
  | optSharpTilesPerSide
  | optSharpDiffLow
  | optSharpDiffHigh
  | optSharpHighPercent
  | optSharpTilesRequired
  deriving DecidableEq, Repr, Fintype

/-- The enumerators that name the options in still_config.cpp. Their declaration is in
still_config.h; the values it gives them are a parameter of `Arguments.parseOption`. -/
inductive OptIndex
  | OPT_NONE
  | OPT_VIDEO_NUM
  | OPT_GETCH_DELAY
  | OPT_HANDLER_TIMEOUT
  | OPT_FORCE_HANDLER_EXIT
  | OPT_USE_STALE_FRAME
  | OPT_STILL_DOWNSAMPLE_EXPONENT
  | OPT_STILL_CHANGE_TIME
  | OPT_STILL_NOISE_THRESHOLD
  | OPT_STILL_SAMPLING_INC
  | OPT_STILL_SAMPLING_PERCENT
  | OPT_STILL_DEFLECTION_PERCENT
  | OPT_SHARP_TILES_PER_SIDE
  | OPT_SHARP_DIFF_LOW
  | OPT_SHARP_DIFF_HIGH
  | OPT_SHARP_HIGH_PERCENT
  | OPT_SHARP_TILES_REQUIRED
  | OPT_END
  deriving DecidableEq, Repr

/-- A row of `Arguments::optLimits`: the enumerator, the two limits and the variable pointed
to (`none` is `NULL`). -/
structure OptLimits where
  index : OptIndex
  limitLow : Int
  limitHigh : Int
  pointer : Option OptVar
  deriving DecidableEq, Repr

/-- Source `Arguments::optLimits` (still_config.cpp 34-53). -/
def optLimits : List OptLimits :=
  [ ⟨OptIndex.OPT_NONE, 0, 0, none⟩,
    ⟨OptIndex.OPT_VIDEO_NUM, 0, 9, some OptVar.optVideoNum⟩,
    ⟨OptIndex.OPT_GETCH_DELAY, 10, 5000, some OptVar.optGetchDelay⟩,
    ⟨OptIndex.OPT_HANDLER_TIMEOUT, 0, 2000, some OptVar.optHandlerTimeout⟩,
    ⟨OptIndex.OPT_FORCE_HANDLER_EXIT, 0, 1, some OptVar.optForceHandlerExit⟩,
    ⟨OptIndex.OPT_USE_STALE_FRAME, 0, 1, some OptVar.optUseStaleFrame⟩,
    ⟨OptIndex.OPT_STILL_DOWNSAMPLE_EXPONENT, 0, 3, some OptVar.optStillDownsampleExponent⟩,
    ⟨OptIndex.OPT_STILL_CHANGE_TIME, 0, 10000, some OptVar.optStillChangeTime⟩,
    ⟨OptIndex.OPT_STILL_NOISE_THRESHOLD, 1, 100, some OptVar.optStillNoiseThreshold⟩,
    ⟨OptIndex.OPT_STILL_SAMPLING_INC, 2, 4441, some OptVar.optStillSamplingInc⟩,
    ⟨OptIndex.OPT_STILL_SAMPLING_PERCENT, 0, 20, some OptVar.optStillSamplingPercent⟩,
    ⟨OptIndex.OPT_STILL_DEFLECTION_PERCENT, 0, 20, some OptVar.optStillDeflectionPercent⟩,
    ⟨OptIndex.OPT_SHARP_TILES_PER_SIDE, 1, 40, some OptVar.optSharpTilesPerSide⟩,
    ⟨OptIndex.OPT_SHARP_DIFF_LOW, 1, 100, some OptVar.optSharpDiffLow⟩,
    ⟨OptIndex.OPT_SHARP_DIFF_HIGH, 2, 100, some OptVar.optSharpDiffHigh⟩,
    ⟨OptIndex.OPT_SHARP_HIGH_PERCENT, 0, 100, some OptVar.optSharpHighPercent⟩,
    ⟨OptIndex.OPT_SHARP_TILES_REQUIRED, 0, 100, some OptVar.optSharpTilesRequired⟩,
    ⟨OptIndex.OPT_END, -1, -1, none⟩ ]

/-- The rows of `Arguments::options` (still_config.cpp 55-77) that take an argument: the
name of the long option and the enumerator `getopt_long_only` returns for it. -/
def options : List (String × OptIndex) :=
  [ ("video-num", OptIndex.OPT_VIDEO_NUM),
    ("getch-delay", OptIndex.OPT_GETCH_DELAY),
    ("handler-timeout", OptIndex.OPT_HANDLER_TIMEOUT),
    ("force-handler-exit", OptIndex.OPT_FORCE_HANDLER_EXIT),
    ("use-stale-frame", OptIndex.OPT_USE_STALE_FRAME),
    ("still-downsample-exponent", OptIndex.OPT_STILL_DOWNSAMPLE_EXPONENT),
    ("still-change-time", OptIndex.OPT_STILL_CHANGE_TIME),
    ("still-noise-limit", OptIndex.OPT_STILL_NOISE_THRESHOLD),
    ("still-sample-inc", OptIndex.OPT_STILL_SAMPLING_INC),
    ("still-sample-percent", OptIndex.OPT_STILL_SAMPLING_PERCENT),
    ("still-deflection-percent", OptIndex.OPT_STILL_DEFLECTION_PERCENT),
    ("sharp-tiles-per-side", OptIndex.OPT_SHARP_TILES_PER_SIDE),
    ("sharp-diff-low", OptIndex.OPT_SHARP_DIFF_LOW),
    ("sharp-diff-high", OptIndex.OPT_SHARP_DIFF_HIGH),
    ("sharp-high-percent", OptIndex.OPT_SHARP_HIGH_PERCENT),
    ("sharp-tiles-req", OptIndex.OPT_SHARP_TILES_REQUIRED) ]

/-- The end of a pass of the loop of `Arguments::parse`: how it ends and the option
variables afterwards. -/
structure ParseState where
  outcome : Outcome Unit
  vars : OptVar → Int
  deriving DecidableEq

/-- One pass of the loop body of `Arguments::parse` (still_config.cpp 85-102), after
`getopt_long_only` has returned `opt` (not -1) and set `optarg`. The values of the
enumerators are `code`; `vars` are the option variables; `fuel` is what the whitespace loop
of `parseExc` is allowed. The value is `none` when `parseExc` does not end or when `opt` is
not an index into `optLimits`, where the behaviour is undefined. -/
def Arguments.parseOption (code : OptIndex → Int) (fuel : Nat) (vars : OptVar → Int)
    (opt : Int) (optarg : Option (List Nat)) : Option ParseState :=
  if opt ≥ code OptIndex.OPT_END then
    some { outcome := Outcome.thrown ParseError.invalidArgument, vars := vars }
  else if opt < 0 then none
  else
    match optLimits[opt.toNat]? with
    | none => none
    | some row =>
      let limitLow := row.limitLow
      let limitHigh := row.limitHigh
      if limitLow < limitHigh then
        match parseExc fuel optarg with
        | none => none
        | some (Outcome.thrown e) => some { outcome := Outcome.thrown e, vars := vars }
        | some (Outcome.returned (argInt, _)) =>
          if argInt ≥ row.limitLow ∧ argInt ≤ row.limitHigh then
            match row.pointer with
            | some v =>
              some { outcome := Outcome.returned (), vars := Function.update vars v argInt }
            | none => none
          else some { outcome := Outcome.thrown ParseError.outOfRange, vars := vars }
      else some { outcome := Outcome.returned (), vars := vars }

/-- Source `Arguments::parse` (still_config.cpp 79-105) over the results of the successive
calls of `getopt_long_only` before it returns -1, each the value returned and `optarg`: the
loop ends with the first exception. -/
def Arguments.parse (code : OptIndex → Int) (fuel : Nat) :
    List (Int × Option (List Nat)) → (OptVar → Int) → Option ParseState
  | [], vars => some { outcome := Outcome.returned (), vars := vars }
  | (opt, optarg) :: rest, vars =>
    match Arguments.parseOption code fuel vars opt optarg with
    | none => none
    | some st =>
      match st.outcome with
      | Outcome.thrown e => some { outcome := Outcome.thrown e, vars := st.vars }
      | Outcome.returned _ => Arguments.parse code fuel rest st.vars

/-! ## Auxiliary definitions: example inputs and the vocabulary of the proofs -/

/-- Options of the sharpness examples: low 10, high 80, gate 40, with the given tiling. -/
def sharpOpts (tilesPerSide : Int) : Arguments :=
  { optStillNoiseThreshold := 20, optStillSamplingInc := 7, optStillDeflectionPercent := 5,
    optSharpTilesPerSide := tilesPerSide, optSharpDiffLow := 10, optSharpDiffHigh := 80,
    optSharpHighPercent := 40 }

/-- The frame of scenario S2: 640 by 480, continuous 8-bit YCrCb, luma a checkerboard of
32-pixel squares of 0 and 255, chroma 128. -/
def checkerboard : Mat :=
  { rows := 480, cols := 640, channelCount := 3, depthCode := CV_8U, continuous := true,
    data := fun i =>
      if i % 3 = 0 then (if ((i / 3 % 640) / 32 + (i / 3 / 640) / 32) % 2 = 0 then 0 else 255)
      else 128 }

/-- Every luma byte of the image is 0 or 255. -/
def lumaBlackWhite (image : Nat → Nat) : Prop := ∀ k, image (3 * k) = 0 ∨ image (3 * k) = 255

/-- The high counters equal the low counters. -/
def Counters.balanced (c : Counters) : Prop := c.dVertH = c.dVertL ∧ c.dHorH = c.dHorL

/-- A continuous 8-bit YCrCb frame of `cols` by 2 pixels: luma 0 in row 0, 255 in row 1,
chroma 128. -/
def twoRowFrame (cols : Int) : Mat :=
  { rows := 2, cols := cols, channelCount := 3, depthCode := CV_8U, continuous := true,
    data := fun i => if i % 3 = 0 then (if i < (3 * cols).toNat then 0 else 255) else 128 }

/-- A continuous 8-bit YCrCb frame of 2 by 2 pixels: luma 0, 255 in row 0 and 0, 0 in row 1,
chroma 128. -/
def cornerFrame : Mat :=
  { rows := 2, cols := 2, channelCount := 3, depthCode := CV_8U, continuous := true,
    data := fun i => if i = 3 then 255 else if i % 3 = 0 then 0 else 128 }

/-- Events that only concern the capture device, the small frames, the allocation and the
sharpness call. -/
def Event.housekeeping : Event → Bool
  | Event.setProps _ => true
  | Event.deleteSmall _ => true
  | Event.newArgs _ => true
  | Event.grab => true
  | Event.retrieveSmall => true
  | Event.retrieveDirect => true
  | Event.checkSharpness _ => true
  | _ => false

/-- The log without the housekeeping events. -/
def core (log : List Event) : List Event := log.filter fun e => !e.housekeeping

/-- The still check runs: `goOn` holds at still.cpp 217 and the sampling percent is
positive. -/
def stillChecked (inp : IterIn) (l : Loop) : Prop :=
  l.goOn = true ∧ inp.optStillSamplingPercent > 0

instance (inp : IterIn) (l : Loop) : Decidable (stillChecked inp l) := by
  unfold stillChecked; infer_instance

/-- The dwell test of still.cpp 220 passes. -/
def dwellEnough (inp : IterIn) (l : Loop) : Prop :=
  inp.optStillChangeTime ≤ elapsedMs l.timeInChange inp.nowElapsed

instance (inp : IterIn) (l : Loop) : Decidable (dwellEnough inp l) := by
  unfold dwellEnough; infer_instance

/-- The job is moved into the stale slot at still.cpp 272-276. -/
def staleTaken (inp : IterIn) (l : Loop) : Prop :=
  l.goOn = true ∧ inp.started272 = true ∧ inp.optUseStaleFrame ≠ 0 ∧ l.staleArg = none

instance (inp : IterIn) (l : Loop) : Decidable (staleTaken inp l) := by
  unfold staleTaken; infer_instance

/-- The processor when `status()` is called at still.cpp 281. -/
def procAtStatus (inp : IterIn) (l : Loop) : FrameProcessor :=
  l.processor.workerMay inp.workerBefore

/-- The value `processingResult` of still.cpp 281. -/
def processingResult (inp : IterIn) (l : Loop) : FrameProcStatus :=
  (procAtStatus inp l).status.1

/-- The processor when the dispatch decision of still.cpp 284 is taken. -/
def procAtDispatch (inp : IterIn) (l : Loop) : FrameProcessor :=
  (procAtStatus inp l).status.2.workerMay inp.workerAfter

/-- The condition of still.cpp 284. -/
def dispatches (inp : IterIn) (l : Loop) : Prop :=
  inp.started284 = true ∧ processingResult inp l ≠ RESULT_PROCESSING

instance (inp : IterIn) (l : Loop) : Decidable (dispatches inp l) := by
  unfold dispatches; infer_instance

/-- The state of the pass after the grab and the first retrieve (still.cpp 211), starting
from the state on entry with the per-pass variables and the log cleared. -/
def afterGrab (inp : IterIn) (l : Loop) : Loop :=
  grabPhase inp <| allocPhase inp <| configPhase inp
    { l with readArg := none, smallFrameCurr := none, cond := false, goOn := false, log := [] }

/-- The state of the pass after the sharpness check (still.cpp 263). -/
def afterSharp (inp : IterIn) (l : Loop) : Loop :=
  sharpPhase inp (stillPhase inp (afterGrab inp l))

/-- The state of the pass after the job was released, parked or kept (still.cpp 277). -/
def afterKeep (inp : IterIn) (l : Loop) : Loop := keepPhase inp (afterSharp inp l)

/-- The still check runs in this pass. -/
def stillRuns (inp : IterIn) (l : Loop) : Prop := stillChecked inp (afterGrab inp l)

instance (inp : IterIn) (l : Loop) : Decidable (stillRuns inp l) := by
  unfold stillRuns; infer_instance

/-- The stale slot after still.cpp 181-184. -/
def staleKept (inp : IterIn) (l : Loop) : Option ProcessArgs :=
  if inp.optUseStaleFrame = 0 then none else l.staleArg

/-- The value of `goOn` at still.cpp 267. -/
def viable (inp : IterIn) (l : Loop) : Bool := (afterSharp inp l).goOn

/-- The job of the pass is parked in the stale slot (still.cpp 272-276). -/
def parks (inp : IterIn) (l : Loop) : Prop :=
  viable inp l = true ∧ inp.started272 = true ∧ inp.optUseStaleFrame ≠ 0 ∧ l.staleArg = none

instance (inp : IterIn) (l : Loop) : Decidable (parks inp l) := by
  unfold parks; infer_instance

/-- The small frame of the pass was retrieved: still.cpp 217 is reached with `goOn` true
and a positive sampling percent. -/
def smallRetrieved (inp : IterIn) (l : Loop) : Prop :=
  0 < inp.optStillSamplingPercent ∧ inp.started176 = true ∧
  (inp.optUseStaleFrame = 0 ∨ l.staleArg = none) ∧
  inp.grab = true ∧ inp.retrieve1 = true ∧ inp.empty1 = false

/-- The clock values a pass reads, in source order. -/
def IterIn.clock (inp : IterIn) : List Int :=
  [inp.nowAlloc, inp.nowElapsed, inp.nowActualize, inp.nowStale]

/-- The clock never runs backwards: the value read on entry to the loop and all values the
passes read, in order. -/
def clockMonotone (now : Int) (passes : List IterIn) : Prop :=
  List.Pairwise (fun a b => a ≤ b) (now :: passes.flatMap IterIn.clock)

/-- An example pass at clock value `t` in which everything succeeds: the small frame is
retrieved, `hasChanged` returns `changed`, the sharpness check is off. -/
def passAt (useStale : Int) (changed : Bool) (t : Int) : IterIn :=
  { optUseStaleFrame := useStale, optStillSamplingPercent := 10,
    optStillDownsampleExponent := 2, optSharpTilesRequired := 0, nowAlloc := t,
    started176 := true, grab := true, retrieve1 := true, empty1 := false,
    changed := changed, nowElapsed := t, optStillChangeTime := 500, nowActualize := t,
    retrieve2 := true, empty2 := false, tilesSize := 0, started272 := true,
    workerBefore := none, workerAfter := none, started283 := true, started284 := true,
    nowStale := t }

/-- Is the event a call of `processor.process`? -/
def Event.isProcess : Event → Bool
  | Event.process _ _ => true
  | _ => false

/-- Is the event a call of `processor.process` with job `j`? -/
def Event.isProcessOf (j : ProcessArgs) : Event → Bool
  | Event.process k _ => decide (k = j)
  | _ => false

/-- In the words of the spec, "the current job passed all checks": the frame was grabbed
and retrieved with the pipeline started, the still check (when on) saw an unchanged frame
after enough dwell and got the full frame, the sharpness check (when on) found enough
tiles. -/
def passedChecks (inp : IterIn) (l : Loop) : Prop :=
  inp.grab = true ∧ inp.started176 = true ∧
  (inp.optUseStaleFrame = 0 ∨ l.staleArg = none) ∧
  inp.retrieve1 = true ∧ inp.empty1 = false ∧
  (inp.optStillSamplingPercent > 0 →
    inp.changed = false ∧
    inp.optStillChangeTime ≤ elapsedMs l.timeInChange inp.nowElapsed ∧
    inp.retrieve2 = true ∧ inp.empty2 = false) ∧
  (inp.optSharpTilesRequired > 0 → inp.optSharpTilesRequired ≤ (inp.tilesSize : Int))

/-- The processor runs at most one worker, and only while `current` is
`RESULT_PROCESSING`. -/
def FrameProcessor.wellFormed (p : FrameProcessor) : Prop :=
  p.working.length ≤ 1 ∧ (p.working ≠ [] → p.current = RESULT_PROCESSING)

/-- The volatile `started` does not go from false to true between its four reads in a
pass (still.cpp 176, 272, 283, 284). -/
def IterIn.noRisingEdge (inp : IterIn) : Prop :=
  (inp.started176 = false → inp.started272 = false) ∧
  (inp.started272 = false → inp.started283 = false) ∧
  (inp.started283 = false → inp.started284 = false)

/-- How a job stands at the end of a pass `l`: the number of times the pipeline deleted it,
plus one if it sits in the stale slot, plus the number of times it was passed to
`process`. -/
def fates (j : ProcessArgs) (l : Loop) : Nat :=
  l.log.count (Event.deleteArgs j) + (if l.staleArg = some j then 1 else 0) +
    l.log.countP (Event.isProcessOf j)

/-- The job in the stale slot was allocated before now. -/
def staleFresh (l : Loop) : Prop := ∀ s, l.staleArg = some s → s.serial < l.allocated

instance (now : Int) (passes : List IterIn) : Decidable (clockMonotone now passes) := by
  unfold clockMonotone; infer_instance

instance (inp : IterIn) (l : Loop) : Decidable (smallRetrieved inp l) := by
  unfold smallRetrieved; infer_instance

instance (inp : IterIn) : Decidable inp.noRisingEdge := by
  unfold IterIn.noRisingEdge; infer_instance

/-- The absolute luma difference between the pixel at byte offset `p` and the pixel one
line below it, as still.cpp 426-429 computes it. -/
def vertDiff (image : Nat → Nat) (lineLen p : Int) : Int :=
  if readU8 image (p + lineLen) - readU8 image p < 0
  then -(readU8 image (p + lineLen) - readU8 image p)
  else readU8 image (p + lineLen) - readU8 image p

/-- Example configuration of the change detector: sampling increment, noise threshold and
deflection percent as given, the sharpness options at their defaults. -/
def stillOpts (inc thr defl : Int) : Arguments :=
  { optStillNoiseThreshold := thr, optStillSamplingInc := inc,
    optStillDeflectionPercent := defl, optSharpTilesPerSide := 10, optSharpDiffLow := 10,
    optSharpDiffHigh := 80, optSharpHighPercent := 40 }

/-- A contiguous single-channel 8-bit frame of the given size over the memory `f`. -/
def gray (rows cols : Int) (f : Nat → Nat) : Mat :=
  { rows := rows, cols := cols, channelCount := 1, depthCode := CV_8U, continuous := true,
    data := f }

/-- A frame that passes the guards of `hasChanged`: contiguous, one 8-bit channel, at least
one pixel. -/
def Mat.validGray (m : Mat) : Prop :=
  m.continuous = true ∧ m.channelCount = 1 ∧ m.depthCode = CV_8U ∧ 0 < m.rows ∧ 0 < m.cols

instance (m : Mat) : Decidable m.validGray := by unfold Mat.validGray; infer_instance

/-- The number of the visited samples that the loop counts as diffs: the indices of
`sampleIndices` whose `diff` exceeds `optStillNoiseThreshold`. -/
def diffCount (cfg : Arguments) (charSigned : Bool) (cp lp : Nat → Nat) (len : Int) (n : Nat) :
    Int :=
  (((sampleIndices cfg charSigned cp lp len n { rel := 0, nDiff := 0 }).filter
    (fun rel => decide (sampleDiff charSigned cp lp rel > cfg.optStillNoiseThreshold))).length : Int)

/-- A terminal status: every value except `RESULT_NOIMAGE` and `RESULT_PROCESSING`. -/
def FrameProcStatus.terminal : FrameProcStatus → Bool
  | RESULT_NOIMAGE => false
  | RESULT_PROCESSING => false
  | _ => true

/-- What can happen to a `FrameProcessor`: a call of `status()`, a call of `process()` with a
job, the end of the oldest running worker with a result. -/
inductive ProcOp
  | statusCall
  | processCall (arg : ProcessArgs)
  | workerEnd (r : FrameProcStatus)
  deriving DecidableEq, Repr

/-- Whether the operation is a call of `process()`. -/
def ProcOp.isProcess : ProcOp → Bool
  | ProcOp.processCall _ => true
  | _ => false

/-- The values returned by the `status()` calls of a sequence of operations, in order. -/
def FrameProcessor.returned : FrameProcessor → List ProcOp → List FrameProcStatus
  | _, [] => []
  | p, ProcOp.statusCall :: rest => p.status.1 :: FrameProcessor.returned p.status.2 rest
  | p, ProcOp.processCall arg :: rest => FrameProcessor.returned (p.process arg) rest
  | p, ProcOp.workerEnd r :: rest => FrameProcessor.returned (p.workerFinish r) rest

/-- The facts about the grid of a frame with at least one row and one column. -/
structure Grid.sound (g : Grid) : Prop where
  divHor_pos : 1 ≤ g.divHor
  divVert_pos : 1 ≤ g.divVert
  dividedWidth_pos : 1 ≤ g.dividedWidth
  dividedHeight_pos : 1 ≤ g.dividedHeight
  lastWidth_nonneg : 0 ≤ g.lastWidth
  lastHeight_nonneg : 0 ≤ g.lastHeight
  width_sum : g.dividedWidth * (g.divHor - 1) + g.lastWidth = g.imageWidth - 1
  height_sum : g.dividedHeight * (g.divVert - 1) + g.lastHeight = g.imageHeight - 1
  lineLen_eq : g.lineLen = g.imageWidth * 3

/-- The `n` consecutive integers from `start` on. -/
def span (start : Int) (n : Nat) : List Int := (List.range n).map (fun i : Nat => start + (i : Int))

/-- The columns `x` that the scans of the tiles in grid column `fx` cover. -/
def Grid.colsOf (g : Grid) (fx : Nat) : List Int :=
  span (fx * g.dividedWidth) (g.lenHor fx).toNat

/-- The rows `y` that the scans of the tiles in grid row `fy` cover. -/
def Grid.rowsOf (g : Grid) (fy : Nat) : List Int :=
  span (fy * g.dividedHeight) (g.lenVert fy).toNat

/-- The luma at offset `off` equals the luma one line below and the luma one pixel to the
right: both differences the scan takes at `off` are 0. -/
def flatAt (image : Nat → Nat) (lineLen off : Int) : Prop :=
  readU8 image (off + lineLen) = readU8 image off ∧ readU8 image (off + 3) = readU8 image off

/-- Every pixel of the frame has luma `v`. -/
def uniformLuma (frame : Mat) (v : Nat) : Prop :=
  ∀ x y : Int, 0 ≤ x → x < frame.cols → 0 ≤ y → y < frame.rows →
    frame.data (pixelOffset frame x y).toNat = v

/-- A continuous 8-bit YCrCb frame of 640 by 480 pixels with luma 90 and chroma 128
everywhere. -/
def greyWall : Mat :=
  { rows := 480, cols := 640, channelCount := 3, depthCode := CV_8U, continuous := true,
    data := fun i => if i % 3 = 0 then 90 else 128 }

/-- Is the event the first `capture.retrieve` of a pass (still.cpp 198)? -/
def Event.isFirstRetrieve : Event → Bool
  | Event.retrieveSmall => true
  | Event.retrieveDirect => true
  | _ => false

/-- The first retrieves in a log. -/
def firsts (log : List Event) : List Event := log.filter Event.isFirstRetrieve

/-- What the loop keeps true about the capture properties and the small frame it holds: the
device has the properties of the last snapshot (once a sampling percent was seen), and the
small frame in `smallFrameLast` was retrieved as a downsampled gray frame under the exponent
in `lastStillDownsampleExponent`. -/
def propsInv (l : Loop) : Prop :=
  (l.lastStillSamplingPercent = -1 ∨
    l.captureProps =
      some (updateCaptureProps l.lastStillSamplingPercent l.lastStillDownsampleExponent)) ∧
  (∀ f, l.smallFrameLast = some f →
    f.props = some (updateCaptureProps 1 l.lastStillDownsampleExponent))

/-- The option ranges of the change detector (still_config.cpp 42-45) for a configuration
and a sampling percent. -/
def Arguments.stillValid (cfg : Arguments) (percent : Int) : Prop :=
  (1 ≤ cfg.optStillNoiseThreshold ∧ cfg.optStillNoiseThreshold ≤ 100) ∧
  (2 ≤ cfg.optStillSamplingInc ∧ cfg.optStillSamplingInc ≤ 4441) ∧
  (0 ≤ percent ∧ percent ≤ 20) ∧
  (0 ≤ cfg.optStillDeflectionPercent ∧ cfg.optStillDeflectionPercent ≤ 20)

instance (cfg : Arguments) (percent : Int) : Decidable (cfg.stillValid percent) := by
  unfold Arguments.stillValid; infer_instance

/-- The luma `Y(x, y)` of a continuous three-channel 8-bit frame: the unsigned byte at the
offset of pixel `(x, y)`. -/
def luma (frame : Mat) (x y : Int) : Int := readU8 frame.data (pixelOffset frame x y)

/-- The absolute luma difference between the pixel at byte offset `p` and the pixel to its
right, as still.cpp 435-440 computes it. -/
def horDiff (image : Nat → Nat) (p : Int) : Int :=
  if readU8 image p - readU8 image (p + 3) < 0
  then -(readU8 image p - readU8 image (p + 3))
  else readU8 image p - readU8 image (p + 3)

/-- The counters are not negative and the high counters do not exceed the low ones. -/
def Counters.ordered (c : Counters) : Prop :=
  (0 ≤ c.dVertH ∧ c.dVertH ≤ c.dVertL) ∧ (0 ≤ c.dHorH ∧ c.dHorH ≤ c.dHorL)

/-- The list is strictly ascending in `highPercent`: the order of the set, without
equivalent elements. -/
def setSorted (l : List SharpTile) : Prop :=
  l.Pairwise (fun a b => a.highPercent < b.highPercent)

/-- The rectangle of the tile lies inside a frame of `W` by `H` pixels, clear of its last
column and last row. -/
def SharpTile.inside (t : SharpTile) (W H : Int) : Prop :=
  0 ≤ t.startX ∧ 0 ≤ t.startY ∧ 0 ≤ t.width ∧ 0 ≤ t.height ∧
  t.startX + t.width ≤ W - 1 ∧ t.startY + t.height ≤ H - 1

/-- The condition `cv::Mat(mask, cv::Rect(startX, startY, width, height))` asserts in
`FrameProcessor::doProcess` (still.cpp 82) for a mask of the size of the frame: the
rectangle lies within the mask. -/
def SharpTile.maskRegionOk (t : SharpTile) (frame : Mat) : Prop :=
  0 ≤ t.startX ∧ 0 ≤ t.width ∧ t.startX + t.width ≤ frame.cols ∧
  0 ≤ t.startY ∧ 0 ≤ t.height ∧ t.startY + t.height ≤ frame.rows

/-- A character string literal as the list of its character codes. -/
def cstr (s : String) : List Nat := s.toList.map Char.toNat

/-- The value of a run of decimal digits read after the value `acc`. -/
def digitsValue : List Nat → Nat → Nat
  | [], acc => acc
  | c :: rest, acc => digitsValue rest (acc * 10 + (c - 48))

/-- The value lies in the range of a 32-bit `int`. -/
def inIntRange (v : Int) : Prop := -2147483648 ≤ v ∧ v ≤ 2147483647

instance (v : Int) : Decidable (inIntRange v) := by unfold inIntRange; infer_instance

/-- In the words of the spec: the table of value options of section 6 (option, low,
high). -/
def specOptionTable : List (String × Int × Int) :=
  [ ("video-num", 0, 9),
    ("getch-delay", 10, 5000),
    ("handler-timeout", 0, 2000),
    ("force-handler-exit", 0, 1),
    ("use-stale-frame", 0, 1),
    ("still-downsample-exponent", 0, 3),
    ("still-change-time", 0, 10000),
    ("still-noise-limit", 1, 100),
    ("still-sample-inc", 2, 4441),
    ("still-sample-percent", 0, 20),
    ("still-deflection-percent", 0, 20),
    ("sharp-tiles-per-side", 1, 40),
    ("sharp-diff-low", 1, 100),
    ("sharp-diff-high", 2, 100),
    ("sharp-high-percent", 0, 100),
    ("sharp-tiles-req", 0, 100) ]

/-- The limits `optLimits` stores for an enumerator: those of the row that bears it. -/
def limitsOf (k : OptIndex) : Option (Int × Int) :=
  (optLimits.find? (fun r => decide (r.index = k))).map fun r => (r.limitLow, r.limitHigh)

/-- The table of value options as the code has it: each long option of `options` with the
limits `optLimits` stores for its enumerator. -/
def codeOptionTable : List (String × Option (Int × Int)) :=
  options.map fun p => (p.1, limitsOf p.2)

/-- The values of the enumerators are the positions of their rows in `optLimits`, so that
`optLimits[opt]` is the row of the option `getopt_long_only` returned. -/
def indexesRows (code : OptIndex → Int) : Prop :=
  ∀ p ∈ optLimits.enum, code p.2.index = (p.1 : Int)

instance (code : OptIndex → Int) : Decidable (indexesRows code) := by
  unfold indexesRows; infer_instance

/-- The numbering from 0 in the order of the rows of `optLimits`. -/
def rowNumbering : OptIndex → Int := fun k => (k.toCtorIdx : Int)

/-- The counters after the loop body of the scan (still.cpp 426-447) has run once with the
pointer `thisLine` at offset `o`, from the counters `c`. -/
def countAt (cfg : Arguments) (image : Nat → Nat) (lineLen : Int) (c : Counters) (o : Int) :
    Counters :=
  (scanPixel cfg image lineLen { thisLine := o, cnt := c }).cnt

/-! ## Lemmas -/

theorem foldl_inv {α β : Type} (P : β → Prop) (f : β → α → β)
    (hf : ∀ b a, P b → P (f b a)) : ∀ (l : List α) (b : β), P b → P (l.foldl f b) := by
  intro l
  induction l with
  | nil => intro b hb; simpa using hb
  | cons a l ih => intro b hb; simpa using ih (f b a) (hf b a hb)

theorem readU8_blackWhite {image : Nat → Nat} (h : lumaBlackWhite image) (off : Int)
    (hd : 3 ∣ off) : readU8 image off = 0 ∨ readU8 image off = 255 := by
  obtain ⟨k, rfl⟩ := hd
  unfold readU8
  rcases le_or_lt 0 k with hk | hk
  · have : (3 * k).toNat = 3 * k.toNat := by omega
    rw [this]
    rcases h k.toNat with h0 | h0 <;> simp [h0]
  · have : (3 * k).toNat = 0 := by omega
    rw [this]
    rcases h 0 with h0 | h0 <;> simp at h0 <;> simp [h0]

theorem scanPixel_blackWhite (cfg : Arguments) {image : Nat → Nat} (h : lumaBlackWhite image)
    (hl : 0 ≤ cfg.optSharpDiffLow ∧ cfg.optSharpDiffLow < 255)
    (hh : 0 ≤ cfg.optSharpDiffHigh ∧ cfg.optSharpDiffHigh < 255)
    {lineLen : Int} (hlen : 3 ∣ lineLen) (s : Scan)
    (hs : 3 ∣ s.thisLine ∧ s.cnt.balanced) :
    3 ∣ (scanPixel cfg image lineLen s).thisLine ∧ (scanPixel cfg image lineLen s).cnt.balanced := by
  obtain ⟨hs3, hv, hhz⟩ := hs
  have h3 : (3 : Int) ∣ s.thisLine + 3 := Dvd.dvd.add hs3 (dvd_refl 3)
  have ha := readU8_blackWhite h s.thisLine hs3
  have hb := readU8_blackWhite h (s.thisLine + lineLen) (Dvd.dvd.add hs3 hlen)
  have hc := readU8_blackWhite h (s.thisLine + 3) h3
  refine ⟨h3, ?_⟩
  unfold scanPixel Counters.balanced
  simp only []
  rcases ha with ha | ha <;> rcases hb with hb | hb <;> rcases hc with hc | hc <;>
    rw [ha, hb, hc] <;> constructor <;> split_ifs <;> omega

theorem scanRow_blackWhite (cfg : Arguments) {image : Nat → Nat} (h : lumaBlackWhite image)
    (hl : 0 ≤ cfg.optSharpDiffLow ∧ cfg.optSharpDiffLow < 255)
    (hh : 0 ≤ cfg.optSharpDiffHigh ∧ cfg.optSharpDiffHigh < 255)
    {lineLen : Int} (hlen : 3 ∣ lineLen) (n : Nat) : ∀ s : Scan,
    (3 ∣ s.thisLine ∧ s.cnt.balanced) →
    3 ∣ (scanRow cfg image lineLen n s).thisLine ∧ (scanRow cfg image lineLen n s).cnt.balanced := by
  induction n with
  | zero => intro s hs; simpa [scanRow] using hs
  | succ n ih =>
    intro s hs
    simpa [scanRow] using ih _ (scanPixel_blackWhite cfg h hl hh hlen s hs)

theorem scanRows_blackWhite (cfg : Arguments) {image : Nat → Nat} (h : lumaBlackWhite image)
    (hl : 0 ≤ cfg.optSharpDiffLow ∧ cfg.optSharpDiffLow < 255)
    (hh : 0 ≤ cfg.optSharpDiffHigh ∧ cfg.optSharpDiffHigh < 255)
    {lineLen : Int} (hlen : 3 ∣ lineLen) (thisWidth : Int) (n : Nat) : ∀ s : Scan,
    (3 ∣ s.thisLine ∧ s.cnt.balanced) →
    (scanRows cfg image lineLen thisWidth n s).cnt.balanced := by
  induction n with
  | zero => intro s hs; simpa [scanRows] using hs.2
  | succ n ih =>
    intro s hs
    have h1 := scanRow_blackWhite cfg h hl hh hlen thisWidth.toNat s hs
    simp only [scanRows]
    apply ih
    refine ⟨?_, h1.2⟩
    exact Dvd.dvd.add h1.1 (Dvd.dvd.sub hlen (Dvd.intro_left thisWidth rfl))

theorem tileCounters_blackWhite (cfg : Arguments) (frame : Mat)
    (h : lumaBlackWhite frame.data)
    (hl : 0 ≤ cfg.optSharpDiffLow ∧ cfg.optSharpDiffLow < 255)
    (hh : 0 ≤ cfg.optSharpDiffHigh ∧ cfg.optSharpDiffHigh < 255) (fx fy : Int) :
    (tileCounters cfg frame.data (grid cfg frame) fx fy).balanced := by
  have hlen : (3 : Int) ∣ (grid cfg frame).lineLen := Dvd.intro_left frame.cols rfl
  unfold tileCounters
  apply scanRows_blackWhite cfg h hl hh hlen
  refine ⟨?_, rfl, rfl⟩
  exact Dvd.dvd.add (Dvd.dvd.mul_right hlen _) (Dvd.intro_left _ rfl)

theorem highPercent_balanced (g : Grid) (c : Counters) (hc : c.balanced)
    (hw : 1 ≤ g.dividedWidth) (hht : 1 ≤ g.dividedHeight) :
    highPercent g c = -1 ∨ highPercent g c = 100 := by
  obtain ⟨hv, hz⟩ := hc
  have hH : highPercentH g c = -1 ∨ highPercentH g c = 100 := by
    unfold highPercentH
    split_ifs with h1
    · right
      rw [hz]
      exact Int.mul_tdiv_cancel_left 100 (by omega)
    · left; rfl
  have hV : highPercentV g c = -1 ∨ highPercentV g c = 100 := by
    unfold highPercentV
    split_ifs with h1
    · right
      rw [hv]
      exact Int.mul_tdiv_cancel_left 100 (by omega)
    · left; rfl
  unfold highPercent
  split_ifs <;> assumption

theorem setInsert_same (p : Int) (s : List SharpTile) (t : SharpTile)
    (hs : ∀ x ∈ s, x.highPercent = p) (hlen : s.length ≤ 1) (ht : t.highPercent = p) :
    (∀ x ∈ setInsert s t, x.highPercent = p) ∧ (setInsert s t).length ≤ 1 := by
  match s, hs, hlen with
  | [], _, _ => simp [setInsert, ht]
  | [a], hs, _ =>
    have ha : a.highPercent = p := hs a (by simp)
    simp [setInsert, SharpTile.lt, ha, ht]
  | _ :: _ :: _, _, hlen => simp at hlen

/-- A frame whose luma bytes are all 0 or 255 yields at most one tile: every tile that
passes the gate has `highPercent` 100, and the set keeps one tile per `highPercent`. -/
theorem sharpTiles_blackWhite (cfg : Arguments) (frame : Mat)
    (h : lumaBlackWhite frame.data)
    (hl : 0 ≤ cfg.optSharpDiffLow ∧ cfg.optSharpDiffLow < 255)
    (hh : 0 ≤ cfg.optSharpDiffHigh ∧ cfg.optSharpDiffHigh < 255)
    (hp : 0 ≤ cfg.optSharpHighPercent)
    (hw : 1 ≤ (grid cfg frame).dividedWidth) (hht : 1 ≤ (grid cfg frame).dividedHeight) :
    (∀ x ∈ sharpTiles cfg frame, x.highPercent = 100) ∧ (sharpTiles cfg frame).length ≤ 1 := by
  unfold sharpTiles
  apply foldl_inv (fun s : List SharpTile => (∀ x ∈ s, x.highPercent = 100) ∧ s.length ≤ 1)
  · intro s fx hs
    unfold columnStep
    apply foldl_inv (fun s : List SharpTile => (∀ x ∈ s, x.highPercent = 100) ∧ s.length ≤ 1)
    · intro s fy hs
      unfold tileStep
      simp only []
      split_ifs with hgate
      · apply setInsert_same 100 s _ hs.1 hs.2
        have := highPercent_balanced (grid cfg frame) _
          (tileCounters_blackWhite cfg frame h hl hh fx fy) hw hht
        simp only [tileOf] at hgate ⊢
        omega
      · exact hs
    · exact hs
  · simp

theorem checkerboard_blackWhite : lumaBlackWhite checkerboard.data := by
  intro k
  simp only [checkerboard]
  have : 3 * k % 3 = 0 := by omega
  simp only [this, if_true]
  split_ifs <;> simp

theorem checkSharpness_valid (cfg : Arguments) (frame : Mat) (h1 : frame.continuous = true)
    (h2 : frame.channelCount = 3) (h3 : frame.depthCode = CV_8U) :
    checkSharpness cfg frame = some (sharpTiles cfg frame) := by
  simp [checkSharpness, Mat.isContinuous, Mat.channels, Mat.depth, h1, h2, h3]

theorem mem_core {e : Event} (he : e.housekeeping = false) (log : List Event) :
    e ∈ core log ↔ e ∈ log := by
  simp [core, he]

theorem count_core {e : Event} (he : e.housekeeping = false) (log : List Event) :
    (core log).count e = log.count e := by
  unfold core
  rw [List.count_filter]
  simp [he]

@[simp] theorem core_nil : core [] = [] := rfl

@[simp] theorem core_append (a b : List Event) : core (a ++ b) = core a ++ core b := by
  simp [core]

@[simp] theorem configPhase_staleArg (inp : IterIn) (l : Loop) :
    (configPhase inp l).staleArg = l.staleArg := by
  unfold configPhase Loop.setProps; simp only []; split_ifs <;> (try split) <;> rfl

@[simp] theorem configPhase_timeInChange (inp : IterIn) (l : Loop) :
    (configPhase inp l).timeInChange = l.timeInChange := by
  unfold configPhase Loop.setProps; simp only []; split_ifs <;> (try split) <;> rfl

@[simp] theorem configPhase_processor (inp : IterIn) (l : Loop) :
    (configPhase inp l).processor = l.processor := by
  unfold configPhase Loop.setProps; simp only []; split_ifs <;> (try split) <;> rfl

@[simp] theorem configPhase_allocated (inp : IterIn) (l : Loop) :
    (configPhase inp l).allocated = l.allocated := by
  unfold configPhase Loop.setProps; simp only []; split_ifs <;> (try split) <;> rfl

@[simp] theorem configPhase_core (inp : IterIn) (l : Loop) :
    core (configPhase inp l).log = core l.log := by
  unfold configPhase Loop.setProps; simp only []
  split_ifs <;> (try split) <;> simp [core, Event.housekeeping]

@[simp] theorem allocPhase_readArg (inp : IterIn) (l : Loop) :
    (allocPhase inp l).readArg = some (freshArgs inp l) := by
  unfold allocPhase; simp only []; split <;> (try split_ifs) <;> rfl

@[simp] theorem allocPhase_staleArg (inp : IterIn) (l : Loop) :
    (allocPhase inp l).staleArg = if inp.optUseStaleFrame = 0 then none else l.staleArg := by
  unfold allocPhase; simp only []
  split <;> (try split_ifs) <;> simp_all

@[simp] theorem allocPhase_cond (inp : IterIn) (l : Loop) :
    (allocPhase inp l).cond =
      (inp.started176 && (decide (inp.optUseStaleFrame = 0) || l.staleArg.isNone)) := by
  unfold allocPhase; simp only []
  split <;> (try split_ifs) <;> simp_all

@[simp] theorem allocPhase_timeInChange (inp : IterIn) (l : Loop) :
    (allocPhase inp l).timeInChange = l.timeInChange := by
  unfold allocPhase; simp only []; split <;> (try split_ifs) <;> rfl

@[simp] theorem allocPhase_processor (inp : IterIn) (l : Loop) :
    (allocPhase inp l).processor = l.processor := by
  unfold allocPhase; simp only []; split <;> (try split_ifs) <;> rfl

@[simp] theorem allocPhase_allocated (inp : IterIn) (l : Loop) :
    (allocPhase inp l).allocated = l.allocated + 1 := by
  unfold allocPhase; simp only []; split <;> (try split_ifs) <;> rfl

@[simp] theorem allocPhase_core (inp : IterIn) (l : Loop) :
    core (allocPhase inp l).log = core l.log ++
      (if inp.optUseStaleFrame = 0 then (l.staleArg.map Event.deleteArgs).toList else []) := by
  unfold allocPhase; simp only []
  split <;> (try split_ifs) <;> simp_all [core, Event.housekeeping]

@[simp] theorem grabPhase_readArg (inp : IterIn) (l : Loop) :
    (grabPhase inp l).readArg = l.readArg := by
  unfold grabPhase; simp only []; split_ifs <;> (try split) <;> rfl

@[simp] theorem grabPhase_staleArg (inp : IterIn) (l : Loop) :
    (grabPhase inp l).staleArg = l.staleArg := by
  unfold grabPhase; simp only []; split_ifs <;> (try split) <;> rfl

@[simp] theorem grabPhase_timeInChange (inp : IterIn) (l : Loop) :
    (grabPhase inp l).timeInChange = l.timeInChange := by
  unfold grabPhase; simp only []; split_ifs <;> (try split) <;> rfl

@[simp] theorem grabPhase_processor (inp : IterIn) (l : Loop) :
    (grabPhase inp l).processor = l.processor := by
  unfold grabPhase; simp only []; split_ifs <;> (try split) <;> rfl

@[simp] theorem grabPhase_goOn (inp : IterIn) (l : Loop) :
    (grabPhase inp l).goOn = (inp.grab && l.cond && inp.retrieve1 && !inp.empty1) := by
  unfold grabPhase; simp only []
  split_ifs <;> (try split) <;> simp_all <;> cases hg : inp.grab <;> cases hc : l.cond <;> simp_all

theorem grabPhase_allocated (inp : IterIn) (l : Loop) :
    l.allocated ≤ (grabPhase inp l).allocated := by
  unfold grabPhase; simp only []
  split_ifs <;> (try split) <;> simp

@[simp] theorem grabPhase_core (inp : IterIn) (l : Loop) :
    core (grabPhase inp l).log = core l.log := by
  unfold grabPhase; simp only []
  split_ifs <;> (try split) <;> simp [core, Event.housekeeping]

@[simp] theorem stillPhase_readArg (inp : IterIn) (l : Loop) :
    (stillPhase inp l).readArg = l.readArg := by
  unfold stillPhase Loop.setProps; simp only []
  split_ifs <;> (try split) <;> rfl

@[simp] theorem stillPhase_staleArg (inp : IterIn) (l : Loop) :
    (stillPhase inp l).staleArg = l.staleArg := by
  unfold stillPhase Loop.setProps; simp only []
  split_ifs <;> (try split) <;> rfl

@[simp] theorem stillPhase_processor (inp : IterIn) (l : Loop) :
    (stillPhase inp l).processor = l.processor := by
  unfold stillPhase Loop.setProps; simp only []
  split_ifs <;> (try split) <;> rfl

@[simp] theorem stillPhase_allocated (inp : IterIn) (l : Loop) :
    (stillPhase inp l).allocated = l.allocated := by
  unfold stillPhase Loop.setProps; simp only []
  split_ifs <;> (try split) <;> rfl

theorem stillPhase_timeInChange (inp : IterIn) (l : Loop) :
    (stillPhase inp l).timeInChange =
      if stillChecked inp l ∧ inp.changed = false then inp.nowActualize
      else l.timeInChange := by
  unfold stillPhase Loop.setProps stillChecked; simp only []
  split_ifs <;> (try split) <;> simp_all

theorem stillPhase_goOn (inp : IterIn) (l : Loop) :
    (stillPhase inp l).goOn =
      if inp.optStillSamplingPercent > 0 then
        (l.goOn && !inp.changed && decide (dwellEnough inp l) && inp.retrieve2 && !inp.empty2)
      else l.goOn := by
  unfold stillPhase Loop.setProps dwellEnough; simp only []
  split_ifs <;> (try split) <;> simp_all

theorem stillPhase_core (inp : IterIn) (l : Loop) :
    core (stillPhase inp l).log = core l.log ++
      (if stillChecked inp l then
        [Event.hasChanged l.smallFrameLast inp.changed] ++
        (if inp.changed = false then
          [Event.actualize inp.nowActualize] ++
          (if dwellEnough inp l then [Event.retrieveFull] else [])
        else [])
      else []) := by
  unfold stillPhase Loop.setProps stillChecked dwellEnough; simp only []
  split_ifs <;> (try split) <;> simp_all [core, Event.housekeeping] <;> omega

@[simp] theorem sharpPhase_readArg (inp : IterIn) (l : Loop) :
    (sharpPhase inp l).readArg = l.readArg := by
  unfold sharpPhase; simp only []; split_ifs <;> rfl

@[simp] theorem sharpPhase_staleArg (inp : IterIn) (l : Loop) :
    (sharpPhase inp l).staleArg = l.staleArg := by
  unfold sharpPhase; simp only []; split_ifs <;> rfl

@[simp] theorem sharpPhase_timeInChange (inp : IterIn) (l : Loop) :
    (sharpPhase inp l).timeInChange = l.timeInChange := by
  unfold sharpPhase; simp only []; split_ifs <;> rfl

@[simp] theorem sharpPhase_processor (inp : IterIn) (l : Loop) :
    (sharpPhase inp l).processor = l.processor := by
  unfold sharpPhase; simp only []; split_ifs <;> rfl

@[simp] theorem sharpPhase_allocated (inp : IterIn) (l : Loop) :
    (sharpPhase inp l).allocated = l.allocated := by
  unfold sharpPhase; simp only []; split_ifs <;> rfl

theorem sharpPhase_goOn (inp : IterIn) (l : Loop) :
    (sharpPhase inp l).goOn =
      (l.goOn && !(decide (inp.optSharpTilesRequired > 0) &&
        decide ((inp.tilesSize : Int) < inp.optSharpTilesRequired))) := by
  unfold sharpPhase; simp only []
  split_ifs <;> simp_all

@[simp] theorem sharpPhase_core (inp : IterIn) (l : Loop) :
    core (sharpPhase inp l).log = core l.log := by
  unfold sharpPhase; simp only []
  split_ifs <;> simp [core, Event.housekeeping]

@[simp] theorem keepPhase_timeInChange (inp : IterIn) (l : Loop) :
    (keepPhase inp l).timeInChange = l.timeInChange := by
  unfold keepPhase; split_ifs <;> (try split) <;> rfl

@[simp] theorem keepPhase_processor (inp : IterIn) (l : Loop) :
    (keepPhase inp l).processor = l.processor := by
  unfold keepPhase; split_ifs <;> (try split) <;> rfl

@[simp] theorem keepPhase_allocated (inp : IterIn) (l : Loop) :
    (keepPhase inp l).allocated = l.allocated := by
  unfold keepPhase; split_ifs <;> (try split) <;> rfl

theorem keepPhase_readArg (inp : IterIn) (l : Loop) :
    (keepPhase inp l).readArg =
      if l.goOn = false ∨ staleTaken inp l then none else l.readArg := by
  unfold keepPhase staleTaken
  split_ifs <;> (try split) <;> simp_all

theorem keepPhase_staleArg (inp : IterIn) (l : Loop) :
    (keepPhase inp l).staleArg = if staleTaken inp l then l.readArg else l.staleArg := by
  unfold keepPhase staleTaken
  split_ifs <;> (try split) <;> simp_all

theorem keepPhase_core (inp : IterIn) (l : Loop) :
    core (keepPhase inp l).log = core l.log ++
      (if l.goOn = false then (l.readArg.map Event.deleteArgs).toList
       else if staleTaken inp l then (l.readArg.map Event.toStale).toList
       else []) := by
  unfold keepPhase staleTaken
  split_ifs <;> (try split) <;> simp_all [core, Event.housekeeping]

theorem dispatchPhase_keepAlive (inp : IterIn) (l : Loop) :
    (dispatchPhase inp l).keepAlive =
      (inp.started283 || processingResult inp l == RESULT_PROCESSING) := by
  unfold dispatchPhase processingResult procAtStatus; simp only []
  split_ifs <;> (try split) <;> rfl

@[simp] theorem dispatchPhase_allocated (inp : IterIn) (l : Loop) :
    (dispatchPhase inp l).allocated = l.allocated := by
  unfold dispatchPhase; simp only []
  split_ifs <;> (try split) <;> rfl

theorem dispatchPhase_timeInChange (inp : IterIn) (l : Loop) :
    (dispatchPhase inp l).timeInChange =
      if dispatches inp l ∧ inp.optUseStaleFrame ≠ 0 ∧ l.staleArg ≠ none then inp.nowStale
      else l.timeInChange := by
  unfold dispatchPhase dispatches processingResult procAtStatus; simp only []
  split_ifs <;> (try split) <;> simp_all

theorem dispatchPhase_staleArg (inp : IterIn) (l : Loop) :
    (dispatchPhase inp l).staleArg =
      if dispatches inp l ∧ inp.optUseStaleFrame ≠ 0 then none else l.staleArg := by
  unfold dispatchPhase dispatches processingResult procAtStatus; simp only []
  split_ifs <;> (try split) <;> simp_all

theorem dispatchPhase_processor (inp : IterIn) (l : Loop) :
    (dispatchPhase inp l).processor =
      if dispatches inp l then
        (if inp.optUseStaleFrame ≠ 0 then
          l.staleArg.elim (procAtDispatch inp l) (procAtDispatch inp l).process
         else l.readArg.elim (procAtDispatch inp l) (procAtDispatch inp l).process)
      else procAtDispatch inp l := by
  unfold dispatchPhase dispatches procAtDispatch processingResult procAtStatus
  simp only []
  split_ifs <;> (try split) <;> simp_all

theorem dispatchPhase_core (inp : IterIn) (l : Loop) :
    core (dispatchPhase inp l).log = core l.log ++
      Event.status (processingResult inp l) ::
      (if dispatches inp l then
        (if inp.optUseStaleFrame ≠ 0 then
          l.staleArg.elim [] (fun s =>
            [Event.actualize inp.nowStale, Event.process s (procAtDispatch inp l).current])
         else (l.readArg.map fun j => Event.process j (procAtDispatch inp l).current).toList)
      else (l.readArg.map Event.deleteArgs).toList) := by
  unfold dispatchPhase dispatches procAtDispatch processingResult procAtStatus
  simp only []
  split_ifs <;> (try split) <;> simp_all [core, Event.housekeeping]

theorem iteration_eq (inp : IterIn) (l : Loop) :
    iteration inp l = dispatchPhase inp (keepPhase inp (afterSharp inp l)) := rfl

@[simp] theorem afterGrab_readArg (inp : IterIn) (l : Loop) :
    (afterGrab inp l).readArg = some (freshArgs inp l) := by
  simp [afterGrab, freshArgs]

@[simp] theorem afterGrab_staleArg (inp : IterIn) (l : Loop) :
    (afterGrab inp l).staleArg = if inp.optUseStaleFrame = 0 then none else l.staleArg := by
  simp [afterGrab]

@[simp] theorem afterGrab_timeInChange (inp : IterIn) (l : Loop) :
    (afterGrab inp l).timeInChange = l.timeInChange := by
  simp [afterGrab]

@[simp] theorem afterGrab_processor (inp : IterIn) (l : Loop) :
    (afterGrab inp l).processor = l.processor := by
  simp [afterGrab]

@[simp] theorem afterGrab_goOn (inp : IterIn) (l : Loop) :
    (afterGrab inp l).goOn =
      (inp.grab && (inp.started176 && (decide (inp.optUseStaleFrame = 0) || l.staleArg.isNone))
        && inp.retrieve1 && !inp.empty1) := by
  simp [afterGrab]

@[simp] theorem afterGrab_core (inp : IterIn) (l : Loop) :
    core (afterGrab inp l).log =
      if inp.optUseStaleFrame = 0 then (l.staleArg.map Event.deleteArgs).toList else [] := by
  simp [afterGrab]

theorem iteration_eq_keep (inp : IterIn) (l : Loop) :
    iteration inp l = dispatchPhase inp (afterKeep inp l) := rfl

@[simp] theorem afterSharp_readArg (inp : IterIn) (l : Loop) :
    (afterSharp inp l).readArg = some (freshArgs inp l) := by
  simp [afterSharp]

@[simp] theorem afterSharp_staleArg (inp : IterIn) (l : Loop) :
    (afterSharp inp l).staleArg = staleKept inp l := by
  simp [afterSharp, staleKept]

@[simp] theorem afterSharp_processor (inp : IterIn) (l : Loop) :
    (afterSharp inp l).processor = l.processor := by
  simp [afterSharp]

@[simp] theorem afterSharp_timeInChange (inp : IterIn) (l : Loop) :
    (afterSharp inp l).timeInChange =
      if stillRuns inp l ∧ inp.changed = false then inp.nowActualize else l.timeInChange := by
  simp [afterSharp, stillPhase_timeInChange, stillRuns]

theorem afterSharp_core (inp : IterIn) (l : Loop) :
    core (afterSharp inp l).log =
      (if inp.optUseStaleFrame = 0 then (l.staleArg.map Event.deleteArgs).toList else []) ++
      (if stillRuns inp l then
        [Event.hasChanged (afterGrab inp l).smallFrameLast inp.changed] ++
        (if inp.changed = false then
          [Event.actualize inp.nowActualize] ++
          (if inp.optStillChangeTime ≤ elapsedMs l.timeInChange inp.nowElapsed
            then [Event.retrieveFull] else [])
        else [])
      else []) := by
  simp only [afterSharp, sharpPhase_core, stillPhase_core, afterGrab_core, stillRuns,
    dwellEnough, afterGrab_timeInChange]

theorem staleTaken_afterSharp (inp : IterIn) (l : Loop) :
    staleTaken inp (afterSharp inp l) ↔ parks inp l := by
  unfold staleTaken parks viable
  simp only [afterSharp_staleArg, staleKept]
  constructor
  · rintro ⟨h1, h2, h3, h4⟩
    simp only [h3, if_false] at h4
    exact ⟨h1, h2, h3, h4⟩
  · rintro ⟨h1, h2, h3, h4⟩
    exact ⟨h1, h2, h3, by simp [h3, h4]⟩

@[simp] theorem afterKeep_readArg (inp : IterIn) (l : Loop) :
    (afterKeep inp l).readArg =
      if viable inp l = false ∨ parks inp l then none else some (freshArgs inp l) := by
  simp only [afterKeep, keepPhase_readArg, staleTaken_afterSharp, afterSharp_readArg, viable]

@[simp] theorem afterKeep_staleArg (inp : IterIn) (l : Loop) :
    (afterKeep inp l).staleArg =
      if parks inp l then some (freshArgs inp l) else staleKept inp l := by
  simp only [afterKeep, keepPhase_staleArg, staleTaken_afterSharp, afterSharp_readArg,
    afterSharp_staleArg]

@[simp] theorem afterKeep_processor (inp : IterIn) (l : Loop) :
    (afterKeep inp l).processor = l.processor := by
  simp [afterKeep]

@[simp] theorem afterKeep_timeInChange (inp : IterIn) (l : Loop) :
    (afterKeep inp l).timeInChange =
      if stillRuns inp l ∧ inp.changed = false then inp.nowActualize else l.timeInChange := by
  simp [afterKeep]

theorem afterKeep_core (inp : IterIn) (l : Loop) :
    core (afterKeep inp l).log = core (afterSharp inp l).log ++
      (if viable inp l = false then [Event.deleteArgs (freshArgs inp l)]
       else if parks inp l then [Event.toStale (freshArgs inp l)]
       else []) := by
  simp only [afterKeep, keepPhase_core, staleTaken_afterSharp, afterSharp_readArg, viable,
    Option.map_some', Option.toList_some]

@[simp] theorem procAtStatus_afterKeep (inp : IterIn) (l : Loop) :
    procAtStatus inp (afterKeep inp l) = procAtStatus inp l := by
  simp [procAtStatus]

@[simp] theorem processingResult_afterKeep (inp : IterIn) (l : Loop) :
    processingResult inp (afterKeep inp l) = processingResult inp l := by
  simp [processingResult]

@[simp] theorem procAtDispatch_afterKeep (inp : IterIn) (l : Loop) :
    procAtDispatch inp (afterKeep inp l) = procAtDispatch inp l := by
  simp [procAtDispatch]

@[simp] theorem dispatches_afterKeep (inp : IterIn) (l : Loop) :
    dispatches inp (afterKeep inp l) ↔ dispatches inp l := by
  simp [dispatches]

/-- The essential events of a whole pass. -/
theorem iteration_core (inp : IterIn) (l : Loop) :
    core (iteration inp l).log =
      core (afterSharp inp l).log ++
      (if viable inp l = false then [Event.deleteArgs (freshArgs inp l)]
       else if parks inp l then [Event.toStale (freshArgs inp l)]
       else []) ++
      Event.status (processingResult inp l) ::
      (if dispatches inp l then
        (if inp.optUseStaleFrame ≠ 0 then
          (afterKeep inp l).staleArg.elim [] (fun s =>
            [Event.actualize inp.nowStale, Event.process s (procAtDispatch inp l).current])
         else ((afterKeep inp l).readArg.map fun j =>
                Event.process j (procAtDispatch inp l).current).toList)
      else ((afterKeep inp l).readArg.map Event.deleteArgs).toList) := by
  rw [iteration_eq_keep, dispatchPhase_core, afterKeep_core]
  simp only [processingResult_afterKeep, procAtDispatch_afterKeep, dispatches_afterKeep]

theorem iteration_staleArg (inp : IterIn) (l : Loop) :
    (iteration inp l).staleArg =
      if dispatches inp l ∧ inp.optUseStaleFrame ≠ 0 then none
      else if parks inp l then some (freshArgs inp l) else staleKept inp l := by
  rw [iteration_eq_keep, dispatchPhase_staleArg]
  simp only [dispatches_afterKeep, afterKeep_staleArg]

theorem iteration_timeInChange (inp : IterIn) (l : Loop) :
    (iteration inp l).timeInChange =
      if dispatches inp l ∧ inp.optUseStaleFrame ≠ 0 ∧ (afterKeep inp l).staleArg ≠ none
      then inp.nowStale
      else if stillRuns inp l ∧ inp.changed = false then inp.nowActualize
      else l.timeInChange := by
  rw [iteration_eq_keep, dispatchPhase_timeInChange]
  simp only [dispatches_afterKeep, afterKeep_timeInChange]

theorem iteration_processor (inp : IterIn) (l : Loop) :
    (iteration inp l).processor =
      if dispatches inp l then
        (if inp.optUseStaleFrame ≠ 0 then
          (afterKeep inp l).staleArg.elim (procAtDispatch inp l) (procAtDispatch inp l).process
         else
          (afterKeep inp l).readArg.elim (procAtDispatch inp l) (procAtDispatch inp l).process)
      else procAtDispatch inp l := by
  rw [iteration_eq_keep, dispatchPhase_processor]
  simp only [dispatches_afterKeep, procAtDispatch_afterKeep]

theorem iteration_keepAlive (inp : IterIn) (l : Loop) :
    (iteration inp l).keepAlive =
      (inp.started283 || processingResult inp l == RESULT_PROCESSING) := by
  rw [iteration_eq_keep, dispatchPhase_keepAlive, processingResult_afterKeep]

theorem iteration_allocated (inp : IterIn) (l : Loop) :
    l.allocated + 1 ≤ (iteration inp l).allocated := by
  have h := grabPhase_allocated inp (allocPhase inp (configPhase inp
    { l with readArg := none, smallFrameCurr := none, cond := false, goOn := false,
             log := [] }))
  simp only [allocPhase_allocated, configPhase_allocated] at h
  simpa [iteration] using h

theorem viable_eq (inp : IterIn) (l : Loop) :
    viable inp l =
      ((if inp.optStillSamplingPercent > 0 then
          ((afterGrab inp l).goOn && !inp.changed &&
            decide (inp.optStillChangeTime ≤ elapsedMs l.timeInChange inp.nowElapsed) &&
            inp.retrieve2 && !inp.empty2)
        else (afterGrab inp l).goOn) &&
       !(decide (inp.optSharpTilesRequired > 0) &&
          decide ((inp.tilesSize : Int) < inp.optSharpTilesRequired))) := by
  simp only [viable, afterSharp, sharpPhase_goOn, stillPhase_goOn, dwellEnough,
    afterGrab_timeInChange]

theorem stillRuns_iff (inp : IterIn) (l : Loop) : stillRuns inp l ↔ smallRetrieved inp l := by
  unfold stillRuns stillChecked smallRetrieved
  rw [afterGrab_goOn]
  cases l.staleArg <;> simp <;> tauto

theorem viable_changed (inp : IterIn) (l : Loop) (h : smallRetrieved inp l)
    (hc : inp.changed = true) : viable inp l = false := by
  rw [viable_eq]; simp [h.1, hc]

theorem mem_retrieveFull (inp : IterIn) (l : Loop) :
    Event.retrieveFull ∈ (iteration inp l).log ↔
      (stillRuns inp l ∧ inp.changed = false ∧
        inp.optStillChangeTime ≤ elapsedMs l.timeInChange inp.nowElapsed) := by
  rw [← mem_core (by rfl), iteration_core, afterSharp_core]
  by_cases hd : dispatches inp l <;> by_cases hu : inp.optUseStaleFrame = 0 <;>
    cases hs : (afterKeep inp l).staleArg <;> cases hra : (afterKeep inp l).readArg <;>
    cases hl : l.staleArg <;>
    simp [hd, hu, hs, hra, hl] <;> split_ifs <;> simp_all

theorem mem_actualize (inp : IterIn) (l : Loop) (a : Int) :
    Event.actualize a ∈ (iteration inp l).log ↔
      ((stillRuns inp l ∧ inp.changed = false ∧ a = inp.nowActualize) ∨
       (dispatches inp l ∧ inp.optUseStaleFrame ≠ 0 ∧ (afterKeep inp l).staleArg ≠ none ∧
         a = inp.nowStale)) := by
  rw [← mem_core (by rfl), iteration_core, afterSharp_core]
  by_cases hd : dispatches inp l <;> by_cases hu : inp.optUseStaleFrame = 0 <;>
    cases hs : (afterKeep inp l).staleArg <;> cases hra : (afterKeep inp l).readArg <;>
    cases hl : l.staleArg <;>
    simp [hd, hu, hs, hra, hl] <;> split_ifs <;> simp_all

theorem timer_step (inp : IterIn) (l : Loop) (lo : Int) (hl : l.timeInChange ≤ lo)
    (hc : List.Pairwise (fun a b => a ≤ b) (lo :: inp.clock)) :
    l.timeInChange ≤ (iteration inp l).timeInChange ∧
    (iteration inp l).timeInChange ≤ inp.nowStale ∧
    ∀ a, Event.actualize a ∈ (iteration inp l).log → a ≤ (iteration inp l).timeInChange := by
  simp only [IterIn.clock, List.pairwise_cons, List.mem_cons, List.mem_singleton,
    forall_eq_or_imp, forall_eq] at hc
  simp only [mem_actualize, iteration_timeInChange]
  refine ⟨?_, ?_, ?_⟩
  · split_ifs <;> omega
  · split_ifs <;> omega
  · intro a ha
    rcases ha with ⟨h1, h2, rfl⟩ | ⟨h1, h2, h3, rfl⟩
    · split_ifs <;> first | omega | tauto
    · rw [if_pos ⟨h1, h2, h3⟩]

theorem timer_run (pre : List IterIn) : ∀ (l : Loop) (lo : Int), l.timeInChange ≤ lo →
    List.Pairwise (fun a b => a ≤ b) (lo :: pre.flatMap IterIn.clock) →
    l.timeInChange ≤ (runLoop pre l).1.timeInChange ∧
    (∀ hi, (∀ c ∈ lo :: pre.flatMap IterIn.clock, c ≤ hi) →
      (runLoop pre l).1.timeInChange ≤ hi) ∧
    ∀ a, Event.actualize a ∈ (runLoop pre l).2 → a ≤ (runLoop pre l).1.timeInChange := by
  induction pre with
  | nil =>
    intro l lo hl _
    simp only [runLoop, List.not_mem_nil, false_implies, implies_true, and_true, le_refl,
      true_and]
    intro hi hhi
    have := hhi lo (by simp)
    omega
  | cons inp rest ih =>
    intro l lo hl hc
    by_cases hk : l.keepAlive = true
    · simp only [runLoop, hk, if_true]
      rw [List.flatMap_cons, ← List.cons_append, List.pairwise_append] at hc
      obtain ⟨hc1, hc2, hc3⟩ := hc
      obtain ⟨s1, s2, s3⟩ := timer_step inp l lo hl hc1
      have hc' : List.Pairwise (fun a b => a ≤ b) (inp.nowStale :: rest.flatMap IterIn.clock) := by
        rw [List.pairwise_cons]
        exact ⟨fun b hb => hc3 inp.nowStale (by simp [IterIn.clock]) b hb, hc2⟩
      obtain ⟨i1, i2, i3⟩ := ih (iteration inp l) inp.nowStale s2 hc'
      refine ⟨by omega, ?_, ?_⟩
      · intro hi hhi
        apply i2
        intro c hcm
        apply hhi
        rw [List.flatMap_cons]
        rcases List.mem_cons.1 hcm with rfl | hcm
        · simp [IterIn.clock]
        · simp [hcm]
      · intro a ha
        rcases List.mem_append.1 ha with ha | ha
        · have := s3 a ha
          omega
        · exact i3 a ha
    · simp only [runLoop, hk]
      simp only [Bool.false_eq_true, if_false, List.not_mem_nil, false_implies, implies_true,
        and_true, le_refl, true_and]
      intro hi hhi
      have := hhi lo (by simp)
      omega

theorem viable_iff (inp : IterIn) (l : Loop) : viable inp l = true ↔ passedChecks inp l := by
  rw [viable_eq, afterGrab_goOn]
  unfold passedChecks
  cases l.staleArg <;> by_cases hp : inp.optStillSamplingPercent > 0 <;>
    by_cases hq : inp.optSharpTilesRequired > 0 <;> simp [hp, hq] <;> tauto

theorem countP_core (p : Event → Bool) (hp : ∀ e, p e = true → e.housekeeping = false)
    (log : List Event) : (core log).countP p = log.countP p := by
  unfold core
  rw [List.countP_filter]
  congr 1
  funext e
  cases h : p e
  · simp
  · simp [hp e h]

theorem wellFormed_init : FrameProcessor.init.wellFormed := by
  simp [FrameProcessor.wellFormed, FrameProcessor.init]

theorem wellFormed_workerMay (p : FrameProcessor) (r : Option FrameProcStatus)
    (h : p.wellFormed) : (p.workerMay r).wellFormed := by
  obtain ⟨h1, h2⟩ := h
  cases r with
  | none => exact ⟨h1, h2⟩
  | some r =>
    unfold FrameProcessor.workerMay FrameProcessor.workerFinish FrameProcessor.wellFormed
    match hw : p.working, h1 with
    | [], _ => simp [hw]
    | [a], _ => simp
    | _ :: _ :: _, h1 => simp at h1

theorem wellFormed_status (p : FrameProcessor) (h : p.wellFormed) :
    p.status.2.wellFormed ∧
    (p.status.1 ≠ RESULT_PROCESSING →
      p.status.2.working = [] ∧ p.status.2.current = RESULT_NOIMAGE) := by
  obtain ⟨h1, h2⟩ := h
  unfold FrameProcessor.status FrameProcessor.wellFormed
  simp only []
  split_ifs with hc
  · have hw : p.working = [] := by
      by_contra hne
      exact hc.2 (h2 hne)
    simp [hw]
  · refine ⟨⟨h1, h2⟩, fun hne => ?_⟩
    have hcur : p.current = RESULT_NOIMAGE := by
      by_contra h3
      exact hc ⟨h3, hne⟩
    refine ⟨?_, hcur⟩
    by_contra hw
    rw [h2 hw] at hne
    exact hne rfl

theorem workerMay_idle (p : FrameProcessor) (r : Option FrameProcStatus)
    (h : p.working = []) : p.workerMay r = p := by
  cases r with
  | none => rfl
  | some r => simp [FrameProcessor.workerMay, FrameProcessor.workerFinish, h]

theorem procAtDispatch_idle (inp : IterIn) (l : Loop) (h : l.processor.wellFormed)
    (hd : processingResult inp l ≠ RESULT_PROCESSING) :
    (procAtDispatch inp l).working = [] ∧ (procAtDispatch inp l).current = RESULT_NOIMAGE := by
  have h1 := wellFormed_workerMay l.processor inp.workerBefore h
  obtain ⟨_, h3⟩ := wellFormed_status _ h1
  obtain ⟨h4, h5⟩ := h3 hd
  unfold procAtDispatch procAtStatus
  rw [workerMay_idle _ _ h4]
  exact ⟨h4, h5⟩

theorem wellFormed_procAtDispatch (inp : IterIn) (l : Loop) (h : l.processor.wellFormed) :
    (procAtDispatch inp l).wellFormed := by
  unfold procAtDispatch procAtStatus
  exact wellFormed_workerMay _ _ (wellFormed_status _ (wellFormed_workerMay _ _ h)).1

theorem wellFormed_process (p : FrameProcessor) (j : ProcessArgs) (h : p.working = []) :
    (p.process j).wellFormed := by
  simp [FrameProcessor.wellFormed, FrameProcessor.process, h]

theorem wellFormed_iteration (inp : IterIn) (l : Loop) (h : l.processor.wellFormed) :
    (iteration inp l).processor.wellFormed := by
  rw [iteration_processor]
  have hw := wellFormed_procAtDispatch inp l h
  by_cases hd : dispatches inp l
  · have hi := (procAtDispatch_idle inp l h hd.2).1
    simp only [hd, if_true]
    split_ifs
    · cases (afterKeep inp l).staleArg with
      | none => exact hw
      | some s => exact wellFormed_process _ s hi
    · cases (afterKeep inp l).readArg with
      | none => exact hw
      | some s => exact wellFormed_process _ s hi
  · simp only [hd, if_false]; exact hw

theorem wellFormed_run (pre : List IterIn) : ∀ l : Loop, l.processor.wellFormed →
    (runLoop pre l).1.processor.wellFormed := by
  induction pre with
  | nil => intro l h; exact h
  | cons inp rest ih =>
    intro l h
    unfold runLoop
    split_ifs
    · exact ih _ (wellFormed_iteration inp l h)
    · exact h

theorem mem_process (inp : IterIn) (l : Loop) (j : ProcessArgs) (c : FrameProcStatus) :
    Event.process j c ∈ (iteration inp l).log ↔
      (dispatches inp l ∧ c = (procAtDispatch inp l).current ∧
        ((inp.optUseStaleFrame ≠ 0 ∧ (afterKeep inp l).staleArg = some j) ∨
         (inp.optUseStaleFrame = 0 ∧ (afterKeep inp l).readArg = some j))) := by
  rw [← mem_core (by rfl), iteration_core, afterSharp_core]
  by_cases hd : dispatches inp l <;> by_cases hu : inp.optUseStaleFrame = 0 <;>
    cases hs : (afterKeep inp l).staleArg <;> cases hra : (afterKeep inp l).readArg <;>
    cases hl : l.staleArg <;>
    simp [hd, hu, hs, hra, hl] <;> split_ifs <;> simp_all <;> tauto

theorem mem_status (inp : IterIn) (l : Loop) (r : FrameProcStatus) :
    Event.status r ∈ (iteration inp l).log ↔ r = processingResult inp l := by
  rw [← mem_core (by rfl), iteration_core, afterSharp_core]
  by_cases hd : dispatches inp l <;> by_cases hu : inp.optUseStaleFrame = 0 <;>
    cases hs : (afterKeep inp l).staleArg <;> cases hra : (afterKeep inp l).readArg <;>
    cases hl : l.staleArg <;>
    simp [hd, hu, hs, hra, hl] <;> split_ifs <;> simp_all

theorem mem_toStale (inp : IterIn) (l : Loop) (j : ProcessArgs) :
    Event.toStale j ∈ (iteration inp l).log ↔ (parks inp l ∧ j = freshArgs inp l) := by
  have hpv : parks inp l → viable inp l = true := fun h => h.1
  rw [← mem_core (by rfl), iteration_core, afterSharp_core]
  by_cases hd : dispatches inp l <;> by_cases hu : inp.optUseStaleFrame = 0 <;>
    cases hs : (afterKeep inp l).staleArg <;> cases hra : (afterKeep inp l).readArg <;>
    cases hl : l.staleArg <;> by_cases hp : parks inp l <;>
    cases hv : viable inp l <;>
    simp [hd, hu, hs, hra, hl, hp, hv] <;> simp_all

theorem staleFresh_iteration (inp : IterIn) (l : Loop) (h : staleFresh l) :
    staleFresh (iteration inp l) := by
  intro s hs
  have ha := iteration_allocated inp l
  rw [iteration_staleArg] at hs
  split_ifs at hs with h1 h2
  · simp only [Option.some.injEq] at hs
    subst hs
    simp only [freshArgs]
    omega
  · unfold staleKept at hs
    split_ifs at hs
    have := h s hs
    omega

theorem staleFresh_run (pre : List IterIn) : ∀ l : Loop, staleFresh l →
    staleFresh (runLoop pre l).1 := by
  induction pre with
  | nil => intro l h; exact h
  | cons inp rest ih =>
    intro l h
    unfold runLoop
    split_ifs
    · exact ih _ (staleFresh_iteration inp l h)
    · exact h

theorem fates_eq (j : ProcessArgs) (inp : IterIn) (l : Loop) :
    fates j (iteration inp l) =
      (core (iteration inp l).log).count (Event.deleteArgs j) +
      (if (iteration inp l).staleArg = some j then 1 else 0) +
      (core (iteration inp l).log).countP (Event.isProcessOf j) := by
  unfold fates
  rw [count_core (by rfl),
    countP_core (Event.isProcessOf j)
      (by intro e; cases e <;> simp [Event.isProcessOf, Event.housekeeping])]

theorem afterSharp_count_delete (j : ProcessArgs) (inp : IterIn) (l : Loop) :
    (core (afterSharp inp l).log).count (Event.deleteArgs j) =
      if inp.optUseStaleFrame = 0 ∧ l.staleArg = some j then 1 else 0 := by
  rw [afterSharp_core]
  by_cases hu : inp.optUseStaleFrame = 0 <;> cases hl : l.staleArg <;>
    simp [hu, List.count_cons] <;> split_ifs <;> simp [List.count_cons]

theorem afterSharp_count_process (j : ProcessArgs) (inp : IterIn) (l : Loop) :
    (core (afterSharp inp l).log).countP (Event.isProcessOf j) = 0 := by
  rw [afterSharp_core]
  by_cases hu : inp.optUseStaleFrame = 0 <;> cases hl : l.staleArg <;>
    simp [hu, List.countP_cons, Event.isProcessOf] <;>
    (intro a _ ha; rcases ha with rfl | ⟨_, rfl | ⟨_, rfl⟩⟩ <;> rfl)

theorem scanPixel_thisLine (cfg : Arguments) (image : Nat → Nat) (lineLen : Int) (s : Scan) :
    (scanPixel cfg image lineLen s).thisLine = s.thisLine + 3 := rfl

theorem scanPixel_dVertL (cfg : Arguments) (image : Nat → Nat) (lineLen : Int) (s : Scan) :
    (scanPixel cfg image lineLen s).cnt.dVertL =
      if vertDiff image lineLen s.thisLine > cfg.optSharpDiffLow then s.cnt.dVertL + 1
      else s.cnt.dVertL := rfl

theorem scanRow_thisLine (cfg : Arguments) (image : Nat → Nat) (lineLen : Int) (n : Nat) :
    ∀ s : Scan, (scanRow cfg image lineLen n s).thisLine = s.thisLine + 3 * n := by
  induction n with
  | zero => intro s; simp [scanRow]
  | succ n ih =>
    intro s
    simp only [scanRow, ih, scanPixel_thisLine]
    push_cast
    ring

theorem scanRow_mono (cfg : Arguments) (image : Nat → Nat) (lineLen : Int) (n : Nat) :
    ∀ s : Scan, s.cnt.dVertL ≤ (scanRow cfg image lineLen n s).cnt.dVertL := by
  induction n with
  | zero => intro s; simp [scanRow]
  | succ n ih =>
    intro s
    simp only [scanRow]
    have h := ih (scanPixel cfg image lineLen s)
    rw [scanPixel_dVertL] at h
    split_ifs at h <;> omega

theorem scanRows_mono (cfg : Arguments) (image : Nat → Nat) (lineLen thisWidth : Int)
    (n : Nat) : ∀ s : Scan,
    s.cnt.dVertL ≤ (scanRows cfg image lineLen thisWidth n s).cnt.dVertL := by
  induction n with
  | zero => intro s; simp [scanRows]
  | succ n ih =>
    intro s
    simp only [scanRows]
    have h1 := scanRow_mono cfg image lineLen thisWidth.toNat s
    have h2 := ih { scanRow cfg image lineLen thisWidth.toNat s with
      thisLine := (scanRow cfg image lineLen thisWidth.toNat s).thisLine +
        (lineLen - thisWidth * 3) }
    simp only [] at h2
    omega

/-- A row in which every vertical difference exceeds the low limit adds its length to
`dVertL`. -/
theorem scanRow_edge (cfg : Arguments) (image : Nat → Nat) (lineLen : Int) (n : Nat) :
    ∀ s : Scan,
    (∀ j : Nat, j < n → vertDiff image lineLen (s.thisLine + 3 * j) > cfg.optSharpDiffLow) →
    (scanRow cfg image lineLen n s).cnt.dVertL = s.cnt.dVertL + n := by
  induction n with
  | zero => intro s _; simp [scanRow]
  | succ n ih =>
    intro s h
    simp only [scanRow]
    rw [ih (scanPixel cfg image lineLen s)]
    · rw [scanPixel_dVertL]
      have h0 := h 0 (by omega)
      simp only [Nat.cast_zero, mul_zero, add_zero] at h0
      rw [if_pos h0]
      push_cast
      ring
    · intro j hj
      have := h (j + 1) (by omega)
      rw [scanPixel_thisLine]
      push_cast at this
      have e : s.thisLine + 3 + 3 * (j : Int) = s.thisLine + 3 * ((j : Int) + 1) := by ring
      rw [e]
      exact this

/-- If row `k` of a tile has every vertical difference above the low limit, the scan of
the tile ends with `dVertL` at least the tile's width. -/
theorem scanRows_edge (cfg : Arguments) (image : Nat → Nat) (lineLen thisWidth : Int)
    (hw : 0 ≤ thisWidth) (n : Nat) : ∀ (k : Nat) (s : Scan), k < n →
    (∀ j : Nat, j < thisWidth.toNat →
      vertDiff image lineLen (s.thisLine + k * lineLen + 3 * j) > cfg.optSharpDiffLow) →
    s.cnt.dVertL + thisWidth ≤ (scanRows cfg image lineLen thisWidth n s).cnt.dVertL := by
  induction n with
  | zero => intro k s hk; omega
  | succ n ih =>
    intro k s hk h
    simp only [scanRows]
    cases k with
    | zero =>
      have h1 := scanRow_edge cfg image lineLen thisWidth.toNat s (by
        intro j hj
        have := h j hj
        simpa using this)
      have h2 := scanRows_mono cfg image lineLen thisWidth n
        { scanRow cfg image lineLen thisWidth.toNat s with
          thisLine := (scanRow cfg image lineLen thisWidth.toNat s).thisLine +
            (lineLen - thisWidth * 3) }
      simp only [] at h2
      have h3 : ((thisWidth.toNat : Nat) : Int) = thisWidth := Int.toNat_of_nonneg hw
      omega
    | succ k =>
      have h1 := scanRow_mono cfg image lineLen thisWidth.toNat s
      have h2 := ih k
        { scanRow cfg image lineLen thisWidth.toNat s with
          thisLine := (scanRow cfg image lineLen thisWidth.toNat s).thisLine +
            (lineLen - thisWidth * 3) } (by omega) (by
          intro j hj
          have := h j hj
          simp only [scanRow_thisLine]
          have h3 : ((thisWidth.toNat : Nat) : Int) = thisWidth := Int.toNat_of_nonneg hw
          rw [h3]
          push_cast at this
          have e : s.thisLine + 3 * thisWidth + (lineLen - thisWidth * 3) + k * lineLen + 3 * j
              = s.thisLine + (k + 1) * lineLen + 3 * j := by ring
          rw [e]
          exact this)
      simp only [] at h2
      omega

theorem highPercent_ge_vert (g : Grid) (c : Counters) : highPercentV g c ≤ highPercent g c := by
  unfold highPercent
  split_ifs <;> omega

/-- A tile of the first column of the checkerboard, not in the last row, scores 100 when
its row `k` lies just above a boundary between squares. -/
theorem checkerboard_tile_score (fy k : Nat) (hfy : fy < 9) (hk : k < 48)
    (hrow : ∀ j : Nat, j < 64 →
      vertDiff checkerboard.data 1920 (1920 * (fy * 48) + k * 1920 + 3 * j) > 10) :
    (tileOf (sharpOpts 10) checkerboard.data (grid (sharpOpts 10) checkerboard) 0 fy).highPercent
      = 100 := by
  have hg : grid (sharpOpts 10) checkerboard = ⟨480, 640, 10, 10, 64, 48, 63, 47, 1920⟩ := by
    decide
  have hbal := tileCounters_blackWhite (sharpOpts 10) checkerboard checkerboard_blackWhite
    (by decide) (by decide) 0 fy
  have hcases := highPercent_balanced (grid (sharpOpts 10) checkerboard) _ hbal
    (by rw [hg]; decide) (by rw [hg]; decide)
  have hge := highPercent_ge_vert (grid (sharpOpts 10) checkerboard)
    (tileCounters (sharpOpts 10) checkerboard.data (grid (sharpOpts 10) checkerboard) 0 fy)
  have hcount : (64 : Int) ≤ (tileCounters (sharpOpts 10) checkerboard.data
      (grid (sharpOpts 10) checkerboard) 0 fy).dVertL := by
    have e1 : (grid (sharpOpts 10) checkerboard).lenHor 0 = 64 := by rw [hg]; decide
    have e2 : (grid (sharpOpts 10) checkerboard).lenVert fy = 48 := by
      rw [hg]; unfold Grid.lenVert; rw [if_neg]; simp only []; omega
    have e3 : (grid (sharpOpts 10) checkerboard).lineLen = 1920 := by rw [hg]
    have e4 : (grid (sharpOpts 10) checkerboard).dividedHeight = 48 := by rw [hg]
    have e5 : (grid (sharpOpts 10) checkerboard).dividedWidth = 64 := by rw [hg]
    have e6 : (sharpOpts 10).optSharpDiffLow = 10 := rfl
    have h := scanRows_edge (sharpOpts 10) checkerboard.data 1920 64 (by norm_num) 48 k
      { thisLine := 1920 * ((fy : Int) * 48) + 0 * 64 * 3,
        cnt := { dVertL := 0, dHorL := 0, dVertH := 0, dHorH := 0 } } hk (by
        intro j hj
        have h1 := hrow j hj
        rw [e6]
        have e : (1920 : Int) * ((fy : Int) * 48) + 0 * 64 * 3 + (k : Int) * 1920 + 3 * (j : Int)
            = 1920 * ((fy : Int) * 48) + (k : Int) * 1920 + 3 * (j : Int) := by ring
        show vertDiff checkerboard.data 1920
          (1920 * ((fy : Int) * 48) + 0 * 64 * 3 + (k : Int) * 1920 + 3 * (j : Int)) > 10
        rw [e]
        exact h1)
    unfold tileCounters
    simp only [e1, e2, e3, e4, e5]
    have e7 : (0 : Int) + 64 = 64 := by norm_num
    rw [e7] at h
    exact h
  have hv : highPercentV (grid (sharpOpts 10) checkerboard)
      (tileCounters (sharpOpts 10) checkerboard.data (grid (sharpOpts 10) checkerboard) 0 fy)
      = 100 := by
    have e4 : (grid (sharpOpts 10) checkerboard).dividedHeight = 48 := by rw [hg]
    unfold highPercentV
    rw [e4, if_pos (by omega), hbal.1]
    exact Int.mul_tdiv_cancel_left 100 (by omega)
  show highPercent _ _ = 100
  omega

theorem wrapLoop_exit (len : Int) (hlen : 1 ≤ len) :
    ∀ (fuel : Nat) (rel : Int), rel.toNat ≤ fuel → wrapLoop len fuel rel ≤ len := by
  intro fuel
  induction fuel with
  | zero => intro rel h; simp [wrapLoop]; omega
  | succ k ih =>
    intro rel h
    simp only [wrapLoop]
    split_ifs with hr
    · apply ih; omega
    · omega

theorem sampleStep_indices (cfg : Arguments) (cs : Bool) (cp lp : Nat → Nat) (len : Int) :
    ∀ (n : Nat) (s t : Sampling), s.rel = t.rel →
      sampleIndices cfg cs cp lp len n s = sampleIndices cfg cs cp lp len n t := by
  intro n
  induction n with
  | zero => intro s t _; rfl
  | succ k ih =>
    intro s t h
    simp only [sampleIndices, h]
    congr 1
    apply ih
    simp [sampleStep, h]

theorem sampleLoop_nDiff (cfg : Arguments) (cs : Bool) (cp lp : Nat → Nat) (len : Int) :
    ∀ (n : Nat) (s : Sampling),
      (sampleLoop cfg cs cp lp len n s).nDiff = s.nDiff +
        (((sampleIndices cfg cs cp lp len n s).filter
          (fun rel => decide (sampleDiff cs cp lp rel > cfg.optStillNoiseThreshold))).length : Int) := by
  intro n
  induction n with
  | zero => intro s; simp [sampleLoop, sampleIndices]
  | succ k ih =>
    intro s
    simp only [sampleLoop, sampleIndices, ih, List.filter_cons]
    by_cases hd : sampleDiff cs cp lp s.rel > cfg.optStillNoiseThreshold
    · simp [sampleStep, hd]; ring
    · simp [sampleStep, hd]

theorem sampleIndices_length (cfg : Arguments) (cs : Bool) (cp lp : Nat → Nat) (len : Int) :
    ∀ (n : Nat) (s : Sampling), (sampleIndices cfg cs cp lp len n s).length = n := by
  intro n
  induction n with
  | zero => intro s; rfl
  | succ k ih => intro s; simp [sampleIndices, ih]

theorem hasChanged_valid (cfg : Arguments) (cs : Bool) (current last : Mat) (pct : Int)
    (hc : current.validGray) (hl : last.validGray) :
    hasChanged cfg cs current (some last) pct =
      some (decide ((sampleLoop cfg cs current.data last.data (current.cols * current.rows)
        (Int.tdiv (current.cols * current.rows * pct) 100).toNat { rel := 0, nDiff := 0 }).nDiff * 100
          > Int.tdiv (current.cols * current.rows * pct) 100 * cfg.optStillDeflectionPercent)) := by
  obtain ⟨c1, c2, c3, c4, c5⟩ := hc
  obtain ⟨l1, l2, l3, l4, l5⟩ := hl
  have hne : last.rows * last.cols ≠ 0 := by positivity
  simp [hasChanged, Mat.empty, Mat.isContinuous, Mat.channels, Mat.depth, c1, c2, c3, l1, l2, l3, hne]

theorem status_fst (p : FrameProcessor) : p.status.1 = p.current := by
  unfold FrameProcessor.status
  split_ifs <;> rfl

theorem status_snd_terminal (p : FrameProcessor) (h : p.current.terminal = true) :
    p.status.2 = { p with current := RESULT_NOIMAGE, theThread := false } := by
  unfold FrameProcessor.status
  cases hc : p.current <;> simp_all [FrameProcStatus.terminal]

theorem status_snd_other (p : FrameProcessor) (h : p.current.terminal = false) :
    p.status.2 = p := by
  unfold FrameProcessor.status
  cases hc : p.current <;> simp_all [FrameProcStatus.terminal]

theorem terminal_noimage : RESULT_NOIMAGE.terminal = false := rfl

theorem terminal_processing : RESULT_PROCESSING.terminal = false := rfl

theorem returned_terminal_bound : ∀ (ops : List ProcOp) (p : FrameProcessor),
    ((p.returned ops).filter FrameProcStatus.terminal).length ≤
      (if p.current.terminal then 1 else 0) + p.working.length +
        (ops.filter ProcOp.isProcess).length := by
  intro ops
  induction ops with
  | nil => intro p; simp [FrameProcessor.returned]
  | cons op rest ih =>
    intro p
    cases op with
    | statusCall =>
      simp only [FrameProcessor.returned, status_fst, List.filter_cons, ProcOp.isProcess]
      by_cases ht : p.current.terminal = true
      · have h := ih p.status.2
        rw [status_snd_terminal p ht] at h ⊢
        simp only [terminal_noimage, ht, if_true] at h ⊢
        simp at h ⊢
        omega
      · have ht2 : p.current.terminal = false := by simpa using ht
        have h := ih p.status.2
        rw [status_snd_other p ht2] at h ⊢
        simp only [ht2] at h ⊢
        simp at h ⊢
        omega
    | processCall arg =>
      simp only [FrameProcessor.returned, List.filter_cons, ProcOp.isProcess]
      have h := ih (p.process arg)
      have hc : (p.process arg).current = RESULT_PROCESSING := rfl
      have hw : (p.process arg).working.length = p.working.length + 1 := by
        simp [FrameProcessor.process]
      rw [hc, hw, terminal_processing] at h
      simp at h ⊢
      split_ifs <;> omega
    | workerEnd r =>
      simp only [FrameProcessor.returned, List.filter_cons, ProcOp.isProcess]
      have h := ih (p.workerFinish r)
      unfold FrameProcessor.workerFinish at h ⊢
      cases hw : p.working with
      | nil => simp [hw] at h ⊢; exact h
      | cons a w =>
        simp [hw] at h ⊢
        split_ifs at h ⊢ <;> omega

theorem dividor_bounds (len div : Int) (hlen : 1 ≤ len) (hdiv : 1 ≤ div) :
    1 ≤ dividor len div ∧ dividor len div ≤ len := by
  have h8 : (16 : Int) >>> 1 = 8 := by decide
  have hc : 0 ≤ len + 8 := by omega
  unfold dividor
  simp only [h8]
  rw [Int.tdiv_eq_ediv hc (by decide : (0:Int) ≤ 16), Int.tdiv_eq_ediv hc (by omega : 0 ≤ div)]
  split_ifs with h1 h2
  · omega
  · omega
  · have h3 : 16 ≤ (len + 8) / div := by omega
    have h4 := (Int.le_ediv_iff_mul_le (by omega : 0 < div)).mp h3
    omega

theorem divided_bounds (len div : Int) (hlen : 1 ≤ len) (hdiv : 1 ≤ div) :
    1 ≤ Int.tdiv len (dividor len div) ∧
      Int.tdiv len (dividor len div) * dividor len div ≤ len := by
  obtain ⟨h1, h2⟩ := dividor_bounds len div hlen hdiv
  rw [Int.tdiv_eq_ediv (by omega) (by omega)]
  refine ⟨Int.le_ediv_of_mul_le (by omega) (by omega), Int.ediv_mul_le _ (by omega)⟩

theorem grid_sound (cfg : Arguments) (frame : Mat) (hw : 1 ≤ frame.cols) (hh : 1 ≤ frame.rows)
    (ht : 1 ≤ cfg.optSharpTilesPerSide) : (grid cfg frame).sound := by
  obtain ⟨a1, a2⟩ := dividor_bounds frame.cols cfg.optSharpTilesPerSide hw ht
  obtain ⟨b1, b2⟩ := dividor_bounds frame.rows cfg.optSharpTilesPerSide hh ht
  obtain ⟨c1, c2⟩ := divided_bounds frame.cols cfg.optSharpTilesPerSide hw ht
  obtain ⟨d1, d2⟩ := divided_bounds frame.rows cfg.optSharpTilesPerSide hh ht
  constructor <;> simp only [grid]
  · exact a1
  · exact b1
  · exact c1
  · exact d1
  · nlinarith
  · nlinarith
  · ring
  · ring

theorem mem_span (start : Int) (n : Nat) (x : Int) :
    x ∈ span start n ↔ start ≤ x ∧ x < start + n := by
  simp only [span, List.mem_map, List.mem_range]
  constructor
  · rintro ⟨i, hi, rfl⟩; omega
  · rintro ⟨h1, h2⟩
    exact ⟨(x - start).toNat, by omega, by omega⟩

theorem span_append (start : Int) (n m : Nat) :
    span start n ++ span (start + n) m = span start (n + m) := by
  simp only [span, List.range_add, List.map_append, List.map_map]
  congr 1
  apply List.map_congr_left
  intro a _
  simp only [Function.comp]
  push_cast
  ring

theorem scanRowVisits_eq (cfg : Arguments) (image : Nat → Nat) (lineLen : Int) (n : Nat) :
    ∀ s : Scan, scanRowVisits cfg image lineLen n s =
      (List.range n).map (fun i : Nat => s.thisLine + 3 * (i : Int)) := by
  induction n with
  | zero => intro s; rfl
  | succ n ih =>
    intro s
    simp only [scanRowVisits, ih, scanPixel_thisLine, List.range_succ_eq_map, List.map_cons,
      List.map_map]
    refine congrArg₂ _ (by simp) ?_
    apply List.map_congr_left
    intro a _
    simp only [Function.comp]
    push_cast
    ring

theorem scanRowsVisits_eq (cfg : Arguments) (image : Nat → Nat) (lineLen thisWidth : Int)
    (hw : 0 ≤ thisWidth) (n : Nat) :
    ∀ s : Scan, scanRowsVisits cfg image lineLen thisWidth n s =
      (List.range n).flatMap (fun j : Nat => (List.range thisWidth.toNat).map
        (fun i : Nat => s.thisLine + lineLen * (j : Int) + 3 * (i : Int))) := by
  induction n with
  | zero => intro s; rfl
  | succ n ih =>
    intro s
    have hwn : ((thisWidth.toNat : Nat) : Int) = thisWidth := Int.toNat_of_nonneg hw
    simp only [scanRowsVisits, ih, scanRowVisits_eq, scanRow_thisLine, List.range_succ_eq_map,
      List.flatMap_cons, List.flatMap_map]
    refine congrArg₂ _ ?_ ?_
    · apply List.map_congr_left
      intro a _
      simp
    · apply List.flatMap_congr
      intro j _
      apply List.map_congr_left
      intro a _
      simp only [hwn]
      push_cast
      ring

theorem flatMap_swap_perm {α β γ : Type} (l : List α) (m : List β) (f : α → β → List γ) :
    (l.flatMap fun a => m.flatMap fun b => f a b).Perm
      (m.flatMap fun b => l.flatMap fun a => f a b) := by
  rw [← Multiset.coe_eq_coe]
  simp only [← Multiset.coe_bind]
  exact Multiset.bind_bind _ _

theorem bands_full (d : Int) (hd : 0 ≤ d) (k : Nat) :
    (List.range k).flatMap (fun f : Nat => span (f * d) d.toNat) = span 0 (k * d.toNat) := by
  induction k with
  | zero => simp [span]
  | succ k ih =>
    rw [List.range_succ, List.flatMap_append, ih, List.flatMap_singleton, Nat.succ_mul,
      ← span_append]
    congr 2
    have := Int.toNat_of_nonneg hd
    push_cast
    rw [this]
    ring

theorem bands (d last : Int) (hd : 0 ≤ d) (hl : 0 ≤ last) (k : Nat) :
    (List.range (k + 1)).flatMap
        (fun f : Nat => span (f * d) (if (f : Int) = k then last else d).toNat) =
      span 0 (k * d + last).toNat := by
  rw [List.range_succ, List.flatMap_append, List.flatMap_singleton, if_pos rfl]
  have h1 : (List.range k).flatMap
      (fun f : Nat => span (f * d) (if (f : Int) = k then last else d).toNat) =
      (List.range k).flatMap (fun f : Nat => span (f * d) d.toNat) := by
    apply List.flatMap_congr
    intro f hf
    have : (f : Int) ≠ k := by
      have := List.mem_range.mp hf
      omega
    rw [if_neg this]
  rw [h1, bands_full d hd k]
  have h2 : (k : Int) * d = 0 + ((k * d.toNat : Nat) : Int) := by
    have := Int.toNat_of_nonneg hd
    push_cast
    rw [this]
    ring
  have h3 : (k * d.toNat + last.toNat : Nat) = ((k : Int) * d + last).toNat := by
    rw [h2]; omega
  rw [← h3, h2, span_append]

theorem cols_all (g : Grid) (hg : g.sound) :
    (List.range g.divHor.toNat).flatMap g.colsOf = span 0 (g.imageWidth - 1).toNat := by
  have hk : g.divHor.toNat = (g.divHor - 1).toNat + 1 := by
    have := hg.divHor_pos
    omega
  have hc : (((g.divHor - 1).toNat : Nat) : Int) = g.divHor - 1 :=
    Int.toNat_of_nonneg (by have := hg.divHor_pos; omega)
  have hb := bands g.dividedWidth g.lastWidth (by have := hg.dividedWidth_pos; omega)
    hg.lastWidth_nonneg (g.divHor - 1).toNat
  rw [hc] at hb
  rw [hk]
  have hs : (g.divHor - 1) * g.dividedWidth + g.lastWidth = g.imageWidth - 1 := by
    rw [← hg.width_sum]; ring
  rw [hs] at hb
  rw [← hb]
  apply List.flatMap_congr
  intro f _
  simp only [Grid.colsOf, Grid.lenHor]

theorem rows_all (g : Grid) (hg : g.sound) :
    (List.range g.divVert.toNat).flatMap g.rowsOf = span 0 (g.imageHeight - 1).toNat := by
  have hk : g.divVert.toNat = (g.divVert - 1).toNat + 1 := by
    have := hg.divVert_pos
    omega
  have hc : (((g.divVert - 1).toNat : Nat) : Int) = g.divVert - 1 :=
    Int.toNat_of_nonneg (by have := hg.divVert_pos; omega)
  have hb := bands g.dividedHeight g.lastHeight (by have := hg.dividedHeight_pos; omega)
    hg.lastHeight_nonneg (g.divVert - 1).toNat
  rw [hc] at hb
  rw [hk]
  have hs : (g.divVert - 1) * g.dividedHeight + g.lastHeight = g.imageHeight - 1 := by
    rw [← hg.height_sum]; ring
  rw [hs] at hb
  rw [← hb]
  apply List.flatMap_congr
  intro f _
  simp only [Grid.rowsOf, Grid.lenVert]

theorem lenHor_nonneg (g : Grid) (hg : g.sound) (fx : Int) : 0 ≤ g.lenHor fx := by
  have := hg.dividedWidth_pos
  have := hg.lastWidth_nonneg
  unfold Grid.lenHor
  split_ifs <;> omega

theorem lenVert_nonneg (g : Grid) (hg : g.sound) (fy : Int) : 0 ≤ g.lenVert fy := by
  have := hg.dividedHeight_pos
  have := hg.lastHeight_nonneg
  unfold Grid.lenVert
  split_ifs <;> omega

theorem tileVisits_eq (cfg : Arguments) (image : Nat → Nat) (g : Grid) (hg : g.sound)
    (fx fy : Nat) :
    tileVisits cfg image g fx fy =
      (g.rowsOf fy).flatMap (fun y => (g.colsOf fx).map
        (fun x => g.imageWidth * 3 * y + x * 3)) := by
  unfold tileVisits
  simp only []
  rw [scanRowsVisits_eq _ _ _ _ (lenHor_nonneg g hg fx)]
  simp only [Grid.rowsOf, Grid.colsOf, span, List.flatMap_map, List.map_map, hg.lineLen_eq]
  apply List.flatMap_congr
  intro j _
  apply List.map_congr_left
  intro i _
  simp only [Function.comp]
  ring

theorem visited_perm (cfg : Arguments) (frame : Mat) (hg : (grid cfg frame).sound) :
    (visited cfg frame).Perm
      ((span 0 (frame.rows - 1).toNat).flatMap (fun y =>
        (span 0 (frame.cols - 1).toNat).map (fun x => pixelOffset frame x y))) := by
  have hv : visited cfg frame =
      (List.range (grid cfg frame).divHor.toNat).flatMap (fun fx =>
        (span 0 (frame.rows - 1).toNat).flatMap (fun y =>
          ((grid cfg frame).colsOf fx).map (fun x => pixelOffset frame x y))) := by
    unfold visited
    simp only []
    apply List.flatMap_congr
    intro fx _
    have hr := rows_all (grid cfg frame) hg
    have : (grid cfg frame).imageHeight = frame.rows := rfl
    rw [this] at hr
    rw [← hr, List.flatMap_assoc]
    apply List.flatMap_congr
    intro fy _
    rw [tileVisits_eq cfg frame.data (grid cfg frame) hg fx fy]
    rfl
  rw [hv]
  refine (flatMap_swap_perm _ _ _).trans ?_
  apply List.Perm.of_eq
  apply List.flatMap_congr
  intro y _
  have hc := cols_all (grid cfg frame) hg
  have : (grid cfg frame).imageWidth = frame.cols := rfl
  rw [this] at hc
  rw [← hc, List.map_flatMap]

theorem mem_visited (cfg : Arguments) (frame : Mat) (hg : (grid cfg frame).sound) (p : Int) :
    p ∈ visited cfg frame ↔
      ∃ x y : Int, (0 ≤ x ∧ x ≤ frame.cols - 2) ∧ (0 ≤ y ∧ y ≤ frame.rows - 2) ∧
        p = pixelOffset frame x y := by
  rw [(visited_perm cfg frame hg).mem_iff]
  simp only [List.mem_flatMap, List.mem_map, mem_span]
  constructor
  · rintro ⟨y, hy, x, hx, rfl⟩
    exact ⟨x, y, by omega, by omega, rfl⟩
  · rintro ⟨x, y, hx, hy, rfl⟩
    exact ⟨y, by omega, x, by omega, rfl⟩

theorem tileVisits_sub (cfg : Arguments) (frame : Mat) (fx fy : Nat)
    (hx : fx < (grid cfg frame).divHor.toNat) (hy : fy < (grid cfg frame).divVert.toNat) :
    ∀ p ∈ tileVisits cfg frame.data (grid cfg frame) fx fy, p ∈ visited cfg frame := by
  intro p hp
  unfold visited
  simp only [List.mem_flatMap, List.mem_range]
  exact ⟨fx, hx, fy, hy, hp⟩

theorem foldl_inv_mem {α β : Type} (P : β → Prop) (f : β → α → β) :
    ∀ (l : List α) (b : β), (∀ b, ∀ a ∈ l, P b → P (f b a)) → P b → P (l.foldl f b) := by
  intro l
  induction l with
  | nil => intro b _ hb; simpa using hb
  | cons a l ih =>
    intro b hf hb
    simp only [List.foldl_cons]
    apply ih
    · intro b' a' ha'
      exact hf b' a' (List.mem_cons_of_mem _ ha')
    · exact hf b a (List.mem_cons_self _ _) hb

theorem scanPixel_flat (cfg : Arguments) (image : Nat → Nat) (lineLen : Int) (s : Scan)
    (hl : 0 ≤ cfg.optSharpDiffLow) (h : flatAt image lineLen s.thisLine) :
    (scanPixel cfg image lineLen s).cnt = s.cnt := by
  obtain ⟨h1, h2⟩ := h
  have hn : ¬ (0 > cfg.optSharpDiffLow) := by omega
  unfold scanPixel
  simp only [h1, h2, sub_self, lt_self_iff_false, if_false, hn]

theorem scanRow_flat (cfg : Arguments) (image : Nat → Nat) (lineLen : Int)
    (hl : 0 ≤ cfg.optSharpDiffLow) (n : Nat) : ∀ s : Scan,
    (∀ o ∈ scanRowVisits cfg image lineLen n s, flatAt image lineLen o) →
    (scanRow cfg image lineLen n s).cnt = s.cnt := by
  induction n with
  | zero => intro s _; rfl
  | succ n ih =>
    intro s h
    simp only [scanRow]
    rw [ih _ (fun o ho => h o (by simp [scanRowVisits, ho])),
      scanPixel_flat cfg image lineLen s hl (h _ (by simp [scanRowVisits]))]

theorem scanRows_flat (cfg : Arguments) (image : Nat → Nat) (lineLen thisWidth : Int)
    (hl : 0 ≤ cfg.optSharpDiffLow) (n : Nat) : ∀ s : Scan,
    (∀ o ∈ scanRowsVisits cfg image lineLen thisWidth n s, flatAt image lineLen o) →
    (scanRows cfg image lineLen thisWidth n s).cnt = s.cnt := by
  induction n with
  | zero => intro s _; rfl
  | succ n ih =>
    intro s h
    simp only [scanRows]
    rw [ih _ (fun o ho => h o (by simp only [scanRowsVisits, List.mem_append]; exact Or.inr ho))]
    exact scanRow_flat cfg image lineLen hl _ s
      (fun o ho => h o (by simp only [scanRowsVisits, List.mem_append]; exact Or.inl ho))

theorem tileCounters_flat (cfg : Arguments) (image : Nat → Nat) (g : Grid) (fx fy : Int)
    (hl : 0 ≤ cfg.optSharpDiffLow)
    (h : ∀ o ∈ tileVisits cfg image g fx fy, flatAt image g.lineLen o) :
    tileCounters cfg image g fx fy = { dVertL := 0, dHorL := 0, dVertH := 0, dHorH := 0 } := by
  unfold tileCounters
  simp only []
  exact scanRows_flat cfg image g.lineLen _ hl _ _ h

theorem visited_flat (cfg : Arguments) (frame : Mat) (v : Nat)
    (hg : (grid cfg frame).sound) (hu : uniformLuma frame v) :
    ∀ o ∈ visited cfg frame, flatAt frame.data (grid cfg frame).lineLen o := by
  intro o ho
  obtain ⟨x, y, hx, hy, rfl⟩ := (mem_visited cfg frame hg o).mp ho
  have e1 : pixelOffset frame x y + (grid cfg frame).lineLen = pixelOffset frame x (y + 1) := by
    simp only [pixelOffset, grid]; ring
  have e2 : pixelOffset frame x y + 3 = pixelOffset frame (x + 1) y := by
    simp only [pixelOffset]; ring
  unfold flatAt readU8
  rw [e1, e2, hu x y (by omega) (by omega) (by omega) (by omega),
    hu x (y + 1) (by omega) (by omega) (by omega) (by omega),
    hu (x + 1) y (by omega) (by omega) (by omega) (by omega)]
  exact ⟨rfl, rfl⟩

theorem sharpTiles_uniform (cfg : Arguments) (frame : Mat) (v : Nat)
    (hg : (grid cfg frame).sound) (hu : uniformLuma frame v)
    (hl : 0 ≤ cfg.optSharpDiffLow) (hp : 0 ≤ cfg.optSharpHighPercent) :
    sharpTiles cfg frame = [] := by
  unfold sharpTiles
  simp only []
  apply foldl_inv_mem (fun s => s = [])
  · intro b fx hfx hb
    unfold columnStep
    apply foldl_inv_mem (fun s => s = [])
    · intro b' fy hfy hb'
      have hc := tileCounters_flat cfg frame.data (grid cfg frame) fx fy hl
        (fun o ho => visited_flat cfg frame v hg hu o
          (tileVisits_sub cfg frame fx fy (List.mem_range.mp hfx) (List.mem_range.mp hfy) o ho))
      have h1 := hg.dividedWidth_pos
      have h2 := hg.dividedHeight_pos
      have hn1 : ¬ ((0 : Int) ≥ (grid cfg frame).dividedWidth) := by omega
      have hn2 : ¬ ((0 : Int) ≥ (grid cfg frame).dividedHeight) := by omega
      have hn3 : ¬ ((-1 : Int) > cfg.optSharpHighPercent) := by omega
      simp only [tileStep, tileOf, hc, highPercent, highPercentH, highPercentV, hn1, hn2,
        if_false, lt_self_iff_false, gt_iff_lt, hn3]
      simpa using hb'
    · exact hb
  · rfl

theorem greyWall_uniform : uniformLuma greyWall 90 := by
  intro x y hx0 hx1 hy0 hy1
  have h : (pixelOffset greyWall x y).toNat % 3 = 0 := by
    simp only [pixelOffset, greyWall]
    omega
  simp only [greyWall] at h ⊢
  simp [h]

@[simp] theorem firsts_nil : firsts [] = [] := rfl

@[simp] theorem firsts_append (a b : List Event) : firsts (a ++ b) = firsts a ++ firsts b := by
  simp [firsts]

@[simp] theorem configPhase_firsts (inp : IterIn) (l : Loop) :
    firsts (configPhase inp l).log = firsts l.log := by
  unfold configPhase Loop.setProps; simp only []
  split_ifs <;> (try split) <;> simp [firsts, Event.isFirstRetrieve]

@[simp] theorem allocPhase_firsts (inp : IterIn) (l : Loop) :
    firsts (allocPhase inp l).log = firsts l.log := by
  unfold allocPhase; simp only []
  split <;> (try split_ifs) <;> simp_all [firsts, Event.isFirstRetrieve]

theorem grabPhase_firsts (inp : IterIn) (l : Loop) :
    firsts (grabPhase inp l).log = firsts l.log ++
      (if (inp.grab && l.cond) = true then
        [if inp.optStillSamplingPercent = 0 then Event.retrieveDirect else Event.retrieveSmall]
       else []) := by
  unfold grabPhase; simp only []
  split_ifs <;> (try split) <;> simp_all [firsts, Event.isFirstRetrieve]

@[simp] theorem stillPhase_firsts (inp : IterIn) (l : Loop) :
    firsts (stillPhase inp l).log = firsts l.log := by
  unfold stillPhase Loop.setProps; simp only []
  split_ifs <;> (try split) <;> simp_all [firsts, Event.isFirstRetrieve]

@[simp] theorem sharpPhase_firsts (inp : IterIn) (l : Loop) :
    firsts (sharpPhase inp l).log = firsts l.log := by
  unfold sharpPhase; simp only []
  split_ifs <;> simp [firsts, Event.isFirstRetrieve]

@[simp] theorem keepPhase_firsts (inp : IterIn) (l : Loop) :
    firsts (keepPhase inp l).log = firsts l.log := by
  unfold keepPhase
  split_ifs <;> (try split) <;> simp_all [firsts, Event.isFirstRetrieve]

@[simp] theorem dispatchPhase_firsts (inp : IterIn) (l : Loop) :
    firsts (dispatchPhase inp l).log = firsts l.log := by
  unfold dispatchPhase; simp only []
  split_ifs <;> (try split) <;> simp_all [firsts, Event.isFirstRetrieve]

theorem iteration_firsts (inp : IterIn) (l : Loop) :
    firsts (iteration inp l).log =
      if (inp.grab && (inp.started176 &&
          (decide (inp.optUseStaleFrame = 0) || l.staleArg.isNone))) = true then
        [if inp.optStillSamplingPercent = 0 then Event.retrieveDirect else Event.retrieveSmall]
      else [] := by
  simp only [iteration, dispatchPhase_firsts, keepPhase_firsts, sharpPhase_firsts,
    stillPhase_firsts, grabPhase_firsts, allocPhase_firsts, configPhase_firsts, allocPhase_cond,
    configPhase_staleArg, firsts_nil, List.nil_append]

theorem mem_firstRetrieve (inp : IterIn) (l : Loop) (e : Event)
    (he : e.isFirstRetrieve = true) :
    e ∈ (iteration inp l).log ↔
      (inp.grab = true ∧ inp.started176 = true ∧
        (inp.optUseStaleFrame = 0 ∨ l.staleArg = none) ∧
        e = if inp.optStillSamplingPercent = 0 then Event.retrieveDirect
          else Event.retrieveSmall) := by
  have h1 : e ∈ (iteration inp l).log ↔ e ∈ firsts (iteration inp l).log := by
    simp [firsts, he]
  rw [h1, iteration_firsts]
  cases hg : inp.grab <;> cases hs : inp.started176 <;> cases hl : l.staleArg <;>
    by_cases hu : inp.optUseStaleFrame = 0 <;> simp [hu]

theorem mem_deleteArgs_stale (inp : IterIn) (l : Loop) (j : ProcessArgs)
    (hu : inp.optUseStaleFrame ≠ 0) (h : Event.deleteArgs j ∈ (iteration inp l).log) :
    j = freshArgs inp l := by
  rw [← mem_core (by rfl), iteration_core, afterSharp_core] at h
  simp only [hu, if_false, List.nil_append, afterKeep_readArg] at h
  by_cases hd : dispatches inp l <;> by_cases hv : viable inp l = false <;>
    by_cases hp : parks inp l <;> by_cases hr : stillRuns inp l <;>
    by_cases hc : inp.changed = false <;>
    cases hst : (afterKeep inp l).staleArg <;>
    simp [hd, hv, hp, hr, hc, hst] at h <;> (try split_ifs at h) <;> simp_all

@[simp] theorem configPhase_lastPercent (inp : IterIn) (l : Loop) :
    (configPhase inp l).lastStillSamplingPercent = inp.optStillSamplingPercent := by
  unfold configPhase Loop.setProps; simp only []
  split_ifs <;> (try split) <;> simp_all

@[simp] theorem configPhase_lastExponent (inp : IterIn) (l : Loop) :
    (configPhase inp l).lastStillDownsampleExponent = inp.optStillDownsampleExponent := by
  unfold configPhase Loop.setProps; simp only []
  split_ifs <;> (try split) <;> simp_all

theorem configPhase_smallFrameLast (inp : IterIn) (l : Loop) :
    (configPhase inp l).smallFrameLast =
      if l.lastStillDownsampleExponent ≠ inp.optStillDownsampleExponent then none
      else l.smallFrameLast := by
  unfold configPhase Loop.setProps; simp only []
  split_ifs <;> (try split) <;> simp_all

theorem configPhase_captureProps (inp : IterIn) (l : Loop) :
    (configPhase inp l).captureProps =
      if l.lastStillSamplingPercent ≠ inp.optStillSamplingPercent ∨
          l.lastStillDownsampleExponent ≠ inp.optStillDownsampleExponent then
        some (updateCaptureProps inp.optStillSamplingPercent inp.optStillDownsampleExponent)
      else l.captureProps := by
  unfold configPhase Loop.setProps; simp only []
  split_ifs <;> (try split) <;> simp_all

@[simp] theorem configPhase_smallFrameCurr (inp : IterIn) (l : Loop) :
    (configPhase inp l).smallFrameCurr = l.smallFrameCurr := by
  unfold configPhase Loop.setProps; simp only []
  split_ifs <;> (try split) <;> rfl

@[simp] theorem allocPhase_lastPercent (inp : IterIn) (l : Loop) :
    (allocPhase inp l).lastStillSamplingPercent = l.lastStillSamplingPercent := by
  unfold allocPhase; simp only []; split <;> (try split_ifs) <;> rfl

@[simp] theorem allocPhase_lastExponent (inp : IterIn) (l : Loop) :
    (allocPhase inp l).lastStillDownsampleExponent = l.lastStillDownsampleExponent := by
  unfold allocPhase; simp only []; split <;> (try split_ifs) <;> rfl

@[simp] theorem allocPhase_smallFrameLast (inp : IterIn) (l : Loop) :
    (allocPhase inp l).smallFrameLast = l.smallFrameLast := by
  unfold allocPhase; simp only []; split <;> (try split_ifs) <;> rfl

@[simp] theorem allocPhase_captureProps (inp : IterIn) (l : Loop) :
    (allocPhase inp l).captureProps = l.captureProps := by
  unfold allocPhase; simp only []; split <;> (try split_ifs) <;> rfl

@[simp] theorem allocPhase_smallFrameCurr (inp : IterIn) (l : Loop) :
    (allocPhase inp l).smallFrameCurr = l.smallFrameCurr := by
  unfold allocPhase; simp only []; split <;> (try split_ifs) <;> rfl

@[simp] theorem grabPhase_lastPercent (inp : IterIn) (l : Loop) :
    (grabPhase inp l).lastStillSamplingPercent = l.lastStillSamplingPercent := by
  unfold grabPhase; simp only []; split_ifs <;> (try split) <;> rfl

@[simp] theorem grabPhase_lastExponent (inp : IterIn) (l : Loop) :
    (grabPhase inp l).lastStillDownsampleExponent = l.lastStillDownsampleExponent := by
  unfold grabPhase; simp only []; split_ifs <;> (try split) <;> rfl

@[simp] theorem grabPhase_smallFrameLast (inp : IterIn) (l : Loop) :
    (grabPhase inp l).smallFrameLast = l.smallFrameLast := by
  unfold grabPhase; simp only []; split_ifs <;> (try split) <;> rfl

@[simp] theorem grabPhase_captureProps (inp : IterIn) (l : Loop) :
    (grabPhase inp l).captureProps = l.captureProps := by
  unfold grabPhase; simp only []; split_ifs <;> (try split) <;> rfl

theorem grabPhase_smallFrameCurr (inp : IterIn) (l : Loop) :
    (grabPhase inp l).smallFrameCurr =
      if (inp.grab && l.cond) = true ∧ inp.optStillSamplingPercent ≠ 0 then
        some { serial := l.allocated, props := l.captureProps }
      else l.smallFrameCurr := by
  unfold grabPhase; simp only []
  split_ifs <;> (try split) <;> simp_all

@[simp] theorem stillPhase_lastPercent (inp : IterIn) (l : Loop) :
    (stillPhase inp l).lastStillSamplingPercent = l.lastStillSamplingPercent := by
  unfold stillPhase Loop.setProps; simp only []
  split_ifs <;> (try split) <;> rfl

@[simp] theorem stillPhase_lastExponent (inp : IterIn) (l : Loop) :
    (stillPhase inp l).lastStillDownsampleExponent = l.lastStillDownsampleExponent := by
  unfold stillPhase Loop.setProps; simp only []
  split_ifs <;> (try split) <;> rfl

theorem stillPhase_smallFrameLast (inp : IterIn) (l : Loop) :
    (stillPhase inp l).smallFrameLast =
      if stillChecked inp l then l.smallFrameCurr else l.smallFrameLast := by
  unfold stillPhase Loop.setProps stillChecked; simp only []
  split_ifs <;> (try split) <;> simp_all

theorem stillPhase_captureProps (inp : IterIn) (l : Loop) :
    (stillPhase inp l).captureProps =
      if stillChecked inp l ∧ inp.changed = false ∧ dwellEnough inp l then
        some (updateCaptureProps inp.optStillSamplingPercent inp.optStillDownsampleExponent)
      else l.captureProps := by
  unfold stillPhase Loop.setProps stillChecked dwellEnough; simp only []
  split_ifs <;> (try split) <;> simp_all <;> omega

@[simp] theorem sharpPhase_lastPercent (inp : IterIn) (l : Loop) :
    (sharpPhase inp l).lastStillSamplingPercent = l.lastStillSamplingPercent := by
  unfold sharpPhase; simp only []; split_ifs <;> rfl

@[simp] theorem sharpPhase_lastExponent (inp : IterIn) (l : Loop) :
    (sharpPhase inp l).lastStillDownsampleExponent = l.lastStillDownsampleExponent := by
  unfold sharpPhase; simp only []; split_ifs <;> rfl

@[simp] theorem sharpPhase_smallFrameLast (inp : IterIn) (l : Loop) :
    (sharpPhase inp l).smallFrameLast = l.smallFrameLast := by
  unfold sharpPhase; simp only []; split_ifs <;> rfl

@[simp] theorem sharpPhase_captureProps (inp : IterIn) (l : Loop) :
    (sharpPhase inp l).captureProps = l.captureProps := by
  unfold sharpPhase; simp only []; split_ifs <;> rfl

@[simp] theorem keepPhase_lastPercent (inp : IterIn) (l : Loop) :
    (keepPhase inp l).lastStillSamplingPercent = l.lastStillSamplingPercent := by
  unfold keepPhase; split_ifs <;> (try split) <;> rfl

@[simp] theorem keepPhase_lastExponent (inp : IterIn) (l : Loop) :
    (keepPhase inp l).lastStillDownsampleExponent = l.lastStillDownsampleExponent := by
  unfold keepPhase; split_ifs <;> (try split) <;> rfl

@[simp] theorem keepPhase_smallFrameLast (inp : IterIn) (l : Loop) :
    (keepPhase inp l).smallFrameLast = l.smallFrameLast := by
  unfold keepPhase; split_ifs <;> (try split) <;> rfl

@[simp] theorem keepPhase_captureProps (inp : IterIn) (l : Loop) :
    (keepPhase inp l).captureProps = l.captureProps := by
  unfold keepPhase; split_ifs <;> (try split) <;> rfl

@[simp] theorem dispatchPhase_lastPercent (inp : IterIn) (l : Loop) :
    (dispatchPhase inp l).lastStillSamplingPercent = l.lastStillSamplingPercent := by
  unfold dispatchPhase; simp only []
  split_ifs <;> (try split) <;> rfl

@[simp] theorem dispatchPhase_lastExponent (inp : IterIn) (l : Loop) :
    (dispatchPhase inp l).lastStillDownsampleExponent = l.lastStillDownsampleExponent := by
  unfold dispatchPhase; simp only []
  split_ifs <;> (try split) <;> rfl

@[simp] theorem dispatchPhase_smallFrameLast (inp : IterIn) (l : Loop) :
    (dispatchPhase inp l).smallFrameLast = l.smallFrameLast := by
  unfold dispatchPhase; simp only []
  split_ifs <;> (try split) <;> rfl

@[simp] theorem dispatchPhase_captureProps (inp : IterIn) (l : Loop) :
    (dispatchPhase inp l).captureProps = l.captureProps := by
  unfold dispatchPhase; simp only []
  split_ifs <;> (try split) <;> rfl

@[simp] theorem afterGrab_lastPercent (inp : IterIn) (l : Loop) :
    (afterGrab inp l).lastStillSamplingPercent = inp.optStillSamplingPercent := by
  simp [afterGrab]

@[simp] theorem afterGrab_lastExponent (inp : IterIn) (l : Loop) :
    (afterGrab inp l).lastStillDownsampleExponent = inp.optStillDownsampleExponent := by
  simp [afterGrab]

theorem afterGrab_smallFrameLast (inp : IterIn) (l : Loop) :
    (afterGrab inp l).smallFrameLast =
      if l.lastStillDownsampleExponent ≠ inp.optStillDownsampleExponent then none
      else l.smallFrameLast := by
  simp [afterGrab, configPhase_smallFrameLast]

theorem afterGrab_captureProps (inp : IterIn) (l : Loop) :
    (afterGrab inp l).captureProps =
      if l.lastStillSamplingPercent ≠ inp.optStillSamplingPercent ∨
          l.lastStillDownsampleExponent ≠ inp.optStillDownsampleExponent then
        some (updateCaptureProps inp.optStillSamplingPercent inp.optStillDownsampleExponent)
      else l.captureProps := by
  simp [afterGrab, configPhase_captureProps]

theorem afterGrab_smallFrameCurr (inp : IterIn) (l : Loop) (h : stillRuns inp l) :
    (afterGrab inp l).smallFrameCurr =
      some { serial := l.allocated + 1, props := (afterGrab inp l).captureProps } := by
  unfold stillRuns stillChecked at h
  obtain ⟨h1, h2⟩ := h
  rw [afterGrab_goOn] at h1
  have hp : inp.optStillSamplingPercent ≠ 0 := by omega
  have hg : inp.grab = true := by
    cases hg : inp.grab <;> simp_all
  have hc : (inp.started176 && (decide (inp.optUseStaleFrame = 0) || l.staleArg.isNone)) = true := by
    cases hc : (inp.started176 && (decide (inp.optUseStaleFrame = 0) || l.staleArg.isNone)) <;>
      simp_all
  simp only [afterGrab, grabPhase_smallFrameCurr, allocPhase_cond, configPhase_staleArg, hg, hc,
    Bool.and_self, hp, ne_eq, not_false_eq_true, and_self, if_true, allocPhase_allocated,
    configPhase_allocated, grabPhase_captureProps, allocPhase_captureProps]

theorem iteration_lastPercent (inp : IterIn) (l : Loop) :
    (iteration inp l).lastStillSamplingPercent = inp.optStillSamplingPercent := by
  simp [iteration]

theorem iteration_lastExponent (inp : IterIn) (l : Loop) :
    (iteration inp l).lastStillDownsampleExponent = inp.optStillDownsampleExponent := by
  simp [iteration]

theorem iteration_smallFrameLast (inp : IterIn) (l : Loop) :
    (iteration inp l).smallFrameLast =
      if stillRuns inp l then (afterGrab inp l).smallFrameCurr
      else (afterGrab inp l).smallFrameLast := by
  rw [iteration_eq]
  simp only [dispatchPhase_smallFrameLast, keepPhase_smallFrameLast, afterSharp,
    sharpPhase_smallFrameLast, stillPhase_smallFrameLast, stillRuns]

theorem iteration_captureProps (inp : IterIn) (l : Loop) :
    (iteration inp l).captureProps =
      if stillRuns inp l ∧ inp.changed = false ∧ dwellEnough inp (afterGrab inp l) then
        some (updateCaptureProps inp.optStillSamplingPercent inp.optStillDownsampleExponent)
      else (afterGrab inp l).captureProps := by
  rw [iteration_eq]
  simp only [dispatchPhase_captureProps, keepPhase_captureProps, afterSharp,
    sharpPhase_captureProps, stillPhase_captureProps, stillRuns]

theorem mem_hasChanged (inp : IterIn) (l : Loop) (last : Option SmallFrame) (c : Bool) :
    Event.hasChanged last c ∈ (iteration inp l).log ↔
      (stillRuns inp l ∧ last = (afterGrab inp l).smallFrameLast ∧ c = inp.changed) := by
  rw [← mem_core (by rfl), iteration_core, afterSharp_core]
  by_cases hd : dispatches inp l <;> by_cases hu : inp.optUseStaleFrame = 0 <;>
    cases hs : (afterKeep inp l).staleArg <;> cases hra : (afterKeep inp l).readArg <;>
    cases hl : l.staleArg <;>
    simp [hd, hu, hs, hra, hl] <;> split_ifs <;> simp_all

theorem updateCaptureProps_positive (percent exponent : Int) (h : percent ≠ 0) :
    updateCaptureProps percent exponent = updateCaptureProps 1 exponent := by
  simp [updateCaptureProps, h]

theorem afterGrab_props (inp : IterIn) (l : Loop) (h : propsInv l) :
    inp.optStillSamplingPercent = -1 ∨
      (afterGrab inp l).captureProps =
        some (updateCaptureProps inp.optStillSamplingPercent inp.optStillDownsampleExponent) := by
  rw [afterGrab_captureProps]
  split_ifs with hc
  · exact Or.inr rfl
  · have h1 : l.lastStillSamplingPercent = inp.optStillSamplingPercent := by
      by_contra hne; exact hc (Or.inl hne)
    have h2 : l.lastStillDownsampleExponent = inp.optStillDownsampleExponent := by
      by_contra hne; exact hc (Or.inr hne)
    rcases h.1 with h3 | h3
    · left; rw [← h1]; exact h3
    · right; rw [h3, h1, h2]

theorem afterGrab_last_props (inp : IterIn) (l : Loop) (h : propsInv l) (f : SmallFrame)
    (hf : (afterGrab inp l).smallFrameLast = some f) :
    f.props = some (updateCaptureProps 1 inp.optStillDownsampleExponent) := by
  rw [afterGrab_smallFrameLast] at hf
  split_ifs at hf with hc
  have h2 : l.lastStillDownsampleExponent = inp.optStillDownsampleExponent := by
    by_contra hne; exact hc hne
  rw [← h2]
  exact h.2 f hf

theorem afterGrab_curr_props (inp : IterIn) (l : Loop) (h : propsInv l)
    (hr : stillRuns inp l) :
    ∃ g, (afterGrab inp l).smallFrameCurr = some g ∧
      g.props = some (updateCaptureProps 1 inp.optStillDownsampleExponent) := by
  have hp : 0 < inp.optStillSamplingPercent := hr.2
  refine ⟨_, afterGrab_smallFrameCurr inp l hr, ?_⟩
  rcases afterGrab_props inp l h with h1 | h1
  · omega
  · simp only [h1]
    rw [updateCaptureProps_positive _ _ (by omega)]

theorem propsInv_init (started : Bool) (now changeTime : Int) :
    propsInv (Loop.init started now changeTime) := by
  constructor
  · left; rfl
  · intro f hf; simp [Loop.init] at hf

theorem propsInv_iteration (inp : IterIn) (l : Loop) (h : propsInv l) :
    propsInv (iteration inp l) := by
  constructor
  · rw [iteration_lastPercent, iteration_lastExponent, iteration_captureProps]
    split_ifs
    · exact Or.inr rfl
    · exact afterGrab_props inp l h
  · intro f hf
    rw [iteration_lastExponent]
    rw [iteration_smallFrameLast] at hf
    split_ifs at hf with hr
    · obtain ⟨g, hg, hgp⟩ := afterGrab_curr_props inp l h hr
      rw [hg] at hf
      rw [← Option.some.inj hf]
      exact hgp
    · exact afterGrab_last_props inp l h f hf

theorem propsInv_run (pre : List IterIn) : ∀ l : Loop, propsInv l →
    propsInv (runLoop pre l).1 := by
  induction pre with
  | nil => intro l h; exact h
  | cons inp rest ih =>
    intro l h
    unfold runLoop
    split_ifs
    · exact ih _ (propsInv_iteration inp l h)
    · exact h

theorem wrapLoop_mod (len : Int) : ∀ (fuel : Nat) (rel : Int),
    wrapLoop len fuel rel % len = rel % len := by
  intro fuel
  induction fuel with
  | zero => intro rel; rfl
  | succ k ih =>
    intro rel
    simp only [wrapLoop]
    split_ifs
    · rw [ih, Int.sub_emod, Int.emod_self, sub_zero, Int.emod_emod]
    · rfl

theorem wrapLoop_nonneg (len : Int) : ∀ (fuel : Nat) (rel : Int),
    0 ≤ rel → 0 ≤ wrapLoop len fuel rel := by
  intro fuel
  induction fuel with
  | zero => intro rel h; exact h
  | succ k ih =>
    intro rel h
    simp only [wrapLoop]
    split_ifs with hr
    · exact ih _ (by omega)
    · exact h

theorem sampleIndices_spec (cfg : Arguments) (cs : Bool) (cp lp : Nat → Nat) (len : Int)
    (hlen : 1 ≤ len) (hinc : 0 ≤ cfg.optStillSamplingInc) :
    ∀ (n : Nat) (s : Sampling) (k : Nat), 0 ≤ s.rel → s.rel ≤ len →
      s.rel % len = (k * cfg.optStillSamplingInc) % len →
      ∀ i : Nat, i < n → ∃ r, (sampleIndices cfg cs cp lp len n s)[i]? = some r ∧
        0 ≤ r ∧ r ≤ len ∧ r % len = ((k + i : Nat) * cfg.optStillSamplingInc) % len := by
  intro n
  induction n with
  | zero => intro s k _ _ _ i hi; omega
  | succ n ih =>
    intro s k h0 h1 hm i hi
    cases i with
    | zero =>
      exact ⟨s.rel, by simp [sampleIndices], h0, h1, by simpa using hm⟩
    | succ j =>
      have hstep : (sampleStep cfg cs cp lp len s).rel =
          wrapLoop len (s.rel + cfg.optStillSamplingInc).toNat
            (s.rel + cfg.optStillSamplingInc) := rfl
      have hm2 : (sampleStep cfg cs cp lp len s).rel % len =
          ((k + 1 : Nat) * cfg.optStillSamplingInc) % len := by
        rw [hstep, wrapLoop_mod, Int.add_emod, hm, ← Int.add_emod]
        push_cast
        congr 1
        ring
      obtain ⟨r, hr, a, b, c⟩ := ih (sampleStep cfg cs cp lp len s) (k + 1)
        (by rw [hstep]; exact wrapLoop_nonneg len _ _ (by omega))
        (by rw [hstep]; exact wrapLoop_exit len hlen _ _ (le_refl _))
        hm2 j (by omega)
      refine ⟨r, by simpa [sampleIndices] using hr, a, b, ?_⟩
      rw [c]
      congr 2
      omega

theorem sampleDiff_same (cs : Bool) (cp : Nat → Nat) (rel : Int) :
    sampleDiff cs cp cp rel = 0 := by
  simp [sampleDiff]

theorem sampleLoop_same (cfg : Arguments) (cs : Bool) (cp : Nat → Nat) (len : Int)
    (ht : 0 ≤ cfg.optStillNoiseThreshold) :
    ∀ (n : Nat) (s : Sampling), (sampleLoop cfg cs cp cp len n s).nDiff = s.nDiff := by
  intro n
  induction n with
  | zero => intro s; rfl
  | succ k ih =>
    intro s
    have hn : ¬ (0 > cfg.optStillNoiseThreshold) := by omega
    simp only [sampleLoop, ih, sampleStep, sampleDiff_same, hn, if_false]

theorem scanPixel_dHorL (cfg : Arguments) (image : Nat → Nat) (lineLen : Int) (s : Scan) :
    (scanPixel cfg image lineLen s).cnt.dHorL =
      if horDiff image s.thisLine > cfg.optSharpDiffLow then s.cnt.dHorL + 1
      else s.cnt.dHorL := rfl

theorem scanPixel_dVertH (cfg : Arguments) (image : Nat → Nat) (lineLen : Int) (s : Scan) :
    (scanPixel cfg image lineLen s).cnt.dVertH =
      if vertDiff image lineLen s.thisLine > cfg.optSharpDiffLow then
        (if vertDiff image lineLen s.thisLine > cfg.optSharpDiffHigh then s.cnt.dVertH + 1
         else s.cnt.dVertH)
      else s.cnt.dVertH := rfl

theorem scanPixel_dHorH (cfg : Arguments) (image : Nat → Nat) (lineLen : Int) (s : Scan) :
    (scanPixel cfg image lineLen s).cnt.dHorH =
      if horDiff image s.thisLine > cfg.optSharpDiffLow then
        (if horDiff image s.thisLine > cfg.optSharpDiffHigh then s.cnt.dHorH + 1
         else s.cnt.dHorH)
      else s.cnt.dHorH := rfl

theorem scanPixel_ordered (cfg : Arguments) (image : Nat → Nat) (lineLen : Int) (s : Scan)
    (h : s.cnt.ordered) : (scanPixel cfg image lineLen s).cnt.ordered := by
  obtain ⟨⟨a1, a2⟩, ⟨b1, b2⟩⟩ := h
  unfold Counters.ordered
  rw [scanPixel_dVertL, scanPixel_dHorL, scanPixel_dVertH, scanPixel_dHorH]
  refine ⟨⟨?_, ?_⟩, ⟨?_, ?_⟩⟩ <;> split_ifs <;> omega

theorem scanRow_ordered (cfg : Arguments) (image : Nat → Nat) (lineLen : Int) (n : Nat) :
    ∀ s : Scan, s.cnt.ordered → (scanRow cfg image lineLen n s).cnt.ordered := by
  induction n with
  | zero => intro s h; exact h
  | succ n ih =>
    intro s h
    simp only [scanRow]
    exact ih _ (scanPixel_ordered cfg image lineLen s h)

theorem scanRows_ordered (cfg : Arguments) (image : Nat → Nat) (lineLen thisWidth : Int)
    (n : Nat) : ∀ s : Scan, s.cnt.ordered →
    (scanRows cfg image lineLen thisWidth n s).cnt.ordered := by
  induction n with
  | zero => intro s h; exact h
  | succ n ih =>
    intro s h
    simp only [scanRows]
    exact ih _ (scanRow_ordered cfg image lineLen _ s h)

theorem tileCounters_ordered (cfg : Arguments) (image : Nat → Nat) (g : Grid) (fx fy : Int) :
    (tileCounters cfg image g fx fy).ordered := by
  unfold tileCounters
  simp only []
  apply scanRows_ordered
  simp [Counters.ordered]

theorem tdiv_percent (h l : Int) (h0 : 0 ≤ h) (hl : h ≤ l) (l1 : 1 ≤ l) :
    0 ≤ Int.tdiv (h * 100) l ∧ Int.tdiv (h * 100) l ≤ 100 := by
  rw [Int.tdiv_eq_ediv (by omega) (by omega)]
  constructor
  · exact Int.ediv_nonneg (by omega) (by omega)
  · apply Int.ediv_le_of_le_mul (by omega)
    nlinarith

theorem highPercent_le (g : Grid) (c : Counters) (hc : c.ordered)
    (hw : 1 ≤ g.dividedWidth) (hh : 1 ≤ g.dividedHeight) :
    -1 ≤ highPercent g c ∧ highPercent g c ≤ 100 := by
  obtain ⟨⟨a1, a2⟩, ⟨b1, b2⟩⟩ := hc
  have hH : -1 ≤ highPercentH g c ∧ highPercentH g c ≤ 100 := by
    unfold highPercentH
    split_ifs with h
    · have := tdiv_percent c.dHorH c.dHorL b1 b2 (by omega)
      omega
    · omega
  have hV : -1 ≤ highPercentV g c ∧ highPercentV g c ≤ 100 := by
    unfold highPercentV
    split_ifs with h
    · have := tdiv_percent c.dVertH c.dVertL a1 a2 (by omega)
      omega
    · omega
  unfold highPercent
  split_ifs <;> omega

theorem mem_setInsert (l : List SharpTile) (t x : SharpTile) (h : x ∈ setInsert l t) :
    x = t ∨ x ∈ l := by
  induction l with
  | nil => simp [setInsert] at h; exact Or.inl h
  | cons a r ih =>
    simp only [setInsert] at h
    split_ifs at h with h1 h2
    · simp only [List.mem_cons] at h ⊢
      tauto
    · simp only [List.mem_cons] at h ⊢
      rcases h with h | h
      · exact Or.inr (Or.inl h)
      · rcases ih h with h | h
        · exact Or.inl h
        · exact Or.inr (Or.inr h)
    · exact Or.inr h

theorem setInsert_sorted (l : List SharpTile) (t : SharpTile) (h : setSorted l) :
    setSorted (setInsert l t) := by
  unfold setSorted at h ⊢
  induction l with
  | nil => simp [setInsert]
  | cons a r ih =>
    rw [List.pairwise_cons] at h
    obtain ⟨ha, hr⟩ := h
    simp only [setInsert]
    split_ifs with h1 h2
    · simp only [SharpTile.lt, decide_eq_true_eq] at h1
      rw [List.pairwise_cons, List.pairwise_cons]
      refine ⟨?_, ha, hr⟩
      intro b hb
      rcases List.mem_cons.mp hb with hb | hb
      · rw [hb]; exact h1
      · exact lt_trans h1 (ha b hb)
    · simp only [SharpTile.lt, decide_eq_true_eq] at h2
      rw [List.pairwise_cons]
      refine ⟨?_, ih hr⟩
      intro b hb
      rcases mem_setInsert r t b hb with hb | hb
      · rw [hb]; exact h2
      · exact ha b hb
    · exact List.pairwise_cons.mpr ⟨ha, hr⟩

theorem sorted_length_le : ∀ (l : List SharpTile) (a b : Int), setSorted l →
    (∀ t ∈ l, a < t.highPercent ∧ t.highPercent ≤ b) → a ≤ b → (l.length : Int) ≤ b - a := by
  intro l
  induction l with
  | nil => intro a b _ _ hab; simp; omega
  | cons h r ih =>
    intro a b hs hb hab
    unfold setSorted at hs
    rw [List.pairwise_cons] at hs
    obtain ⟨h1, h2⟩ := hs
    have hh := hb h (List.mem_cons_self _ _)
    have := ih h.highPercent b h2
      (fun t ht => ⟨h1 t ht, (hb t (List.mem_cons_of_mem _ ht)).2⟩) hh.2
    simp only [List.length_cons]
    push_cast
    omega

theorem tileOf_inside (cfg : Arguments) (image : Nat → Nat) (g : Grid) (hg : g.sound)
    (fx fy : Nat) (hx : fx < g.divHor.toNat) (hy : fy < g.divVert.toNat) :
    (tileOf cfg image g fx fy).inside g.imageWidth g.imageHeight := by
  have h1 := hg.dividedWidth_pos
  have h2 := hg.dividedHeight_pos
  have h3 := hg.lastWidth_nonneg
  have h4 := hg.lastHeight_nonneg
  have h5 := hg.width_sum
  have h6 := hg.height_sum
  have hfx : (fx : Int) ≤ g.divHor - 1 := by omega
  have hfy : (fy : Int) ≤ g.divVert - 1 := by omega
  have hx0 : 0 ≤ (fx : Int) * g.dividedWidth := Int.mul_nonneg (by omega) (by omega)
  have hy0 : 0 ≤ (fy : Int) * g.dividedHeight := Int.mul_nonneg (by omega) (by omega)
  unfold SharpTile.inside tileOf
  simp only []
  refine ⟨hx0, hy0, lenHor_nonneg g hg _, lenVert_nonneg g hg _, ?_, ?_⟩
  · unfold Grid.lenHor
    split_ifs with h
    · rw [h]; nlinarith
    · have : (fx : Int) + 1 ≤ g.divHor - 1 := by omega
      nlinarith
  · unfold Grid.lenVert
    split_ifs with h
    · rw [h]; nlinarith
    · have : (fy : Int) + 1 ≤ g.divVert - 1 := by omega
      nlinarith

theorem sharpTiles_inv (cfg : Arguments) (frame : Mat) :
    setSorted (sharpTiles cfg frame) ∧
    ∀ t ∈ sharpTiles cfg frame,
      cfg.optSharpHighPercent < t.highPercent ∧
      ∃ fx fy : Nat, fx < (grid cfg frame).divHor.toNat ∧ fy < (grid cfg frame).divVert.toNat ∧
        t = tileOf cfg frame.data (grid cfg frame) fx fy := by
  unfold sharpTiles
  simp only []
  apply foldl_inv_mem (fun s => setSorted s ∧ ∀ t ∈ s,
      cfg.optSharpHighPercent < t.highPercent ∧
      ∃ fx fy : Nat, fx < (grid cfg frame).divHor.toNat ∧ fy < (grid cfg frame).divVert.toNat ∧
        t = tileOf cfg frame.data (grid cfg frame) fx fy)
  · intro b fx hfx hb
    unfold columnStep
    apply foldl_inv_mem (fun s => setSorted s ∧ ∀ t ∈ s,
      cfg.optSharpHighPercent < t.highPercent ∧
      ∃ fx fy : Nat, fx < (grid cfg frame).divHor.toNat ∧ fy < (grid cfg frame).divVert.toNat ∧
        t = tileOf cfg frame.data (grid cfg frame) fx fy)
    · intro b' fy hfy hb'
      unfold tileStep
      simp only []
      split_ifs with hgate
      · refine ⟨setInsert_sorted _ _ hb'.1, ?_⟩
        intro t ht
        rcases mem_setInsert _ _ _ ht with h | h
        · rw [h]
          exact ⟨hgate, fx, fy, List.mem_range.mp hfx, List.mem_range.mp hfy, rfl⟩
        · exact hb'.2 t h
      · exact hb'
    · exact hb
  · exact ⟨List.Pairwise.nil, fun t ht => absurd ht (List.not_mem_nil t)⟩

theorem scanReads_bounds (cfg : Arguments) (frame : Mat) (hg : (grid cfg frame).sound)
    (hw : 1 ≤ frame.cols) :
    ∀ r ∈ scanReads cfg frame, 0 ≤ r ∧ r < frame.cols * frame.rows * 3 := by
  intro r hr
  unfold scanReads at hr
  simp only [List.mem_flatMap] at hr
  obtain ⟨o, ho, hr⟩ := hr
  obtain ⟨x, y, hx, hy, rfl⟩ := (mem_visited cfg frame hg o).mp ho
  have hl : (grid cfg frame).lineLen = frame.cols * 3 := rfl
  have h1 : 0 ≤ frame.cols * y := Int.mul_nonneg (by omega) hy.1
  have h2 : frame.cols * (y + 2) ≤ frame.cols * frame.rows :=
    Int.mul_le_mul_of_nonneg_left (by omega) (by omega)
  simp only [scanPixelReads, hl, pixelOffset, List.mem_cons, List.mem_singleton,
    List.mem_nil_iff, or_false] at hr
  have e1 : frame.cols * 3 * y = 3 * (frame.cols * y) := by ring
  have e2 : frame.cols * (y + 2) = frame.cols * y + 2 * frame.cols := by ring
  rw [e1] at hr
  rw [e2] at h2
  rcases hr with h | h | h | h <;> subst h <;> constructor <;> omega

theorem visited_diffs (cfg : Arguments) (frame : Mat) (hg : (grid cfg frame).sound) :
    ∀ o ∈ visited cfg frame, ∃ x y : Int,
      (0 ≤ x ∧ x ≤ frame.cols - 2) ∧ (0 ≤ y ∧ y ≤ frame.rows - 2) ∧
      o = pixelOffset frame x y ∧
      vertDiff frame.data (grid cfg frame).lineLen o = |luma frame x (y + 1) - luma frame x y| ∧
      horDiff frame.data o = |luma frame (x + 1) y - luma frame x y| := by
  intro o ho
  obtain ⟨x, y, hx, hy, rfl⟩ := (mem_visited cfg frame hg o).mp ho
  have e1 : pixelOffset frame x y + (grid cfg frame).lineLen = pixelOffset frame x (y + 1) := by
    simp only [pixelOffset, grid]; ring
  have e2 : pixelOffset frame x y + 3 = pixelOffset frame (x + 1) y := by
    simp only [pixelOffset]; ring
  refine ⟨x, y, hx, hy, rfl, ?_, ?_⟩
  · unfold vertDiff luma
    rw [e1]
    split_ifs with h
    · rw [abs_of_neg h]
    · rw [abs_of_nonneg (by omega)]
  · unfold horDiff luma
    rw [e2, abs_sub_comm]
    split_ifs with h
    · rw [abs_of_neg h]
    · rw [abs_of_nonneg (by omega)]

theorem skipSpace_stuck (s : List Nat) (ptr : Nat) (h : isspace (charAt s ptr) = true) :
    ∀ (fuel str : Nat), skipSpace s ptr fuel str = none := by
  intro fuel
  induction fuel with
  | zero => intro str; simp [skipSpace, h]
  | succ k ih => intro str; simp [skipSpace, h, ih]

theorem skipSpace_exit (s : List Nat) (ptr : Nat) (h : isspace (charAt s ptr) = false)
    (fuel str : Nat) : skipSpace s ptr fuel str = some str := by
  cases fuel <;> simp [skipSpace, h]

theorem digitsValue_ge : ∀ (ds : List Nat) (acc : Nat), acc ≤ digitsValue ds acc := by
  intro ds
  induction ds with
  | nil => intro acc; exact le_refl _
  | cons c r ih =>
    intro acc
    simp only [digitsValue]
    have := ih (acc * 10 + (c - 48))
    omega

theorem tdiv_ten (w r : Int) (h : (0 ≤ w → w / 10 = r) ∧ (w < 0 → -((-w) / 10) = r)) :
    Int.tdiv w 10 = r := by
  by_cases hw : 0 ≤ w
  · rw [Int.tdiv_eq_ediv hw (by decide)]; exact h.1 hw
  · have e : Int.tdiv w 10 = -(Int.tdiv (-w) 10) := by rw [Int.neg_tdiv, neg_neg]
    rw [e, Int.tdiv_eq_ediv (by omega) (by decide)]
    exact h.2 (by omega)

theorem tdiv_ten_ne (w r : Int) (h : (0 ≤ w → w / 10 ≠ r) ∧ (w < 0 → -((-w) / 10) ≠ r)) :
    Int.tdiv w 10 ≠ r := by
  by_cases hw : 0 ≤ w
  · rw [Int.tdiv_eq_ediv hw (by decide)]; exact h.1 hw
  · have e : Int.tdiv w 10 = -(Int.tdiv (-w) 10) := by rw [Int.neg_tdiv, neg_neg]
    rw [e, Int.tdiv_eq_ediv (by omega) (by decide)]
    exact h.2 (by omega)

theorem wrap_step_pos (acc dv : Nat) (hd : dv ≤ 9) (hr : (acc : Int) ≤ 2147483647) :
    (inIntRange ((acc * 10 + dv : Nat) : Int) →
      toInt32 (toInt32 ((acc : Int) * 10) + toInt32 (1 * (dv : Int))) = ((acc * 10 + dv : Nat) : Int) ∧
      Int.tdiv (toInt32 (toInt32 ((acc : Int) * 10) + toInt32 (1 * (dv : Int)))) 10 = acc) ∧
    (¬ inIntRange ((acc * 10 + dv : Nat) : Int) →
      Int.tdiv (toInt32 (toInt32 ((acc : Int) * 10) + toInt32 (1 * (dv : Int)))) 10 ≠ acc) := by
  unfold inIntRange
  constructor
  · intro h
    have e : toInt32 (toInt32 ((acc : Int) * 10) + toInt32 (1 * (dv : Int))) =
        ((acc * 10 + dv : Nat) : Int) := by
      unfold toInt32; push_cast at h ⊢; omega
    rw [e]
    refine ⟨rfl, tdiv_ten _ _ ⟨fun _ => ?_, fun _ => ?_⟩⟩ <;> push_cast <;> omega
  · intro h
    apply tdiv_ten_ne
    unfold toInt32
    push_cast at h
    constructor <;> intro _ <;> omega

theorem wrap_step_neg (acc dv : Nat) (hd : dv ≤ 9) (hr : (acc : Int) ≤ 2147483648) :
    (inIntRange (-((acc * 10 + dv : Nat) : Int)) →
      toInt32 (toInt32 (-(acc : Int) * 10) + toInt32 (-1 * (dv : Int))) =
        -((acc * 10 + dv : Nat) : Int) ∧
      Int.tdiv (toInt32 (toInt32 (-(acc : Int) * 10) + toInt32 (-1 * (dv : Int)))) 10 = -acc) ∧
    (¬ inIntRange (-((acc * 10 + dv : Nat) : Int)) →
      Int.tdiv (toInt32 (toInt32 (-(acc : Int) * 10) + toInt32 (-1 * (dv : Int)))) 10 ≠ -acc) := by
  unfold inIntRange
  constructor
  · intro h
    have e : toInt32 (toInt32 (-(acc : Int) * 10) + toInt32 (-1 * (dv : Int))) =
        -((acc * 10 + dv : Nat) : Int) := by
      unfold toInt32; push_cast at h ⊢; omega
    rw [e]
    refine ⟨rfl, tdiv_ten _ _ ⟨fun _ => ?_, fun _ => ?_⟩⟩ <;> push_cast <;> omega
  · intro h
    apply tdiv_ten_ne
    unfold toInt32
    push_cast at h
    constructor <;> intro _ <;> omega

theorem digitLoop_stop (sign : Int) (rest : List Nat) (st : Parsed)
    (hrest : ∀ c, rest.head? = some c → ¬ (c ≥ 48 ∧ c ≤ 57)) :
    digitLoop sign rest st = Outcome.returned st := by
  cases rest with
  | nil => rfl
  | cons c r =>
    have := hrest c rfl
    simp only [digitLoop, this, if_false]

theorem digitLoop_spec (sign : Int) (hsign : sign = 1 ∨ sign = -1) (rest : List Nat)
    (hrest : ∀ c, rest.head? = some c → ¬ (c ≥ 48 ∧ c ≤ 57)) :
    ∀ (ds : List Nat) (acc : Nat) (st : Parsed), (∀ c ∈ ds, c ≥ 48 ∧ c ≤ 57) →
      st.result = sign * acc → inIntRange (sign * acc) →
      digitLoop sign (ds ++ rest) st =
        if inIntRange (sign * (digitsValue ds acc : Int)) then
          Outcome.returned { result := sign * (digitsValue ds acc : Int),
                             digits := st.digits + ds.length, ptr := st.ptr + ds.length }
        else Outcome.thrown ParseError.outOfRange := by
  intro ds
  induction ds with
  | nil =>
    intro acc st _ hres hin
    rw [List.nil_append, digitLoop_stop sign rest st hrest]
    simp only [digitsValue, hin, if_true, List.length_nil, Nat.cast_zero, add_zero, ← hres]
    rw [if_pos (hres ▸ hin)]
  | cons c ds ih =>
    intro acc st hd hres hin
    have hc : c ≥ 48 ∧ c ≤ 57 := hd c (List.mem_cons_self _ _)
    have hcv : ((c : Int) - 48) = ((c - 48 : Nat) : Int) := by omega
    have hdv : c - 48 ≤ 9 := by omega
    simp only [List.cons_append, digitLoop, hc, and_self, if_true, digitsValue, hres, hcv,
      List.append_eq]
    have hge := digitsValue_ge ds (acc * 10 + (c - 48))
    rcases hsign with rfl | rfl
    · have hr : (acc : Int) ≤ 2147483647 := by unfold inIntRange at hin; omega
      obtain ⟨h1, h2⟩ := wrap_step_pos acc (c - 48) hdv hr
      simp only [one_mul] at h1 h2 ⊢
      by_cases hstep : inIntRange ((acc * 10 + (c - 48) : Nat) : Int)
      · obtain ⟨e1, e2⟩ := h1 hstep
        rw [if_neg (by rw [e2]; simp), e1]
        have hih := ih (acc * 10 + (c - 48))
          { result := ((acc * 10 + (c - 48) : Nat) : Int), digits := st.digits + 1,
            ptr := st.ptr + 1 }
          (fun x hx => hd x (List.mem_cons_of_mem _ hx)) (by simp) (by simpa using hstep)
        simp only [one_mul] at hih
        rw [hih]
        have ed : st.digits + 1 + (ds.length : Int) =
            st.digits + ((ds.length + 1 : Nat) : Int) := by push_cast; ring
        have ep : st.ptr + 1 + ds.length = st.ptr + (ds.length + 1) := by omega
        simp only [List.length_cons, ed, ep]
      · have e2 := h2 hstep
        simp only [one_mul] at e2
        rw [if_pos e2, if_neg]
        unfold inIntRange at hstep ⊢
        push_cast at hstep ⊢
        omega
    · have hr : (acc : Int) ≤ 2147483648 := by unfold inIntRange at hin; omega
      obtain ⟨h1, h2⟩ := wrap_step_neg acc (c - 48) hdv hr
      simp only [neg_mul, one_mul] at h1 h2 ⊢
      by_cases hstep : inIntRange (-((acc * 10 + (c - 48) : Nat) : Int))
      · obtain ⟨e1, e2⟩ := h1 hstep
        rw [if_neg (by rw [e2]; simp), e1]
        have hih := ih (acc * 10 + (c - 48))
          { result := -((acc * 10 + (c - 48) : Nat) : Int), digits := st.digits + 1,
            ptr := st.ptr + 1 }
          (fun x hx => hd x (List.mem_cons_of_mem _ hx)) (by simp) (by simpa using hstep)
        simp only [neg_mul, one_mul] at hih
        rw [hih]
        have ed : st.digits + 1 + (ds.length : Int) =
            st.digits + ((ds.length + 1 : Nat) : Int) := by push_cast; ring
        have ep : st.ptr + 1 + ds.length = st.ptr + (ds.length + 1) := by omega
        simp only [List.length_cons, ed, ep]
      · have e2 := h2 hstep
        rw [if_pos e2, if_neg]
        unfold inIntRange at hstep ⊢
        push_cast at hstep ⊢
        omega

theorem head_drop_charAt (s : List Nat) (p c : Nat) (h : (s.drop p).head? = some c) :
    charAt s p = c := by
  rw [List.head?_drop] at h
  simp [charAt, List.getD_eq_getElem?_getD, h]

theorem parseExc_no_digit (fuel : Nat) (s : List Nat) (hsp : isspace (charAt s 0) = false)
    (hnd : ¬ (charAt s (if charAt s 0 = 45 ∨ charAt s 0 = 43 then 1 else 0) ≥ 48 ∧
      charAt s (if charAt s 0 = 45 ∨ charAt s 0 = 43 then 1 else 0) ≤ 57)) :
    parseExc fuel (some s) = some (Outcome.thrown ParseError.invalidArgument) := by
  unfold parseExc
  simp only [skipSpace_exit s 0 hsp fuel 0, Nat.zero_add]
  rw [digitLoop_stop _ _ _ (fun c hc => by rw [← head_drop_charAt _ _ _ hc]; exact hnd)]
  simp

theorem parseExc_of_parts (fuel : Nat) (s : List Nat) (sign : Int) (p : Nat)
    (ds rest : List Nat) (hsign : sign = 1 ∨ sign = -1)
    (hsp : isspace (charAt s 0) = false)
    (hsg : (if charAt s 0 = 45 then (-1 : Int) else 1) = sign)
    (hp : (if charAt s 0 = 45 ∨ charAt s 0 = 43 then 0 + 1 else 0) = p)
    (hdrop : s.drop p = ds ++ rest) (hd : ∀ c ∈ ds, c ≥ 48 ∧ c ≤ 57) (hne : ds ≠ [])
    (hrest : ∀ c, rest.head? = some c → ¬ (c ≥ 48 ∧ c ≤ 57)) :
    parseExc fuel (some s) =
      some (if inIntRange (sign * (digitsValue ds 0 : Int)) then
        Outcome.returned (sign * (digitsValue ds 0 : Int), p + ds.length)
      else Outcome.thrown ParseError.outOfRange) := by
  have hlen : (ds.length : Int) ≠ 0 := by
    cases ds with
    | nil => exact absurd rfl hne
    | cons c r => simp only [List.length_cons]; omega
  unfold parseExc
  simp only [skipSpace_exit s 0 hsp fuel 0, hsg, hp]
  rw [hdrop, digitLoop_spec sign hsign rest hrest ds 0 _ hd (by simp)
    (by unfold inIntRange; simp)]
  split_ifs with h1
  · simp only [zero_add, hlen, if_false]
  · rfl

theorem parseExc_digits (fuel : Nat) (sgn ds rest : List Nat)
    (hs : sgn = [] ∨ sgn = [43] ∨ sgn = [45]) (hd : ∀ c ∈ ds, c ≥ 48 ∧ c ≤ 57)
    (hne : ds ≠ []) (hrest : ∀ c, rest.head? = some c → ¬ (c ≥ 48 ∧ c ≤ 57)) :
    parseExc fuel (some (sgn ++ ds ++ rest)) =
      some (if inIntRange ((if sgn = [45] then -1 else 1) * (digitsValue ds 0 : Int)) then
        Outcome.returned ((if sgn = [45] then -1 else 1) * (digitsValue ds 0 : Int),
          sgn.length + ds.length)
      else Outcome.thrown ParseError.outOfRange) := by
  obtain ⟨c, ds', hds⟩ := List.exists_cons_of_ne_nil hne
  have hc : c ≥ 48 ∧ c ≤ 57 := hd c (by rw [hds]; exact List.mem_cons_self _ _)
  rcases hs with rfl | rfl | rfl
  · have h0 : charAt ([] ++ ds ++ rest) 0 = c := by simp [charAt, hds]
    have hsp : isspace c = false := by
      simp only [isspace]; rcases hc with ⟨a, b⟩
      simp; omega
    have h45 : c ≠ 45 := by omega
    have h43 : c ≠ 43 := by omega
    have := parseExc_of_parts fuel ([] ++ ds ++ rest) 1 0 ds rest (Or.inl rfl)
      (by rw [h0]; exact hsp) (by rw [h0]; simp [h45]) (by rw [h0]; simp [h45, h43])
      (by simp) hd hne hrest
    simpa using this
  · have h0 : charAt ([43] ++ ds ++ rest) 0 = 43 := by simp [charAt]
    have := parseExc_of_parts fuel ([43] ++ ds ++ rest) 1 1 ds rest (Or.inl rfl)
      (by rw [h0]; decide) (by rw [h0]; simp) (by rw [h0]; simp)
      (by simp) hd hne hrest
    simpa using this
  · have h0 : charAt ([45] ++ ds ++ rest) 0 = 45 := by simp [charAt]
    have := parseExc_of_parts fuel ([45] ++ ds ++ rest) (-1) 1 ds rest (Or.inr rfl)
      (by rw [h0]; decide) (by rw [h0]; simp) (by rw [h0]; simp)
      (by simp) hd hne hrest
    simpa using this

theorem digitsValue_ofDigits : ∀ (ds : List Nat) (acc : Nat),
    digitsValue ds acc =
      acc * 10 ^ ds.length + Nat.ofDigits 10 ((ds.map (fun c => c - 48)).reverse) := by
  intro ds
  induction ds with
  | nil => intro acc; simp [digitsValue]
  | cons c r ih =>
    intro acc
    simp only [digitsValue, ih, List.map_cons, List.reverse_cons, Nat.ofDigits_append,
      List.length_reverse, List.length_map, List.length_cons, Nat.ofDigits_singleton]
    ring

theorem parseExc_none_iff (fuel : Nat) (s : List Nat) :
    parseExc fuel (some s) = none ↔ isspace (charAt s 0) = true := by
  constructor
  · intro h
    by_contra hsp
    have hsp' : isspace (charAt s 0) = false := by simpa using hsp
    unfold parseExc at h
    simp only [skipSpace_exit s 0 hsp' fuel 0] at h
    split at h
    · exact absurd h (by simp)
    · split_ifs at h
  · intro hsp
    unfold parseExc
    simp only [skipSpace_stuck s 0 hsp fuel 0]

theorem optLimits_value_rows :
    ∀ p ∈ optLimits.enum, p.2.pointer ≠ none → p.2.limitLow < p.2.limitHigh ∧ p.1 < 17 := by
  decide

theorem parseOption_row (code : OptIndex → Int) (hcode : indexesRows code) (i : Nat)
    (row : OptLimits) (var : OptVar) (hrow : optLimits[i]? = some row)
    (hvar : row.pointer = some var) (fuel : Nat) (vars : OptVar → Int)
    (optarg : Option (List Nat)) (v : Int) (n : Nat)
    (hparse : parseExc fuel optarg = some (Outcome.returned (v, n))) :
    Arguments.parseOption code fuel vars (code row.index) optarg =
      if row.limitLow ≤ v ∧ v ≤ row.limitHigh then
        some { outcome := Outcome.returned (), vars := Function.update vars var v }
      else some { outcome := Outcome.thrown ParseError.outOfRange, vars := vars } := by
  have hmem : (i, row) ∈ optLimits.enum := List.mk_mem_enum_iff_getElem?.mpr hrow
  have hc : code row.index = (i : Int) := hcode (i, row) hmem
  have hend : code OptIndex.OPT_END = 17 :=
    hcode (17, ⟨OptIndex.OPT_END, -1, -1, none⟩) (by decide)
  obtain ⟨hlim, hi⟩ := optLimits_value_rows (i, row) hmem (by simp [hvar])
  simp only at hlim hi
  unfold Arguments.parseOption
  rw [hc, hend]
  have h1 : ¬ ((i : Int) ≥ 17) := by omega
  have h2 : ¬ ((i : Int) < 0) := by omega
  simp only [h1, h2, if_false, Int.toNat_ofNat, hrow, hlim, if_true, hvar, hparse, ge_iff_le]

theorem parseOption_row_thrown (code : OptIndex → Int) (hcode : indexesRows code) (i : Nat)
    (row : OptLimits) (var : OptVar) (hrow : optLimits[i]? = some row)
    (hvar : row.pointer = some var) (fuel : Nat) (vars : OptVar → Int)
    (optarg : Option (List Nat)) (e : ParseError)
    (hparse : parseExc fuel optarg = some (Outcome.thrown e)) :
    Arguments.parseOption code fuel vars (code row.index) optarg =
      some { outcome := Outcome.thrown e, vars := vars } := by
  have hmem : (i, row) ∈ optLimits.enum := List.mk_mem_enum_iff_getElem?.mpr hrow
  have hc : code row.index = (i : Int) := hcode (i, row) hmem
  have hend : code OptIndex.OPT_END = 17 :=
    hcode (17, ⟨OptIndex.OPT_END, -1, -1, none⟩) (by decide)
  obtain ⟨hlim, hi⟩ := optLimits_value_rows (i, row) hmem (by simp [hvar])
  simp only at hlim hi
  unfold Arguments.parseOption
  rw [hc, hend]
  have h1 : ¬ ((i : Int) ≥ 17) := by omega
  have h2 : ¬ ((i : Int) < 0) := by omega
  simp only [h1, h2, if_false, Int.toNat_ofNat, hrow, hlim, if_true, hparse]

theorem scanPixel_countAt (cfg : Arguments) (image : Nat → Nat) (lineLen : Int) (s : Scan) :
    scanPixel cfg image lineLen s =
      { thisLine := s.thisLine + 3, cnt := countAt cfg image lineLen s.cnt s.thisLine } := rfl

theorem scanRow_fold (cfg : Arguments) (image : Nat → Nat) (lineLen : Int) (n : Nat) :
    ∀ s : Scan, (scanRow cfg image lineLen n s).cnt =
      (scanRowVisits cfg image lineLen n s).foldl (countAt cfg image lineLen) s.cnt := by
  induction n with
  | zero => intro s; rfl
  | succ n ih =>
    intro s
    simp only [scanRow, scanRowVisits, List.foldl_cons, ih]
    rfl

theorem scanRows_fold (cfg : Arguments) (image : Nat → Nat) (lineLen thisWidth : Int)
    (n : Nat) : ∀ s : Scan, (scanRows cfg image lineLen thisWidth n s).cnt =
      (scanRowsVisits cfg image lineLen thisWidth n s).foldl (countAt cfg image lineLen)
        s.cnt := by
  induction n with
  | zero => intro s; rfl
  | succ n ih =>
    intro s
    simp only [scanRows, scanRowsVisits, List.foldl_append, ih, scanRow_fold]

theorem tileCounters_fold (cfg : Arguments) (image : Nat → Nat) (g : Grid) (fx fy : Int) :
    tileCounters cfg image g fx fy =
      (tileVisits cfg image g fx fy).foldl (countAt cfg image g.lineLen)
        { dVertL := 0, dHorL := 0, dVertH := 0, dHorH := 0 } := by
  unfold tileCounters tileVisits
  simp only []
  exact scanRows_fold cfg image g.lineLen _ _ _

theorem foldl_congr_mem {α β : Type} (f g : β → α → β) :
    ∀ (l : List α) (b : β), (∀ b, ∀ a ∈ l, f b a = g b a) → l.foldl f b = l.foldl g b := by
  intro l
  induction l with
  | nil => intro b _; rfl
  | cons a l ih =>
    intro b h
    simp only [List.foldl_cons]
    rw [h b a (List.mem_cons_self _ _)]
    exact ih _ (fun b' a' ha' => h b' a' (List.mem_cons_of_mem _ ha'))

theorem scanPixel_reads_only (cfg : Arguments) (image image' : Nat → Nat) (lineLen : Int)
    (s : Scan) (h : ∀ r ∈ scanPixelReads lineLen s, image' r.toNat = image r.toNat) :
    scanPixel cfg image' lineLen s = scanPixel cfg image lineLen s := by
  have h1 := h (s.thisLine + lineLen) (by simp [scanPixelReads])
  have h2 := h s.thisLine (by simp [scanPixelReads])
  have h3 := h (s.thisLine + 3) (by simp [scanPixelReads])
  unfold scanPixel readU8
  simp only [h1, h2, h3]

theorem tileVisits_image (cfg : Arguments) (image image' : Nat → Nat) (g : Grid)
    (hg : g.sound) (fx fy : Nat) :
    tileVisits cfg image' g fx fy = tileVisits cfg image g fx fy := by
  rw [tileVisits_eq cfg image' g hg, tileVisits_eq cfg image g hg]

theorem tileCounters_agree (cfg : Arguments) (image image' : Nat → Nat) (g : Grid)
    (hg : g.sound) (fx fy : Nat)
    (h : ∀ o ∈ tileVisits cfg image g fx fy,
      ∀ r ∈ scanPixelReads g.lineLen
          { thisLine := o, cnt := { dVertL := 0, dHorL := 0, dVertH := 0, dHorH := 0 } },
        image' r.toNat = image r.toNat) :
    tileCounters cfg image' g fx fy = tileCounters cfg image g fx fy := by
  rw [tileCounters_fold cfg image', tileCounters_fold cfg image,
    tileVisits_image cfg image image' g hg]
  apply foldl_congr_mem
  intro c o ho
  unfold countAt
  rw [scanPixel_reads_only cfg image image' g.lineLen { thisLine := o, cnt := c }
    (fun r hr => h o ho r hr)]

theorem grid_same (cfg : Arguments) (frame frame' : Mat) (hr : frame'.rows = frame.rows)
    (hc : frame'.cols = frame.cols) : grid cfg frame' = grid cfg frame := by
  simp only [grid, hr, hc]

theorem sharpTiles_agree (cfg : Arguments) (frame frame' : Mat)
    (hg : (grid cfg frame).sound) (hr : frame'.rows = frame.rows)
    (hc : frame'.cols = frame.cols)
    (h : ∀ r ∈ scanReads cfg frame, frame'.data r.toNat = frame.data r.toNat) :
    sharpTiles cfg frame' = sharpTiles cfg frame := by
  unfold sharpTiles
  simp only [grid_same cfg frame frame' hr hc]
  apply foldl_congr_mem
  intro b fx hfx
  unfold columnStep
  apply foldl_congr_mem
  intro b' fy hfy
  have ht : tileCounters cfg frame'.data (grid cfg frame) fx fy =
      tileCounters cfg frame.data (grid cfg frame) fx fy := by
    apply tileCounters_agree cfg frame.data frame'.data (grid cfg frame) hg fx fy
    intro o ho r hr'
    apply h r
    unfold scanReads
    simp only [List.mem_flatMap]
    exact ⟨o, tileVisits_sub cfg frame fx fy (List.mem_range.mp hfx) (List.mem_range.mp hfy) o ho,
      hr'⟩
  simp only [tileStep, tileOf, ht]

theorem checkSharpness_agree (cfg : Arguments) (frame frame' : Mat)
    (hg : (grid cfg frame).sound) (hr : frame'.rows = frame.rows)
    (hc : frame'.cols = frame.cols)
    (hh : frame'.continuous = frame.continuous ∧ frame'.channelCount = frame.channelCount ∧
      frame'.depthCode = frame.depthCode)
    (h : ∀ r ∈ scanReads cfg frame, frame'.data r.toNat = frame.data r.toNat) :
    checkSharpness cfg frame' = checkSharpness cfg frame := by
  unfold checkSharpness Mat.isContinuous Mat.channels Mat.depth
  rw [hh.1, hh.2.1, hh.2.2, sharpTiles_agree cfg frame frame' hg hr hc h]

/-- What `parseExc<int>` does, with `int` arithmetic wrapping modulo 2^32, on a string made
of an optional sign `+` or `-`, a run `ds` of decimal digits and a rest that does not begin
with a digit. The value of the digits is their decimal value. With at least one digit the
function returns the signed value of the digits when it lies between -2^31 and 2^31 - 1,
together with the offset of the first character after the digits (what `*next` receives),
and throws `out_of_range` otherwise. With no digit it throws `invalid_argument` when the
string bears a sign or begins with a character that is neither whitespace nor a sign; a
string that begins with whitespace is the subject of `parseExc_none_iff`. -/
theorem parseExc_exact_value (fuel : Nat) (sgn ds rest : List Nat)
    (hs : sgn = [] ∨ sgn = [43] ∨ sgn = [45]) (hd : ∀ c ∈ ds, c ≥ 48 ∧ c ≤ 57)
    (hrest : ∀ c, rest.head? = some c → ¬ (c ≥ 48 ∧ c ≤ 57)) :
    digitsValue ds 0 = Nat.ofDigits 10 ((ds.map (fun c => c - 48)).reverse) ∧
    (ds ≠ [] →
      parseExc fuel (some (sgn ++ ds ++ rest)) =
        some (if inIntRange ((if sgn = [45] then -1 else 1) * (digitsValue ds 0 : Int)) then
          Outcome.returned ((if sgn = [45] then -1 else 1) * (digitsValue ds 0 : Int),
            sgn.length + ds.length)
        else Outcome.thrown ParseError.outOfRange)) ∧
    (ds = [] →
      (sgn ≠ [] ∨ ∀ c, rest.head? = some c → isspace c = false ∧ c ≠ 43 ∧ c ≠ 45) →
      parseExc fuel (some (sgn ++ rest)) = some (Outcome.thrown ParseError.invalidArgument)) := by
  refine ⟨by simpa using digitsValue_ofDigits ds 0,
    fun hne => parseExc_digits fuel sgn ds rest hs hd hne hrest, ?_⟩
  intro _ hfirst
  have hr0 : ¬ (charAt rest 0 ≥ 48 ∧ charAt rest 0 ≤ 57) := by
    cases rest with
    | nil => simp [charAt]
    | cons c r => simpa [charAt] using hrest c rfl
  rcases hs with rfl | rfl | rfl
  · have hf : ∀ c, rest.head? = some c → isspace c = false ∧ c ≠ 43 ∧ c ≠ 45 := by
      rcases hfirst with h | h
      · exact absurd rfl h
      · exact h
    have h0 : isspace (charAt rest 0) = false ∧ charAt rest 0 ≠ 43 ∧ charAt rest 0 ≠ 45 := by
      cases rest with
      | nil => simp [charAt, isspace]
      | cons c r => simpa [charAt] using hf c rfl
    apply parseExc_no_digit fuel _ (by simpa using h0.1)
    simp only [List.nil_append, h0.2.1, h0.2.2, or_self, if_false]
    exact hr0
  · apply parseExc_no_digit fuel _ (by simp [charAt, isspace])
    have e : charAt ([43] ++ rest) 0 = 43 := by simp [charAt]
    have e1 : charAt ([43] ++ rest) 1 = charAt rest 0 := by simp [charAt]
    simp only [e, or_true, if_true, e1]
    exact hr0
  · apply parseExc_no_digit fuel _ (by simp [charAt, isspace])
    have e : charAt ([45] ++ rest) 0 = 45 := by simp [charAt]
    have e1 : charAt ([45] ++ rest) 1 = charAt rest 0 := by simp [charAt]
    simp only [e, true_or, if_true, e1]
    exact hr0

/-! ## The claims -/

/-- C1 (counterexample). A full-size retrieve right after an observed change: the pass at
clock 0 sees `hasChanged` return true, the next pass, 1000 microseconds later, issues the
full-size retrieve, although `STILL_CHANGE_TIME` is 500 ms. -/
theorem promotion_right_after_change :
    (Loop.init true 0 500).keepAlive = true ∧
    (iteration (passAt 0 true 0) (Loop.init true 0 500)).keepAlive = true ∧
    Event.hasChanged none true ∈ (iteration (passAt 0 true 0) (Loop.init true 0 500)).log ∧
    Event.retrieveFull ∈
      (iteration (passAt 0 false 1000)
        (iteration (passAt 0 true 0) (Loop.init true 0 500))).log ∧
    (passAt 0 false 1000).nowElapsed - (passAt 0 true 0).nowElapsed <
      (passAt 0 false 1000).optStillChangeTime * 1000 := by
  decide

/-- C1 (amended). For every run of the loop under a clock that never runs backwards, with
`STILL_CHANGE_TIME` non-negative on entry: if a pass issues the full-size retrieve, then
`hasChanged` returned false in that pass, and every earlier reset of the dwell timer (an
unchanged observation at still.cpp 224 or a stale dispatch at still.cpp 290) lies at least
`STILL_CHANGE_TIME` milliseconds before the clock value that pass read for `elapsed`. -/
theorem promotion_needs_dwell_since_unchanged (started : Bool) (now changeTime : Int)
    (pre : List IterIn) (inp : IterIn)
    (hT : 0 ≤ changeTime) (hclock : clockMonotone now (pre ++ [inp]))
    (hfull : Event.retrieveFull ∈
      (iteration inp (runLoop pre (Loop.init started now changeTime)).1).log) :
    inp.changed = false ∧
    ∀ a, Event.actualize a ∈ (runLoop pre (Loop.init started now changeTime)).2 →
      a + inp.optStillChangeTime * 1000 ≤ inp.nowElapsed := by
  rw [mem_retrieveFull] at hfull
  obtain ⟨_, hch, hdw⟩ := hfull
  refine ⟨hch, ?_⟩
  unfold clockMonotone at hclock
  rw [List.flatMap_append, ← List.cons_append, List.pairwise_append] at hclock
  obtain ⟨hc1, _, hc3⟩ := hclock
  have h0 : (Loop.init started now changeTime).timeInChange ≤ now := by
    simp only [Loop.init]; omega
  obtain ⟨_, r2, r3⟩ := timer_run pre (Loop.init started now changeTime) now h0 hc1
  have hle := r2 inp.nowElapsed (fun c hc => hc3 c hc inp.nowElapsed (by simp [IterIn.clock]))
  intro a ha
  have h1 := r3 a ha
  unfold elapsedMs toInt32 at hdw
  rw [Int.tdiv_eq_ediv (by omega) (by norm_num)] at hdw
  omega

/-- C1 (witness). A run of two passes (changed at 0, unchanged at 1000 microseconds) and a
third pass at 600000 microseconds that issues the full-size retrieve. -/
theorem promotion_needs_dwell_since_unchanged_witness :
    (0 : Int) ≤ 500 ∧
    clockMonotone 0 ([passAt 0 true 0, passAt 0 false 1000] ++ [passAt 0 false 600000]) ∧
    Event.retrieveFull ∈ (iteration (passAt 0 false 600000)
      (runLoop [passAt 0 true 0, passAt 0 false 1000] (Loop.init true 0 500)).1).log ∧
    ((passAt 0 false 600000).changed = false ∧
      ∀ a, Event.actualize a ∈
          (runLoop [passAt 0 true 0, passAt 0 false 1000] (Loop.init true 0 500)).2 →
        a + (passAt 0 false 600000).optStillChangeTime * 1000 ≤
          (passAt 0 false 600000).nowElapsed) :=
  ⟨by decide, by decide, by decide,
    promotion_needs_dwell_since_unchanged true 0 500 [passAt 0 true 0, passAt 0 false 1000]
      (passAt 0 false 600000) (by decide) (by decide) (by decide)⟩

/-- C2. In every pass with a positive sampling percent in which the small frame was
retrieved, the full-size retrieve is issued exactly when `hasChanged` returned false and
the elapsed dwell is at least `STILL_CHANGE_TIME`; when `hasChanged` returned true there is
no full-size retrieve, the job of the pass is deleted, it is not in the stale slot and no
job is passed to `process`. -/
theorem full_retrieve_iff_unchanged_and_dwell (inp : IterIn) (l : Loop)
    (h : smallRetrieved inp l) :
    (Event.retrieveFull ∈ (iteration inp l).log ↔
      (inp.changed = false ∧
        inp.optStillChangeTime ≤ elapsedMs l.timeInChange inp.nowElapsed)) ∧
    (inp.changed = true →
      Event.retrieveFull ∉ (iteration inp l).log ∧
      Event.deleteArgs (freshArgs inp l) ∈ (iteration inp l).log ∧
      (iteration inp l).staleArg = none ∧
      ∀ j c, Event.process j c ∉ (iteration inp l).log) := by
  have hr := (stillRuns_iff inp l).2 h
  have hfull : Event.retrieveFull ∈ (iteration inp l).log ↔
      (inp.changed = false ∧
        inp.optStillChangeTime ≤ elapsedMs l.timeInChange inp.nowElapsed) := by
    rw [mem_retrieveFull]
    simp [hr]
  refine ⟨hfull, fun hc => ?_⟩
  have hv := viable_changed inp l h hc
  have hp : ¬ parks inp l := by simp [parks, hv]
  have hra : (afterKeep inp l).readArg = none := by simp [hv]
  have hsk : staleKept inp l = none := by
    rcases h.2.2.1 with h3 | h3 <;> simp [staleKept, h3]
  have hst : (afterKeep inp l).staleArg = none := by simp [hp, hsk]
  refine ⟨?_, ?_, ?_, ?_⟩
  · rw [hfull]; simp [hc]
  · rw [← mem_core (by rfl), iteration_core]
    simp [hv]
  · rw [iteration_staleArg]; simp [hp, hsk]
  · intro j c
    rw [mem_process, hra, hst]
    simp

/-- C2 (witness). The second pass of a run: the small frame is retrieved, `hasChanged`
returns false and the dwell is enough. -/
theorem full_retrieve_iff_unchanged_and_dwell_witness :
    smallRetrieved (passAt 0 false 1000) (iteration (passAt 0 true 0) (Loop.init true 0 500)) ∧
    ((Event.retrieveFull ∈ (iteration (passAt 0 false 1000)
          (iteration (passAt 0 true 0) (Loop.init true 0 500))).log ↔
        ((passAt 0 false 1000).changed = false ∧
          (passAt 0 false 1000).optStillChangeTime ≤
            elapsedMs (iteration (passAt 0 true 0) (Loop.init true 0 500)).timeInChange
              (passAt 0 false 1000).nowElapsed)) ∧
      ((passAt 0 false 1000).changed = true →
        Event.retrieveFull ∉ (iteration (passAt 0 false 1000)
          (iteration (passAt 0 true 0) (Loop.init true 0 500))).log ∧
        Event.deleteArgs (freshArgs (passAt 0 false 1000)
            (iteration (passAt 0 true 0) (Loop.init true 0 500))) ∈
          (iteration (passAt 0 false 1000)
            (iteration (passAt 0 true 0) (Loop.init true 0 500))).log ∧
        (iteration (passAt 0 false 1000)
          (iteration (passAt 0 true 0) (Loop.init true 0 500))).staleArg = none ∧
        ∀ j c, Event.process j c ∉ (iteration (passAt 0 false 1000)
          (iteration (passAt 0 true 0) (Loop.init true 0 500))).log)) :=
  ⟨by decide,
    full_retrieve_iff_unchanged_and_dwell (passAt 0 false 1000)
      (iteration (passAt 0 true 0) (Loop.init true 0 500)) (by decide)⟩

/-- C3 (counterexample). A pass at clock 2000 in which the small frame is retrieved and
`hasChanged` returns true leaves the dwell timer at its initial value: it is not reset
to 2000. -/
theorem changed_leaves_dwell_timer :
    smallRetrieved (passAt 0 true 2000) (Loop.init true 0 500) ∧
    (passAt 0 true 2000).changed = true ∧
    (iteration (passAt 0 true 2000) (Loop.init true 0 500)).timeInChange = -501000 ∧
    (iteration (passAt 0 true 2000) (Loop.init true 0 500)).timeInChange ≠ 2000 := by
  decide

/-- C3 (amended). In every pass in which the Change Detector is called: if it returns
changed, the dwell timer keeps its value and `actualize` is not called; if it returns
unchanged, `actualize` is called at still.cpp 224, and the timer ends the pass at that
clock value or at the clock value of a stale dispatch later in the pass. -/
theorem dwell_timer_reset_on_unchanged (inp : IterIn) (l : Loop)
    (h : smallRetrieved inp l) :
    (inp.changed = true →
      (iteration inp l).timeInChange = l.timeInChange ∧
      ∀ t, Event.actualize t ∉ (iteration inp l).log) ∧
    (inp.changed = false →
      Event.actualize inp.nowActualize ∈ (iteration inp l).log ∧
      ((iteration inp l).timeInChange = inp.nowActualize ∨
       (iteration inp l).timeInChange = inp.nowStale)) := by
  have hr := (stillRuns_iff inp l).2 h
  constructor
  · intro hc
    have hv := viable_changed inp l h hc
    have hp : ¬ parks inp l := by simp [parks, hv]
    have hsk : staleKept inp l = none := by
      rcases h.2.2.1 with h3 | h3 <;> simp [staleKept, h3]
    have hst : (afterKeep inp l).staleArg = none := by simp [hp, hsk]
    constructor
    · rw [iteration_timeInChange, hst]; simp [hc]
    · intro t
      rw [mem_actualize, hst]; simp [hc]
  · intro hc
    constructor
    · rw [mem_actualize]; exact Or.inl ⟨hr, hc, rfl⟩
    · rw [iteration_timeInChange]
      split_ifs
      · right; rfl
      · left; rfl
      · rename_i h2; exact absurd ⟨hr, hc⟩ h2

/-- C3 (witness). The second pass of a run, with `hasChanged` returning false. -/
theorem dwell_timer_reset_on_unchanged_witness :
    smallRetrieved (passAt 0 false 1000) (iteration (passAt 0 true 0) (Loop.init true 0 500)) ∧
    (((passAt 0 false 1000).changed = true →
      (iteration (passAt 0 false 1000)
          (iteration (passAt 0 true 0) (Loop.init true 0 500))).timeInChange =
        (iteration (passAt 0 true 0) (Loop.init true 0 500)).timeInChange ∧
      ∀ t, Event.actualize t ∉ (iteration (passAt 0 false 1000)
        (iteration (passAt 0 true 0) (Loop.init true 0 500))).log) ∧
    ((passAt 0 false 1000).changed = false →
      Event.actualize (passAt 0 false 1000).nowActualize ∈
        (iteration (passAt 0 false 1000)
          (iteration (passAt 0 true 0) (Loop.init true 0 500))).log ∧
      ((iteration (passAt 0 false 1000)
          (iteration (passAt 0 true 0) (Loop.init true 0 500))).timeInChange =
          (passAt 0 false 1000).nowActualize ∨
       (iteration (passAt 0 false 1000)
          (iteration (passAt 0 true 0) (Loop.init true 0 500))).timeInChange =
          (passAt 0 false 1000).nowStale))) :=
  ⟨by decide,
    dwell_timer_reset_on_unchanged (passAt 0 false 1000)
      (iteration (passAt 0 true 0) (Loop.init true 0 500)) (by decide)⟩

/-- C4. In every pass of every run: `process` is called at most once; a call of `process`
with job `j` happens only with `started` true at still.cpp 284 and the one `status()` read
of the pass different from `RESULT_PROCESSING`, and either `USE_STALE_FRAME` is set and `j`
is the stale job (in the slot on entry to the pass or moved there during it), or
`USE_STALE_FRAME` is not set and `j` is the job of the pass, which passed all checks; on
entry to `process` the status word is `RESULT_NOIMAGE`. Before and after the pass at most
one job is with a worker. -/
theorem dispatch_rule_single_flight (started : Bool) (now changeTime : Int)
    (pre : List IterIn) (inp : IterIn) :
    (iteration inp (runLoop pre (Loop.init started now changeTime)).1).log.countP
      Event.isProcess ≤ 1 ∧
    (∀ j c, Event.process j c ∈
        (iteration inp (runLoop pre (Loop.init started now changeTime)).1).log →
      inp.started284 = true ∧
      (∃ r, r ≠ RESULT_PROCESSING ∧ ∀ r1, Event.status r1 ∈
        (iteration inp (runLoop pre (Loop.init started now changeTime)).1).log ↔ r1 = r) ∧
      ((inp.optUseStaleFrame ≠ 0 ∧
          ((runLoop pre (Loop.init started now changeTime)).1.staleArg = some j ∨
           Event.toStale j ∈
            (iteration inp (runLoop pre (Loop.init started now changeTime)).1).log)) ∨
       (inp.optUseStaleFrame = 0 ∧
          j = freshArgs inp (runLoop pre (Loop.init started now changeTime)).1 ∧
          passedChecks inp (runLoop pre (Loop.init started now changeTime)).1)) ∧
      c = RESULT_NOIMAGE) ∧
    (runLoop pre (Loop.init started now changeTime)).1.processor.working.length ≤ 1 ∧
    (iteration inp (runLoop pre (Loop.init started now changeTime)).1).processor.working.length
      ≤ 1 := by
  have hwf := wellFormed_run pre (Loop.init started now changeTime) wellFormed_init
  generalize (runLoop pre (Loop.init started now changeTime)).1 = l at hwf ⊢
  refine ⟨?_, ?_, hwf.1, (wellFormed_iteration inp l hwf).1⟩
  · rw [← countP_core Event.isProcess (by intro e; cases e <;> simp [Event.isProcess, Event.housekeeping]),
      iteration_core, afterSharp_core]
    by_cases hd : dispatches inp l <;> by_cases hu : inp.optUseStaleFrame = 0 <;>
      cases hs : (afterKeep inp l).staleArg <;> cases hra : (afterKeep inp l).readArg <;>
      cases hl : l.staleArg <;>
      simp [hd, hu, hs, hra, hl, Event.isProcess, List.countP_cons, List.countP_append] <;>
      split_ifs <;> simp [Event.isProcess, List.countP_cons]
  · intro j c hj
    rw [mem_process] at hj
    obtain ⟨hd, hc, hj⟩ := hj
    refine ⟨hd.1, ⟨processingResult inp l, hd.2, fun r1 => mem_status inp l r1⟩, ?_,
      hc.trans (procAtDispatch_idle inp l hwf hd.2).2⟩
    rcases hj with ⟨hu, hs⟩ | ⟨hu, hra⟩
    · left
      refine ⟨hu, ?_⟩
      rw [afterKeep_staleArg] at hs
      by_cases hp : parks inp l
      · right
        rw [mem_toStale]
        simp only [hp, if_true, Option.some.injEq] at hs
        exact ⟨hp, hs.symm⟩
      · left
        simpa [hp, staleKept, hu] using hs
    · right
      refine ⟨hu, ?_⟩
      rw [afterKeep_readArg] at hra
      split_ifs at hra with hv
      simp only [Option.some.injEq] at hra
      refine ⟨hra.symm, (viable_iff inp l).1 ?_⟩
      cases hvv : viable inp l
      · exact absurd (Or.inl hvv) hv
      · rfl

/-- C5. In every pass of every run in which `started` does not go from false to true
between its reads: the job allocated at the start of the pass ends the pass deleted by the
pipeline once, or in the stale slot, or passed to `process` once, and exactly one of the
three; and so does a job that was in the stale slot on entry to the pass. -/
theorem job_fate_exactly_one (started : Bool) (now changeTime : Int) (pre : List IterIn)
    (inp : IterIn) (hs : inp.noRisingEdge) :
    fates (freshArgs inp (runLoop pre (Loop.init started now changeTime)).1)
      (iteration inp (runLoop pre (Loop.init started now changeTime)).1) = 1 ∧
    ∀ s, (runLoop pre (Loop.init started now changeTime)).1.staleArg = some s →
      fates s (iteration inp (runLoop pre (Loop.init started now changeTime)).1) = 1 := by
  have hfr := staleFresh_run pre (Loop.init started now changeTime)
    (by intro s hs; simp [Loop.init] at hs)
  generalize (runLoop pre (Loop.init started now changeTime)).1 = l at hfr ⊢
  have hne : ∀ s, l.staleArg = some s → s ≠ freshArgs inp l := by
    intro s h1 h2
    have := hfr s h1
    rw [h2] at this
    simp [freshArgs] at this
  have hvia : viable inp l = true → inp.started176 = true ∧
      (inp.optUseStaleFrame = 0 ∨ l.staleArg = none) := by
    intro hv
    have := (viable_iff inp l).1 hv
    exact ⟨this.2.1, this.2.2.1⟩
  obtain ⟨e1, e2, e3⟩ := hs
  have hdis : dispatches inp l → inp.started284 = true := fun h => h.1
  constructor
  · rw [fates_eq, iteration_staleArg, iteration_core]
    simp only [List.count_append, List.countP_append, afterSharp_count_delete,
      afterSharp_count_process]
    by_cases hd : dispatches inp l <;> by_cases hu : inp.optUseStaleFrame = 0 <;>
      by_cases hp : parks inp l <;> cases hv : viable inp l <;>
      cases hl : l.staleArg <;>
      simp [hd, hu, hp, hv, hl, staleKept, Event.isProcessOf, List.count_cons,
        List.countP_cons, hne] <;>
      simp_all [parks]
  · intro s hst
    have hns := hne s hst
    have hns2 : ¬ freshArgs inp l = s := fun h => hns h.symm
    rw [fates_eq, iteration_staleArg, iteration_core]
    simp only [List.count_append, List.countP_append, afterSharp_count_delete,
      afterSharp_count_process]
    by_cases hd : dispatches inp l <;> by_cases hu : inp.optUseStaleFrame = 0 <;>
      by_cases hp : parks inp l <;> cases hv : viable inp l <;>
      simp [hd, hu, hp, hv, hst, staleKept, Event.isProcessOf, List.count_cons,
        List.countP_cons, hns, hns2] <;>
      simp_all [parks]

/-- C5 (witness). With `USE_STALE_FRAME` set, a first pass with a changed frame and a
second pass whose job is parked and dispatched. -/
theorem job_fate_exactly_one_witness :
    (passAt 1 false 1000).noRisingEdge ∧
    (fates (freshArgs (passAt 1 false 1000)
          (runLoop [passAt 1 true 0] (Loop.init true 0 500)).1)
        (iteration (passAt 1 false 1000)
          (runLoop [passAt 1 true 0] (Loop.init true 0 500)).1) = 1 ∧
      ∀ s, (runLoop [passAt 1 true 0] (Loop.init true 0 500)).1.staleArg = some s →
        fates s (iteration (passAt 1 false 1000)
          (runLoop [passAt 1 true 0] (Loop.init true 0 500)).1) = 1) :=
  ⟨by decide,
    job_fate_exactly_one true 0 500 [passAt 1 true 0] (passAt 1 false 1000) (by decide)⟩

/-- C6 (the code at the failing input). On the 32 by 2 frame with luma 0 in row 0 and 255
in row 1, two tiles per side, both grid tiles score 100 and pass the gate of 40, yet the
returned set holds only the first of them. -/
theorem checkSharpness_drops_equal_scores :
    checkSharpness (sharpOpts 2) (twoRowFrame 32) = some [⟨100, 16, 1, 0, 0⟩] ∧
    (gridTiles (sharpOpts 2) (twoRowFrame 32)).filter
        (fun t => t.highPercent > (sharpOpts 2).optSharpHighPercent) =
      [⟨100, 16, 1, 0, 0⟩, ⟨100, 15, 1, 16, 0⟩] := by
  decide

/-- C7 (the code at the failing input). On the 640 by 480 checkerboard of scenario S2 with
the options of S2, `checkSharpness` returns a set of at most one tile, fewer than the four
that `SHARP_TILES_REQUIRED` asks for, although at least four grid tiles (the first four of
the first column) score 100 and pass the gate of 40. -/
theorem checkSharpness_checkerboard_at_most_one :
    (∃ tiles, checkSharpness (sharpOpts 10) checkerboard = some tiles ∧
      tiles.length ≤ 1 ∧ ¬ (4 ≤ tiles.length)) ∧
    (tileOf (sharpOpts 10) checkerboard.data (grid (sharpOpts 10) checkerboard) 0 0).highPercent
      = 100 ∧
    (tileOf (sharpOpts 10) checkerboard.data (grid (sharpOpts 10) checkerboard) 0 1).highPercent
      = 100 ∧
    (tileOf (sharpOpts 10) checkerboard.data (grid (sharpOpts 10) checkerboard) 0 2).highPercent
      = 100 ∧
    (tileOf (sharpOpts 10) checkerboard.data (grid (sharpOpts 10) checkerboard) 0 3).highPercent
      = 100 := by
  refine ⟨?_, ?_, ?_, ?_, ?_⟩
  · refine ⟨sharpTiles (sharpOpts 10) checkerboard,
      checkSharpness_valid _ _ rfl rfl rfl, ?_⟩
    have h := (sharpTiles_blackWhite (sharpOpts 10) checkerboard checkerboard_blackWhite
      (by decide) (by decide) (by decide) (by decide) (by decide)).2
    omega
  · exact checkerboard_tile_score 0 31 (by decide) (by decide) (by decide)
  · exact checkerboard_tile_score 1 15 (by decide) (by decide) (by decide)
  · exact checkerboard_tile_score 2 31 (by decide) (by decide) (by decide)
  · exact checkerboard_tile_score 3 15 (by decide) (by decide) (by decide)

/-- C8 (the code at the failing input). For `len` 24 and `div` 2, `dividor` returns 2 and
24 / 2 is 12, below the floor of 16. -/
theorem dividor_below_floor :
    dividor 24 2 = 2 ∧ Int.tdiv 24 (dividor 24 2) = 12 ∧
    ¬ (Int.tdiv 24 (dividor 24 2) ≥ 16) := by
  decide

/-- C9 (the code at the failing input). On the 24 by 2 frame with luma 0 in row 0 and 255
in row 1, two tiles per side, the returned tile has width 12: below 16 and not the
remainder width 11. -/
theorem checkSharpness_tile_below_floor :
    checkSharpness (sharpOpts 2) (twoRowFrame 24) = some [⟨100, 12, 1, 0, 0⟩] ∧
    (grid (sharpOpts 2) (twoRowFrame 24)).divHor = 2 ∧
    (grid (sharpOpts 2) (twoRowFrame 24)).lastWidth = 11 := by
  decide

/-- C10 (the code at the failing input). On the 2 by 2 frame with one tile per side the
only tile is the remainder tile of width 1; its scan counts `dHorL = 1` and `dHorH = 1`, so
`dHorL` reaches the tile's own width and `dHorH * 100 / dHorL` is 100, but the code compares
with `dividedWidth = 2` and yields -1. -/
theorem highPercentH_remainder_tile :
    tileCounters (sharpOpts 1) cornerFrame.data (grid (sharpOpts 1) cornerFrame) 0 0 =
      ⟨0, 1, 0, 1⟩ ∧
    (grid (sharpOpts 1) cornerFrame).divHor = 1 ∧
    (grid (sharpOpts 1) cornerFrame).lenHor 0 = 1 ∧
    (grid (sharpOpts 1) cornerFrame).dividedWidth = 2 ∧
    Int.tdiv (1 * 100) 1 = 100 ∧
    highPercentH (grid (sharpOpts 1) cornerFrame)
      (tileCounters (sharpOpts 1) cornerFrame.data (grid (sharpOpts 1) cornerFrame) 0 0) =
      -1 := by
  decide

/-- C11, divergence: the wrap loop `while(rel > len)` of `hasChanged` stops at `rel = len`.
For a 5 x 4 frame (`len = 20`), `STILL_SAMPLING_PERCENT = 20` (so `n = 4`) and
`STILL_SAMPLING_INC = 10` the sampled indices are 0, 10, 20, 10 whatever the frames hold:
the sample `k = 2` is read at index `20 = len`, one past the last pixel, while
`(2 * 10) mod 20 = 0`. -/
theorem hasChanged_sample_index_reaches_len :
    ∀ (charSigned : Bool) (cp lp : Nat → Nat),
      (stillOpts 10 20 5).stillValid 20 ∧
      sampleCount (gray 4 5 cp) 20 = 4 ∧
      sampleIndices (stillOpts 10 20 5) charSigned cp lp 20 4 { rel := 0, nDiff := 0 }
        = [0, 10, 20, 10] ∧
      (2 * 10 : Int) % 20 = 0 := by
  intro cs cp lp
  refine ⟨by decide, by simp only [sampleCount, gray]; decide, ?_, by decide⟩
  simp [sampleIndices, sampleStep, wrapLoop, stillOpts]

/-- C12, divergence: `hasChanged` reads the pixels through `const char*`. Where plain `char`
is unsigned, `diff` is `|a - b|` for the 8-bit values `a` and `b`, as the claim has it.
Where plain `char` is signed the 8-bit values 127 and 128 are read as 127 and -128, so
`diff` is 255 and the sample is counted for every threshold up to 100, and two 5 x 4 frames
that differ by 1 everywhere are reported as changed; with an unsigned `char` the same frames
give `diff = 1` and are reported unchanged. -/
theorem hasChanged_signed_char_counts_127_128 :
    (∀ (cp lp : Nat → Nat) (rel : Int),
      sampleDiff false cp lp rel = |(cp rel.toNat : Int) - (lp rel.toNat : Int)|) ∧
    sampleDiff true (fun _ => 127) (fun _ => 128) 0 = 255 ∧
    (sampleStep (stillOpts 10 1 5) true (fun _ => 127) (fun _ => 128) 20
      { rel := 0, nDiff := 0 }).nDiff = 1 ∧
    (sampleStep (stillOpts 10 100 5) true (fun _ => 127) (fun _ => 128) 20
      { rel := 0, nDiff := 0 }).nDiff = 1 ∧
    hasChanged (stillOpts 10 20 5) true (gray 4 5 (fun _ => 127))
      (some (gray 4 5 (fun _ => 128))) 20 = some true ∧
    sampleDiff false (fun _ => 127) (fun _ => 128) 0 = 1 ∧
    hasChanged (stillOpts 10 20 5) false (gray 4 5 (fun _ => 127))
      (some (gray 4 5 (fun _ => 128))) 20 = some false := by
  refine ⟨?_, by decide, by decide, by decide, by decide, by decide, by decide⟩
  intro cp lp rel
  simp only [sampleDiff, readChar, Bool.false_and, Bool.false_eq_true, if_false]
  split_ifs with h
  · rw [abs_of_neg h]
  · rw [abs_of_nonneg (by omega)]

/-- C13: for valid non-empty frames (contiguous, one 8-bit channel, at least one pixel,
`len * 20` within the range of `int`) and a configuration within the option ranges,
`hasChanged` examines `n = floor(len * percent / 100)` samples with `len = cols * rows`
and returns true exactly when `100 * diffCount > n * STILL_DEFLECTION_PERCENT`, where
`diffCount` is the number of the `n` visited samples counted as diffs; `diffCount ≤ n`, the
result is false when `n = 0`, and the products the function forms stay within the range of
`int`. -/
theorem hasChanged_iff_deflection (cfg : Arguments) (charSigned : Bool) (current last : Mat)
    (percent : Int) (hc : current.validGray) (hl : last.validGray)
    (hv : cfg.stillValid percent) (hfit : current.cols * current.rows * 20 < 2 ^ 31) :
    sampleCount current percent = current.cols * current.rows * percent / 100 ∧
    hasChanged cfg charSigned current (some last) percent =
      some (decide (100 * diffCount cfg charSigned current.data last.data
          (current.cols * current.rows) (sampleCount current percent).toNat
        > sampleCount current percent * cfg.optStillDeflectionPercent)) ∧
    diffCount cfg charSigned current.data last.data (current.cols * current.rows)
      (sampleCount current percent).toNat ≤ sampleCount current percent ∧
    (sampleCount current percent = 0 →
      hasChanged cfg charSigned current (some last) percent = some false) ∧
    (current.cols * current.rows * percent < 2 ^ 31 ∧
      100 * diffCount cfg charSigned current.data last.data (current.cols * current.rows)
        (sampleCount current percent).toNat < 2 ^ 31 ∧
      sampleCount current percent * cfg.optStillDeflectionPercent < 2 ^ 31) := by
  obtain ⟨_, _, ⟨hp, hp20⟩, ⟨hd0, hd20⟩⟩ := hv
  have hpos : 0 < current.cols * current.rows := Int.mul_pos hc.2.2.2.2 hc.2.2.2.1
  have hlen : 0 ≤ current.cols * current.rows * percent :=
    Int.mul_nonneg (le_of_lt hpos) hp
  have hn : sampleCount current percent = current.cols * current.rows * percent / 100 := by
    unfold sampleCount
    exact Int.tdiv_eq_ediv hlen (by decide)
  have hn0 : 0 ≤ sampleCount current percent := by
    rw [hn]; exact Int.ediv_nonneg hlen (by decide)
  have hres : hasChanged cfg charSigned current (some last) percent =
      some (decide (100 * diffCount cfg charSigned current.data last.data
          (current.cols * current.rows) (sampleCount current percent).toNat
        > sampleCount current percent * cfg.optStillDeflectionPercent)) := by
    rw [hasChanged_valid cfg charSigned current last percent hc hl, sampleLoop_nDiff]
    simp only [sampleCount, diffCount, zero_add, mul_comm]
  have hle : diffCount cfg charSigned current.data last.data (current.cols * current.rows)
      (sampleCount current percent).toNat ≤ sampleCount current percent := by
    have h1 := List.length_filter_le
      (fun rel => decide (sampleDiff charSigned current.data last.data rel
        > cfg.optStillNoiseThreshold))
      (sampleIndices cfg charSigned current.data last.data (current.cols * current.rows)
        (sampleCount current percent).toNat { rel := 0, nDiff := 0 })
    rw [sampleIndices_length] at h1
    unfold diffCount
    omega
  have hfit1 : current.cols * current.rows * percent < 2 ^ 31 := by nlinarith
  have hn100 : sampleCount current percent * 100 ≤ current.cols * current.rows * percent := by
    rw [hn]; exact Int.ediv_mul_le _ (by decide)
  refine ⟨hn, hres, hle, ?_, hfit1, by omega, by nlinarith⟩
  intro h0
  rw [hres]
  have hd : diffCount cfg charSigned current.data last.data (current.cols * current.rows)
      (sampleCount current percent).toNat = 0 := by
    rw [h0]; simp [diffCount, sampleIndices]
  rw [hd, h0]
  simp

/-- Witness of C13: two 5 x 4 frames, the last one differing at pixel 9, sampled at 20
percent with increment 3: the samples are at 0, 3, 6 and 9, one diff among four exceeds the
deflection percent 5. -/
theorem hasChanged_iff_deflection_witness :
    (gray 4 5 (fun _ => 0)).validGray ∧
    (stillOpts 3 20 5).stillValid 20 ∧
    sampleCount (gray 4 5 (fun _ => 0)) 20 = 4 ∧
    diffCount (stillOpts 3 20 5) false (fun _ => 0) (fun i => if i = 9 then 90 else 0) (5 * 4)
      (sampleCount (gray 4 5 (fun _ => 0)) 20).toNat = 1 ∧
    hasChanged (stillOpts 3 20 5) false (gray 4 5 (fun _ => 0))
        (some (gray 4 5 (fun i => if i = 9 then 90 else 0))) 20 =
      some (decide (100 * diffCount (stillOpts 3 20 5) false (fun _ => 0)
          (fun i => if i = 9 then 90 else 0) (5 * 4)
          (sampleCount (gray 4 5 (fun _ => 0)) 20).toNat
        > sampleCount (gray 4 5 (fun _ => 0)) 20 * 5)) :=
  ⟨by decide, by decide, by decide, by decide,
   (hasChanged_iff_deflection (stillOpts 3 20 5) false (gray 4 5 (fun _ => 0))
    (gray 4 5 (fun i => if i = 9 then 90 else 0)) 20 (by decide) (by decide) (by decide)
    (by decide)).2.1⟩

/-- C14, divergence: two 5 x 4 frames whose 20 pixels are all equal, sampled at 20 percent
with increment 10, noise threshold 20 and deflection percent 5 (all inside the option
ranges). The third sample is read at index `20 = len`, past the last pixel of both frames;
the bytes found there differ, one diff among four samples is counted and `hasChanged`
returns true; with equal bytes behind the frames it returns false. -/
theorem hasChanged_identical_frames_changed :
    (∀ i : Nat, i < 20 → (fun _ : Nat => 0) i = (fun j : Nat => if j = 20 then 100 else 0) i) ∧
    (gray 4 5 (fun _ => 0)).validGray ∧ (stillOpts 10 20 5).stillValid 20 ∧
    hasChanged (stillOpts 10 20 5) false (gray 4 5 (fun _ => 0))
      (some (gray 4 5 (fun j => if j = 20 then 100 else 0))) 20 = some true ∧
    hasChanged (stillOpts 10 20 5) false (gray 4 5 (fun _ => 0))
      (some (gray 4 5 (fun _ => 0))) 20 = some false := by
  refine ⟨?_, by decide, by decide, by decide, by decide⟩
  intro i hi
  have : i ≠ 20 := by omega
  simp [this]

/-- C15: when `last` is absent (a null pointer) or empty, `hasChanged` returns true for every
current frame and every configuration: the result does not depend on the shape checks, which
come after. -/
theorem hasChanged_true_without_last (cfg : Arguments) (charSigned : Bool) (current : Mat)
    (last : Option Mat) (percent : Int)
    (h : last = none ∨ ∃ m, last = some m ∧ m.empty = true) :
    hasChanged cfg charSigned current last percent = some true := by
  rcases h with h | ⟨m, h, he⟩
  · subst h; rfl
  · subst h; simp [hasChanged, he]

/-- Witness of C15: a current frame that would fail the shape checks (three channels, not
contiguous), with `last` absent and with `last` empty. -/
theorem hasChanged_true_without_last_witness :
    hasChanged (stillOpts 10 20 5) true
        { rows := 4, cols := 5, channelCount := 3, depthCode := 5, continuous := false,
          data := fun _ => 0 } none 20 = some true ∧
    hasChanged (stillOpts 10 20 5) true
        { rows := 4, cols := 5, channelCount := 3, depthCode := 5, continuous := false,
          data := fun _ => 0 } (some (gray 0 0 (fun _ => 0))) 20 = some true :=
  ⟨hasChanged_true_without_last _ _ _ _ _ (Or.inl rfl),
   hasChanged_true_without_last _ _ _ _ _ (Or.inr ⟨_, rfl, by decide⟩)⟩

/-- C16: for a continuous 8-bit three-channel frame with width and height at least 1 whose
luma has the same value `v` at every pixel, and a configuration with `SHARP_DIFF_LOW` in
1..100, `SHARP_TILES_PER_SIDE` in 1..40 and `SHARP_HIGH_PERCENT ≥ 0`, `checkSharpness`
returns the empty set. -/
theorem checkSharpness_uniform_empty (cfg : Arguments) (frame : Mat) (v : Nat)
    (hc : frame.continuous = true ∧ frame.channelCount = 3 ∧ frame.depthCode = CV_8U)
    (hw : 1 ≤ frame.cols) (hh : 1 ≤ frame.rows) (hu : uniformLuma frame v)
    (hl : 1 ≤ cfg.optSharpDiffLow ∧ cfg.optSharpDiffLow ≤ 100)
    (ht : 1 ≤ cfg.optSharpTilesPerSide ∧ cfg.optSharpTilesPerSide ≤ 40)
    (hp : 0 ≤ cfg.optSharpHighPercent) :
    checkSharpness cfg frame = some [] := by
  rw [checkSharpness_valid cfg frame hc.1 hc.2.1 hc.2.2,
    sharpTiles_uniform cfg frame v (grid_sound cfg frame hw hh ht.1) hu (by omega) hp]

/-- Witness of C16: the 640 by 480 frame with luma 90 everywhere, ten tiles per side. -/
theorem checkSharpness_uniform_empty_witness :
    checkSharpness (sharpOpts 10) greyWall = some [] :=
  checkSharpness_uniform_empty (sharpOpts 10) greyWall 90 (by decide) (by decide) (by decide)
    greyWall_uniform (by decide) (by decide) (by decide)

/-- C17: `FrameProcessor::status` returns the value of the status word at the call. If that
value was terminal (FAIL, INCOMPLETE, APPROXIMATE or EXACT) the status word is NOIMAGE
afterwards and the next `status()` call, with no worker completion in between, returns
NOIMAGE; if it was NOIMAGE or PROCESSING the processor is unchanged. Over any sequence of
`status()` calls, `process()` calls and worker completions, the number of terminal values
returned is at most the number of jobs (running at the start or passed to `process()`), plus
one if the status word was terminal at the start: no job has its terminal status returned
twice. -/
theorem status_returns_terminal_once (p : FrameProcessor) :
    p.status.1 = p.current ∧
    (p.current.terminal = true →
      p.status.2.current = RESULT_NOIMAGE ∧ p.status.2.status.1 = RESULT_NOIMAGE) ∧
    (p.current.terminal = false → p.status.2 = p) ∧
    (∀ ops : List ProcOp,
      ((p.returned ops).filter FrameProcStatus.terminal).length ≤
        (if p.current.terminal then 1 else 0) + p.working.length +
          (ops.filter ProcOp.isProcess).length) := by
  refine ⟨status_fst p, ?_, status_snd_other p, fun ops => returned_terminal_bound ops p⟩
  intro h
  rw [status_snd_terminal p h]
  exact ⟨rfl, rfl⟩

/-- Witness of C17: a processor whose one job has ended with EXACT; `status()` is called
three times around a second job that is still running. -/
theorem status_returns_terminal_once_witness :
    ((FrameProcessor.init.process ⟨0, 0⟩).workerFinish RESULT_EXACT).status.1 = RESULT_EXACT ∧
    ((FrameProcessor.init.process ⟨0, 0⟩).workerFinish RESULT_EXACT).status.2.status.1
      = RESULT_NOIMAGE ∧
    ((FrameProcessor.init.process ⟨0, 0⟩).workerFinish RESULT_EXACT).returned
      [ProcOp.statusCall, ProcOp.statusCall, ProcOp.processCall ⟨1, 5⟩, ProcOp.statusCall]
      = [RESULT_EXACT, RESULT_NOIMAGE, RESULT_PROCESSING] :=
  ⟨(status_returns_terminal_once _).1,
   ((status_returns_terminal_once
      ((FrameProcessor.init.process ⟨0, 0⟩).workerFinish RESULT_EXACT)).2.1 (by decide)).2,
   by decide⟩

/-- C18: in every pass of every run that has `USE_STALE_FRAME` set and begins with the stale
slot holding a job `s`: no retrieve is performed (neither the first one nor the full-size
one), `s` is not deleted and no job is moved into the slot. If `started` is true at
still.cpp 284 and `status()` returned a value other than `RESULT_PROCESSING`, then `s`, and
no other job, is passed to `process()`, the slot is empty after the pass, `actualize` is
called and the dwell timer holds the clock value of that call; otherwise `s` is still in the
slot after the pass and nothing is passed to `process()`. In every pass of every run a job
is moved into the slot only when the slot is empty, so the slot never holds more than one
job. -/
theorem stale_job_kept_then_dispatched (started : Bool) (now changeTime : Int)
    (pre : List IterIn) (inp : IterIn) (s : ProcessArgs)
    (hu : inp.optUseStaleFrame ≠ 0)
    (hs : (runLoop pre (Loop.init started now changeTime)).1.staleArg = some s) :
    (Event.retrieveSmall ∉ (iteration inp (runLoop pre (Loop.init started now changeTime)).1).log ∧
      Event.retrieveDirect ∉
        (iteration inp (runLoop pre (Loop.init started now changeTime)).1).log ∧
      Event.retrieveFull ∉
        (iteration inp (runLoop pre (Loop.init started now changeTime)).1).log) ∧
    (Event.deleteArgs s ∉ (iteration inp (runLoop pre (Loop.init started now changeTime)).1).log ∧
      ∀ j, Event.toStale j ∉
        (iteration inp (runLoop pre (Loop.init started now changeTime)).1).log) ∧
    (∀ r, Event.status r ∈ (iteration inp (runLoop pre (Loop.init started now changeTime)).1).log →
      inp.started284 = true → r ≠ RESULT_PROCESSING →
      (∃ c, Event.process s c ∈
        (iteration inp (runLoop pre (Loop.init started now changeTime)).1).log) ∧
      (∀ j c, Event.process j c ∈
        (iteration inp (runLoop pre (Loop.init started now changeTime)).1).log → j = s) ∧
      (iteration inp (runLoop pre (Loop.init started now changeTime)).1).staleArg = none ∧
      Event.actualize inp.nowStale ∈
        (iteration inp (runLoop pre (Loop.init started now changeTime)).1).log ∧
      (iteration inp (runLoop pre (Loop.init started now changeTime)).1).timeInChange
        = inp.nowStale) ∧
    (∀ r, Event.status r ∈ (iteration inp (runLoop pre (Loop.init started now changeTime)).1).log →
      (inp.started284 = false ∨ r = RESULT_PROCESSING) →
      (iteration inp (runLoop pre (Loop.init started now changeTime)).1).staleArg = some s ∧
      ∀ j c, Event.process j c ∉
        (iteration inp (runLoop pre (Loop.init started now changeTime)).1).log) ∧
    (∀ (pre' : List IterIn) (inp' : IterIn) (j : ProcessArgs),
      Event.toStale j ∈
        (iteration inp' (runLoop pre' (Loop.init started now changeTime)).1).log →
      (runLoop pre' (Loop.init started now changeTime)).1.staleArg = none) := by
  have hfresh : ∀ pre' : List IterIn,
      staleFresh (runLoop pre' (Loop.init started now changeTime)).1 :=
    fun pre' => staleFresh_run pre' _ (by intro s h; simp [Loop.init] at h)
  refine ⟨?_, ?_, ?_, ?_, ?_⟩
  · have hf := hfresh pre
    generalize (runLoop pre (Loop.init started now changeTime)).1 = l at hs hf ⊢
    refine ⟨?_, ?_, ?_⟩
    · rw [mem_firstRetrieve inp l Event.retrieveSmall rfl]; simp [hu, hs]
    · rw [mem_firstRetrieve inp l Event.retrieveDirect rfl]; simp [hu, hs]
    · rw [mem_retrieveFull, stillRuns_iff]
      simp [smallRetrieved, hu, hs]
  · have hf := hfresh pre
    generalize (runLoop pre (Loop.init started now changeTime)).1 = l at hs hf ⊢
    constructor
    · intro h
      have h1 := mem_deleteArgs_stale inp l s hu h
      have h2 := hf s hs
      rw [h1] at h2
      simp [freshArgs] at h2
    · intro j h
      rw [mem_toStale] at h
      have := h.1.2.2.2
      rw [hs] at this
      exact absurd this (by simp)
  · generalize (runLoop pre (Loop.init started now changeTime)).1 = l at hs ⊢
    intro r hr h284 hne
    rw [mem_status] at hr
    subst hr
    have hd : dispatches inp l := ⟨h284, hne⟩
    have hp : ¬ parks inp l := by
      intro h; have := h.2.2.2; rw [hs] at this; exact absurd this (by simp)
    have hk : (afterKeep inp l).staleArg = some s := by
      rw [afterKeep_staleArg]; simp [hp, staleKept, hu, hs]
    refine ⟨⟨_, (mem_process inp l s _).mpr ⟨hd, rfl, Or.inl ⟨hu, hk⟩⟩⟩, ?_, ?_, ?_, ?_⟩
    · intro j c hj
      rw [mem_process] at hj
      rcases hj.2.2 with ⟨_, h⟩ | ⟨h, _⟩
      · rw [hk] at h; exact (Option.some.inj h).symm
      · exact absurd h hu
    · rw [iteration_staleArg]; simp [hd, hu]
    · rw [mem_actualize]
      exact Or.inr ⟨hd, hu, by rw [hk]; simp, rfl⟩
    · rw [iteration_timeInChange, hk]; simp [hd, hu]
  · generalize (runLoop pre (Loop.init started now changeTime)).1 = l at hs ⊢
    intro r hr hno
    rw [mem_status] at hr
    subst hr
    have hd : ¬ dispatches inp l := by
      intro h
      rcases hno with h1 | h1
      · rw [h.1] at h1; exact absurd h1 (by simp)
      · exact h.2 h1
    have hp : ¬ parks inp l := by
      intro h; have := h.2.2.2; rw [hs] at this; exact absurd this (by simp)
    constructor
    · rw [iteration_staleArg]; simp [hd, hp, staleKept, hu, hs]
    · intro j c hj
      rw [mem_process] at hj
      exact hd hj.1
  · intro pre' inp' j h
    rw [mem_toStale] at h
    exact h.1.2.2.2

/-- Witness of C18: a run with `USE_STALE_FRAME = 1`. The first pass sees a change; the
second dispatches its job; the third parks its job in the stale slot while the worker is
busy; in the fourth pass the worker has ended and the stale job is dispatched. -/
theorem stale_job_kept_then_dispatched_witness :
    (runLoop [passAt 1 true 0, passAt 1 false 1000, passAt 1 false 600000]
      (Loop.init true 0 500)).1.staleArg = some ⟨4, 600000⟩ ∧
    Event.retrieveSmall ∉ (iteration
      { passAt 1 false 700000 with workerBefore := some RESULT_EXACT }
      (runLoop [passAt 1 true 0, passAt 1 false 1000, passAt 1 false 600000]
        (Loop.init true 0 500)).1).log ∧
    (iteration { passAt 1 false 700000 with workerBefore := some RESULT_EXACT }
      (runLoop [passAt 1 true 0, passAt 1 false 1000, passAt 1 false 600000]
        (Loop.init true 0 500)).1).staleArg = none ∧
    (iteration { passAt 1 false 700000 with workerBefore := some RESULT_EXACT }
      (runLoop [passAt 1 true 0, passAt 1 false 1000, passAt 1 false 600000]
        (Loop.init true 0 500)).1).timeInChange = 700000 :=
  ⟨by decide,
   (stale_job_kept_then_dispatched true 0 500
      [passAt 1 true 0, passAt 1 false 1000, passAt 1 false 600000]
      { passAt 1 false 700000 with workerBefore := some RESULT_EXACT } ⟨4, 600000⟩
      (by decide) (by decide)).1.1,
   ((stale_job_kept_then_dispatched true 0 500
      [passAt 1 true 0, passAt 1 false 1000, passAt 1 false 600000]
      { passAt 1 false 700000 with workerBefore := some RESULT_EXACT } ⟨4, 600000⟩
      (by decide) (by decide)).2.2.1 RESULT_EXACT (by decide) (by decide) (by decide)).2.2.1,
   ((stale_job_kept_then_dispatched true 0 500
      [passAt 1 true 0, passAt 1 false 1000, passAt 1 false 600000]
      { passAt 1 false 700000 with workerBefore := some RESULT_EXACT } ⟨4, 600000⟩
      (by decide) (by decide)).2.2.1 RESULT_EXACT (by decide) (by decide) (by decide)).2.2.2.2⟩

/-- C19: in a pass whose `STILL_DOWNSAMPLE_EXPONENT` snapshot differs from the snapshot of
the pass before it, every call of `hasChanged` gets an empty `last` (the reservoir was
cleared at still.cpp 168-172), and `hasChanged` returns true for an absent `last` whatever
the current frame and the configuration. Consequently, in every pass of every run, when
`hasChanged` is called with a small frame `f` as `last`, the current small frame was
retrieved under the same capture properties as `f`: downsampled gray with the exponent of
this pass. -/
theorem hasChanged_last_cleared_on_exponent_change (l : Loop) (prev inp : IterIn)
    (hne : inp.optStillDownsampleExponent ≠ prev.optStillDownsampleExponent) :
    (∀ last c, Event.hasChanged last c ∈ (iteration inp (iteration prev l)).log →
      last = none) ∧
    (∀ (cfg : Arguments) (charSigned : Bool) (current : Mat) (percent : Int),
      hasChanged cfg charSigned current none percent = some true) ∧
    (∀ (started : Bool) (now changeTime : Int) (pre : List IterIn) (inp' : IterIn)
      (f : SmallFrame) (c : Bool),
      Event.hasChanged (some f) c ∈
        (iteration inp' (runLoop pre (Loop.init started now changeTime)).1).log →
      ∃ g, (afterGrab inp' (runLoop pre (Loop.init started now changeTime)).1).smallFrameCurr
          = some g ∧
        g.props = f.props ∧
        f.props = some (updateCaptureProps 1 inp'.optStillDownsampleExponent)) := by
  refine ⟨?_, fun _ _ _ _ => rfl, ?_⟩
  · intro last c h
    rw [mem_hasChanged, afterGrab_smallFrameLast, iteration_lastExponent] at h
    rw [h.2.1, if_pos (Ne.symm hne)]
  · intro started now changeTime pre inp' f c h
    have hinv := propsInv_run pre _ (propsInv_init started now changeTime)
    generalize (runLoop pre (Loop.init started now changeTime)).1 = l' at hinv h ⊢
    rw [mem_hasChanged] at h
    obtain ⟨hr, hl, _⟩ := h
    obtain ⟨g, hg, hgp⟩ := afterGrab_curr_props inp' l' hinv hr
    have hf := afterGrab_last_props inp' l' hinv f hl.symm
    exact ⟨g, hg, by rw [hgp, hf], hf⟩

/-- Witness of C19: the first pass runs with exponent 2 and stores its small frame, the
second pass runs with exponent 3 and calls `hasChanged` with an empty `last`. -/
theorem hasChanged_last_cleared_on_exponent_change_witness :
    (iteration (passAt 0 true 0) (Loop.init true 0 500)).smallFrameLast ≠ none ∧
    Event.hasChanged none true ∈
      (iteration { passAt 0 true 1000 with optStillDownsampleExponent := 3 }
        (iteration (passAt 0 true 0) (Loop.init true 0 500))).log ∧
    (∀ last c, Event.hasChanged last c ∈
      (iteration { passAt 0 true 1000 with optStillDownsampleExponent := 3 }
        (iteration (passAt 0 true 0) (Loop.init true 0 500))).log → last = none) :=
  ⟨by decide, by decide,
   (hasChanged_last_cleared_on_exponent_change (Loop.init true 0 500) (passAt 0 true 0)
      { passAt 0 true 1000 with optStillDownsampleExponent := 3 } (by decide)).1⟩

/-- C21: for a frame of width `W ≥ 1` and height `H ≥ 1` and `SHARP_TILES_PER_SIDE` in
1..40. The counters `tileCounters` of every tile of `checkSharpness` are its loop body
folded over the positions `tileVisits`, and the loop body run at a position depends on no
byte but those at `thisLine + lineLen`, `thisLine` and `thisLine + 3` (with
`lineLen = W * 3`). Every such offset, at every position the scan visits, is at least 0 and
below `W * H * 3`; hence `checkSharpness` returns the same for two frames of the same shape
that agree on these offsets, in particular for frames that agree below `W * H * 3`. One
pass of the loop body moves the pointer by 3 and updates the counters from two differences,
which for the visited pixel `(x, y)` are `|Y(x, y+1) - Y(x, y)|` and
`|Y(x+1, y) - Y(x, y)|` on the unsigned bytes of the luma channel. -/
theorem checkSharpness_reads_in_frame (cfg : Arguments) (frame : Mat)
    (hw : 1 ≤ frame.cols) (hh : 1 ≤ frame.rows)
    (ht : 1 ≤ cfg.optSharpTilesPerSide ∧ cfg.optSharpTilesPerSide ≤ 40) :
    (∀ r ∈ scanReads cfg frame, 0 ≤ r ∧ r < frame.cols * frame.rows * 3) ∧
    ((∀ fx fy : Nat, tileCounters cfg frame.data (grid cfg frame) fx fy =
        (tileVisits cfg frame.data (grid cfg frame) fx fy).foldl
          (countAt cfg frame.data (grid cfg frame).lineLen)
          { dVertL := 0, dHorL := 0, dVertH := 0, dHorH := 0 }) ∧
      (∀ (image : Nat → Nat) (s : Scan),
        (∀ r ∈ scanPixelReads (grid cfg frame).lineLen s,
          image r.toNat = frame.data r.toNat) →
        scanPixel cfg image (grid cfg frame).lineLen s =
          scanPixel cfg frame.data (grid cfg frame).lineLen s) ∧
      (∀ frame' : Mat, frame'.rows = frame.rows → frame'.cols = frame.cols →
        (frame'.continuous = frame.continuous ∧ frame'.channelCount = frame.channelCount ∧
          frame'.depthCode = frame.depthCode) →
        (∀ r ∈ scanReads cfg frame, frame'.data r.toNat = frame.data r.toNat) →
        checkSharpness cfg frame' = checkSharpness cfg frame) ∧
      (∀ frame' : Mat, frame'.rows = frame.rows → frame'.cols = frame.cols →
        (frame'.continuous = frame.continuous ∧ frame'.channelCount = frame.channelCount ∧
          frame'.depthCode = frame.depthCode) →
        (∀ i : Nat, (i : Int) < frame.cols * frame.rows * 3 → frame'.data i = frame.data i) →
        checkSharpness cfg frame' = checkSharpness cfg frame)) ∧
    (∀ s : Scan, scanPixel cfg frame.data (grid cfg frame).lineLen s =
      { thisLine := s.thisLine + 3,
        cnt :=
          { dVertL :=
              if vertDiff frame.data (grid cfg frame).lineLen s.thisLine > cfg.optSharpDiffLow
              then s.cnt.dVertL + 1 else s.cnt.dVertL,
            dHorL :=
              if horDiff frame.data s.thisLine > cfg.optSharpDiffLow
              then s.cnt.dHorL + 1 else s.cnt.dHorL,
            dVertH :=
              if vertDiff frame.data (grid cfg frame).lineLen s.thisLine > cfg.optSharpDiffLow
              then (if vertDiff frame.data (grid cfg frame).lineLen s.thisLine
                      > cfg.optSharpDiffHigh
                    then s.cnt.dVertH + 1 else s.cnt.dVertH)
              else s.cnt.dVertH,
            dHorH :=
              if horDiff frame.data s.thisLine > cfg.optSharpDiffLow
              then (if horDiff frame.data s.thisLine > cfg.optSharpDiffHigh
                    then s.cnt.dHorH + 1 else s.cnt.dHorH)
              else s.cnt.dHorH } }) ∧
    (∀ o ∈ visited cfg frame, ∃ x y : Int,
      (0 ≤ x ∧ x ≤ frame.cols - 2) ∧ (0 ≤ y ∧ y ≤ frame.rows - 2) ∧
      o = pixelOffset frame x y ∧
      vertDiff frame.data (grid cfg frame).lineLen o = |luma frame x (y + 1) - luma frame x y| ∧
      horDiff frame.data o = |luma frame (x + 1) y - luma frame x y|) := by
  have hg := grid_sound cfg frame hw hh ht.1
  have hb := scanReads_bounds cfg frame hg hw
  refine ⟨hb, ⟨fun fx fy => tileCounters_fold cfg frame.data _ fx fy,
    fun image s h => scanPixel_reads_only cfg frame.data image _ s h,
    fun frame' hr hc hhd h => checkSharpness_agree cfg frame frame' hg hr hc hhd h, ?_⟩,
    fun _ => rfl, visited_diffs cfg frame hg⟩
  intro frame' hr hc hhd h
  apply checkSharpness_agree cfg frame frame' hg hr hc hhd
  intro r hrm
  obtain ⟨h0, h1⟩ := hb r hrm
  exact h r.toNat (by rw [Int.toNat_of_nonneg h0]; exact h1)

/-- Witness of C21: the 2 by 2 frame with one tile per side; the one visited pixel is
(0, 0), read at the offsets 6 (the pixel below), 0, 0 and 3 (the pixel to the right), all
below `2 * 2 * 3 = 12`; the counters of the tile are the loop body run once, at offset 0. -/
theorem checkSharpness_reads_in_frame_witness :
    scanReads (sharpOpts 1) cornerFrame = [6, 0, 0, 3] ∧
    tileVisits (sharpOpts 1) cornerFrame.data (grid (sharpOpts 1) cornerFrame) 0 0 = [0] ∧
    (∀ r ∈ scanReads (sharpOpts 1) cornerFrame, 0 ≤ r ∧ r < 2 * 2 * 3) ∧
    tileCounters (sharpOpts 1) cornerFrame.data (grid (sharpOpts 1) cornerFrame) (0 : Nat)
        (0 : Nat) =
      (tileVisits (sharpOpts 1) cornerFrame.data (grid (sharpOpts 1) cornerFrame) (0 : Nat)
          (0 : Nat)).foldl
        (countAt (sharpOpts 1) cornerFrame.data (grid (sharpOpts 1) cornerFrame).lineLen)
        { dVertL := 0, dHorL := 0, dVertH := 0, dHorH := 0 } :=
  ⟨by decide, by decide,
   (checkSharpness_reads_in_frame (sharpOpts 1) cornerFrame (by decide) (by decide)
      (by decide)).1,
   (checkSharpness_reads_in_frame (sharpOpts 1) cornerFrame (by decide) (by decide)
      (by decide)).2.1.1 0 0⟩

/-- C22: the table of the code (each of the 16 long options that take a value, with the
limits `optLimits` stores for its enumerator) equals the option table of the spec, and each
of these options has a row of `optLimits` with a variable. When the enumerators have the values of the
positions of their rows, for each row with a variable: if `parseExc` returns `v` for the
argument, the pass of `Arguments::parse` for that option stores `v` in the row's variable
and changes no other variable if `limitLow ≤ v ≤ limitHigh`, and otherwise throws
`out_of_range` with every variable at its previous value; the same holds for
`Arguments::parse` called with that one option. -/
theorem parse_checks_option_limits (code : OptIndex → Int) (hcode : indexesRows code) :
    (options.length = 16 ∧
      codeOptionTable = specOptionTable.map (fun t => (t.1, some (t.2.1, t.2.2)))) ∧
    (∀ p ∈ options, ∃ q ∈ optLimits.enum, q.2.index = p.2 ∧ q.2.pointer.isSome = true) ∧
    (∀ (i : Nat) (row : OptLimits) (var : OptVar),
      (i, row) ∈ optLimits.enum → row.pointer = some var →
      ∀ (fuel : Nat) (vars : OptVar → Int) (optarg : Option (List Nat)) (v : Int) (n : Nat),
        parseExc fuel optarg = some (Outcome.returned (v, n)) →
        Arguments.parseOption code fuel vars (code row.index) optarg =
          (if row.limitLow ≤ v ∧ v ≤ row.limitHigh then
            some { outcome := Outcome.returned (), vars := Function.update vars var v }
          else some { outcome := Outcome.thrown ParseError.outOfRange, vars := vars }) ∧
        Arguments.parse code fuel [(code row.index, optarg)] vars =
          (if row.limitLow ≤ v ∧ v ≤ row.limitHigh then
            some { outcome := Outcome.returned (), vars := Function.update vars var v }
          else some { outcome := Outcome.thrown ParseError.outOfRange, vars := vars })) := by
  refine ⟨⟨rfl, by decide⟩, by decide, ?_⟩
  intro i row var hrow hvar fuel vars optarg v n hparse
  have h := parseOption_row code hcode i row var (List.mk_mem_enum_iff_getElem?.mp hrow) hvar
    fuel vars optarg v n hparse
  refine ⟨h, ?_⟩
  simp only [Arguments.parse, h]
  split_ifs <;> rfl

/-- Witness of C22: the enumerators numbered from 0 in the order of the rows; the option
`video-num` (limits 0 and 9) with the arguments `5` and `10`, all variables at 7 before. -/
theorem parse_checks_option_limits_witness :
    indexesRows rowNumbering ∧
    Arguments.parseOption rowNumbering 0 (fun _ => 7)
        (rowNumbering OptIndex.OPT_VIDEO_NUM) (some (cstr "5")) =
      some { outcome := Outcome.returned (),
             vars := Function.update (fun _ => 7) OptVar.optVideoNum 5 } ∧
    Arguments.parseOption rowNumbering 0 (fun _ => 7)
        (rowNumbering OptIndex.OPT_VIDEO_NUM) (some (cstr "10")) =
      some { outcome := Outcome.thrown ParseError.outOfRange, vars := fun _ => 7 } :=
  ⟨by decide,
   ((parse_checks_option_limits rowNumbering (by decide)).2.2 1
      ⟨OptIndex.OPT_VIDEO_NUM, 0, 9, some OptVar.optVideoNum⟩ OptVar.optVideoNum (by decide)
      rfl 0 (fun _ => 7) (some (cstr "5")) 5 1 (by decide)).1,
   ((parse_checks_option_limits rowNumbering (by decide)).2.2 1
      ⟨OptIndex.OPT_VIDEO_NUM, 0, 9, some OptVar.optVideoNum⟩ OptVar.optVideoNum (by decide)
      rfl 0 (fun _ => 7) (some (cstr "10")) 10 2 (by decide)).1⟩

/-- C23: for a frame of width and height at least 1 and `SHARP_TILES_PER_SIDE` in 1..40,
the divisors `divHor` and `divVert` and the guard thresholds `dividedWidth` and
`dividedHeight` are at least 1; for every value of the counters, a denominator that passes
its guard is at least 1, and the two scores computed with the division of C++ have a value:
no division by zero occurs. -/
theorem checkSharpness_no_division_by_zero (cfg : Arguments) (frame : Mat)
    (hw : 1 ≤ frame.cols) (hh : 1 ≤ frame.rows)
    (ht : 1 ≤ cfg.optSharpTilesPerSide ∧ cfg.optSharpTilesPerSide ≤ 40) :
    (1 ≤ (grid cfg frame).divHor ∧ 1 ≤ (grid cfg frame).divVert) ∧
    (1 ≤ (grid cfg frame).dividedWidth ∧ 1 ≤ (grid cfg frame).dividedHeight) ∧
    (∀ c : Counters,
      (c.dHorL ≥ (grid cfg frame).dividedWidth → 1 ≤ c.dHorL) ∧
      (c.dVertL ≥ (grid cfg frame).dividedHeight → 1 ≤ c.dVertL) ∧
      highPercentHChecked (grid cfg frame) c = some (highPercentH (grid cfg frame) c) ∧
      highPercentVChecked (grid cfg frame) c = some (highPercentV (grid cfg frame) c)) := by
  have hg := grid_sound cfg frame hw hh ht.1
  have h1 := hg.dividedWidth_pos
  have h2 := hg.dividedHeight_pos
  refine ⟨⟨hg.divHor_pos, hg.divVert_pos⟩, ⟨h1, h2⟩, ?_⟩
  intro c
  refine ⟨fun h => by omega, fun h => by omega, ?_, ?_⟩
  · unfold highPercentHChecked highPercentH intDiv
    split_ifs with ha hb
    · omega
    · rfl
    · rfl
  · unfold highPercentVChecked highPercentV intDiv
    split_ifs with ha hb
    · omega
    · rfl
    · rfl

/-- Witness of C23: the 32 by 2 frame with two tiles per side, whose first tile has 16
low and 16 high vertical differences. -/
theorem checkSharpness_no_division_by_zero_witness :
    (grid (sharpOpts 2) (twoRowFrame 32)).dividedWidth = 16 ∧
    (grid (sharpOpts 2) (twoRowFrame 32)).dividedHeight = 2 ∧
    highPercentVChecked (grid (sharpOpts 2) (twoRowFrame 32))
      (tileCounters (sharpOpts 2) (twoRowFrame 32).data (grid (sharpOpts 2) (twoRowFrame 32))
        0 0) =
      some (highPercentV (grid (sharpOpts 2) (twoRowFrame 32))
        (tileCounters (sharpOpts 2) (twoRowFrame 32).data
          (grid (sharpOpts 2) (twoRowFrame 32)) 0 0)) :=
  ⟨by decide, by decide,
   ((checkSharpness_no_division_by_zero (sharpOpts 2) (twoRowFrame 32) (by decide) (by decide)
      (by decide)).2.2 _).2.2.2⟩

/-- C24, divergence: on a string with no digit that begins with whitespace `parseExc<int>`
does not throw `invalid_argument`: its whitespace loop, `while(std::isspace(*ptr)) str++`,
tests `*ptr` and advances `str`, so on the string of one space, and on every string that
begins with a space, the loop has not ended after any number of passes and the function
neither returns nor throws. Without the leading space the function does what is expected
of it: on the empty string, on `x`, on `-` and on `-x` it throws `invalid_argument`, on
`-2147483648x` it returns the least `int` and the offset 11 of the letter, and on
`2147483648` it throws `out_of_range`. -/
theorem parseExc_blank_without_digit_never_throws :
    (∀ fuel : Nat, parseExc fuel (some (cstr " ")) = none) ∧
    (∀ (fuel : Nat) (rest : List Nat), parseExc fuel (some (32 :: rest)) = none) ∧
    (∀ fuel : Nat, parseExc fuel (some (cstr "")) =
      some (Outcome.thrown ParseError.invalidArgument)) ∧
    (∀ fuel : Nat, parseExc fuel (some (cstr "x")) =
      some (Outcome.thrown ParseError.invalidArgument)) ∧
    (∀ fuel : Nat, parseExc fuel (some (cstr "-")) =
      some (Outcome.thrown ParseError.invalidArgument)) ∧
    (∀ fuel : Nat, parseExc fuel (some (cstr "-x")) =
      some (Outcome.thrown ParseError.invalidArgument)) ∧
    (∀ fuel : Nat, parseExc fuel (some (cstr "-2147483648x")) =
      some (Outcome.returned (-2147483648, 11))) ∧
    (∀ fuel : Nat, parseExc fuel (some (cstr "2147483648")) =
      some (Outcome.thrown ParseError.outOfRange)) := by
  refine ⟨fun fuel => (parseExc_none_iff fuel _).mpr (by decide),
    fun fuel rest => (parseExc_none_iff fuel _).mpr rfl, fun fuel => ?_,
    fun fuel => ?_, fun fuel => ?_, fun fuel => ?_, fun fuel => ?_, fun fuel => ?_⟩
  · exact (parseExc_exact_value fuel (cstr "") (cstr "") (cstr "") (by decide) (by decide)
      (by decide)).2.2 rfl (Or.inr (by decide))
  · exact (parseExc_exact_value fuel (cstr "") (cstr "") (cstr "x") (by decide) (by decide)
      (by decide)).2.2 rfl (Or.inr (by decide))
  · exact (parseExc_exact_value fuel (cstr "-") (cstr "") (cstr "") (by decide) (by decide)
      (by decide)).2.2 rfl (Or.inl (by decide))
  · exact (parseExc_exact_value fuel (cstr "-") (cstr "") (cstr "x") (by decide) (by decide)
      (by decide)).2.2 rfl (Or.inl (by decide))
  · exact (parseExc_exact_value fuel (cstr "-") (cstr "2147483648") (cstr "x") (by decide)
      (by decide) (by decide)).2.1 (by decide)
  · exact (parseExc_exact_value fuel (cstr "") (cstr "2147483648") (cstr "") (by decide)
      (by decide) (by decide)).2.1 (by decide)

/-- C25, divergence: the whitespace loop of `parseExc`, `while(std::isspace(*ptr)) str++`,
tests `*ptr` and advances `str`. On the string of a space and the digit 5 the loop has not
ended after any number of passes, so the function neither returns nor throws, while on the
string of the digit 5 alone it returns 5. For every string, the function fails to end
exactly when the string begins with a whitespace character. -/
theorem parseExc_leading_space_never_returns :
    (∀ fuel : Nat, parseExc fuel (some (cstr " 5")) = none) ∧
    (∀ fuel : Nat, parseExc fuel (some (cstr "5")) = some (Outcome.returned (5, 1))) ∧
    (∀ (fuel : Nat) (s : List Nat),
      parseExc fuel (some s) = none ↔ isspace (charAt s 0) = true) := by
  refine ⟨fun fuel => ?_, fun fuel => ?_, parseExc_none_iff⟩
  · exact (parseExc_none_iff fuel _).mpr (by decide)
  · have h := parseExc_digits fuel [] (cstr "5") [] (Or.inl rfl) (by decide) (by decide)
      (by simp)
    have e : ([] : List Nat) ++ cstr "5" ++ [] = cstr "5" := by decide
    rw [e] at h
    rw [h]
    decide

/-- C26: for a frame of width and height at least 1 and `SHARP_TILES_PER_SIDE` in 1..40: in
every tile the high counters are between 0 and the low counters; every `SharpTile`
returned by `checkSharpness` has `SHARP_HIGH_PERCENT < highPercent ≤ 100`; the returned
tiles are strictly ascending in `highPercent`, so no two of them have the same
`highPercent`; the returned set has at most `100 - SHARP_HIGH_PERCENT` elements when
`SHARP_HIGH_PERCENT` is at most 100, its greatest value as an option, and is empty
above. -/
theorem checkSharpness_scores_distinct_bounded (cfg : Arguments) (frame : Mat)
    (tiles : List SharpTile) (hw : 1 ≤ frame.cols) (hh : 1 ≤ frame.rows)
    (ht : 1 ≤ cfg.optSharpTilesPerSide ∧ cfg.optSharpTilesPerSide ≤ 40)
    (hr : checkSharpness cfg frame = some tiles) :
    (∀ fx fy : Int, (tileCounters cfg frame.data (grid cfg frame) fx fy).ordered) ∧
    (∀ t ∈ tiles, cfg.optSharpHighPercent < t.highPercent ∧ t.highPercent ≤ 100) ∧
    tiles.Pairwise (fun a b => a.highPercent < b.highPercent) ∧
    tiles.Pairwise (fun a b => a.highPercent ≠ b.highPercent) ∧
    (cfg.optSharpHighPercent ≤ 100 → (tiles.length : Int) ≤ 100 - cfg.optSharpHighPercent) ∧
    (100 < cfg.optSharpHighPercent → tiles = []) := by
  have hg := grid_sound cfg frame hw hh ht.1
  have hs : tiles = sharpTiles cfg frame := by
    unfold checkSharpness at hr
    split_ifs at hr
    exact (Option.some.inj hr).symm
  obtain ⟨hsorted, hmem⟩ := sharpTiles_inv cfg frame
  rw [← hs] at hsorted hmem
  have hb : ∀ t ∈ tiles, cfg.optSharpHighPercent < t.highPercent ∧ t.highPercent ≤ 100 := by
    intro t htm
    obtain ⟨h1, fx, fy, _, _, rfl⟩ := hmem t htm
    exact ⟨h1, (highPercent_le _ _ (tileCounters_ordered cfg frame.data _ fx fy)
      hg.dividedWidth_pos hg.dividedHeight_pos).2⟩
  refine ⟨fun fx fy => tileCounters_ordered cfg frame.data _ fx fy, hb, hsorted, ?_, ?_, ?_⟩
  · exact hsorted.imp (fun h => ne_of_lt h)
  · exact fun hp => sorted_length_le tiles _ _ hsorted hb hp
  · intro hp
    cases tiles with
    | nil => rfl
    | cons t r =>
      have := hb t (List.mem_cons_self _ _)
      omega

/-- Witness of C26: the 32 by 2 frame with two tiles per side and `SHARP_HIGH_PERCENT = 40`;
one tile with `highPercent = 100` is returned. -/
theorem checkSharpness_scores_distinct_bounded_witness :
    checkSharpness (sharpOpts 2) (twoRowFrame 32) = some [⟨100, 16, 1, 0, 0⟩] ∧
    (∀ t ∈ [(⟨100, 16, 1, 0, 0⟩ : SharpTile)],
      (sharpOpts 2).optSharpHighPercent < t.highPercent ∧ t.highPercent ≤ 100) ∧
    (([(⟨100, 16, 1, 0, 0⟩ : SharpTile)].length : Int) ≤
      100 - (sharpOpts 2).optSharpHighPercent) :=
  ⟨by decide,
   (checkSharpness_scores_distinct_bounded (sharpOpts 2) (twoRowFrame 32) _ (by decide)
      (by decide) (by decide) (by decide)).2.1,
   (checkSharpness_scores_distinct_bounded (sharpOpts 2) (twoRowFrame 32) _ (by decide)
      (by decide) (by decide) (by decide)).2.2.2.2.1 (by decide)⟩

/-- C27: for a frame of width `W ≥ 1` and height `H ≥ 1` and `SHARP_TILES_PER_SIDE` in
1..40, every `SharpTile` returned by `checkSharpness` has `startX ≥ 0`, `startY ≥ 0`,
`width ≥ 0`, `height ≥ 0`, `startX + width ≤ W - 1` and `startY + height ≤ H - 1`, and so
meets the condition under which `doProcess` cuts its rectangle out of the frame-sized
mask. -/
theorem checkSharpness_tiles_inside_frame (cfg : Arguments) (frame : Mat)
    (tiles : List SharpTile) (hw : 1 ≤ frame.cols) (hh : 1 ≤ frame.rows)
    (ht : 1 ≤ cfg.optSharpTilesPerSide ∧ cfg.optSharpTilesPerSide ≤ 40)
    (hr : checkSharpness cfg frame = some tiles) :
    ∀ t ∈ tiles, t.inside frame.cols frame.rows ∧ t.maskRegionOk frame := by
  have hg := grid_sound cfg frame hw hh ht.1
  have hs : tiles = sharpTiles cfg frame := by
    unfold checkSharpness at hr
    split_ifs at hr
    exact (Option.some.inj hr).symm
  intro t htm
  rw [hs] at htm
  obtain ⟨_, fx, fy, hx, hy, rfl⟩ := (sharpTiles_inv cfg frame).2 t htm
  have hin := tileOf_inside cfg frame.data (grid cfg frame) hg fx fy hx hy
  refine ⟨hin, ?_⟩
  obtain ⟨a, b, c, d, e, f⟩ := hin
  have e1 : (grid cfg frame).imageWidth = frame.cols := rfl
  have e2 : (grid cfg frame).imageHeight = frame.rows := rfl
  rw [e1] at e
  rw [e2] at f
  exact ⟨a, c, by omega, b, d, by omega⟩

/-- Witness of C27: the 32 by 2 frame with two tiles per side; the returned tile is the
rectangle of width 16 and height 1 at (0, 0). -/
theorem checkSharpness_tiles_inside_frame_witness :
    checkSharpness (sharpOpts 2) (twoRowFrame 32) = some [⟨100, 16, 1, 0, 0⟩] ∧
    (∀ t ∈ [(⟨100, 16, 1, 0, 0⟩ : SharpTile)],
      t.inside (twoRowFrame 32).cols (twoRowFrame 32).rows ∧
      t.maskRegionOk (twoRowFrame 32)) :=
  ⟨by decide,
   checkSharpness_tiles_inside_frame (sharpOpts 2) (twoRowFrame 32) _ (by decide) (by decide)
      (by decide) (by decide)⟩

end projector
